import Mathlib

/-! Overlay routing plane of `mynetwork`: route lookup, recursion gate, peer registry.

A shallow embedding of `config/config.go`, `p2p/routing_windows.go` and the
`AddPeer` handler of `rpc/server.go`.

Conventions of the embedding:

* `net.IP` is a byte slice (`List Nat`), a `net.IPNet` is an address with the
  number of leading one bits of its CIDR mask;
* the route table `cidranger.NewPCTrieRanger()` is an external dependency; it is
  modelled as one binary prefix trie per address family, walked from the root
  to the leaf exactly as the library walks its (path compressed) trie;
* a `cidranger.RangerEntry` interface value remembers its dynamic type
  (`*RouteTableEntry` or `RouteTableEntry`), so that Go type assertions can
  fail; a failed assertion is the outcome `Exec.panic`;
* functions the sources call but do not define (`mkBuiltinAddr4`,
  `mkBuiltinAddr6`, `peer.Decode`, `strings.ToLower`, `peer.ID.String`) are the
  fields of an `Env`.
-/

namespace MyNetwork

/-! ## Go runtime outcomes -/

/-- Outcome of running a Go function that may panic. -/
inductive Exec (α : Type) where
  | ret (a : α) : Exec α
  | panic : Exec α
deriving DecidableEq, Repr

/-- Sequencing of two Go computations: a panic of the first aborts the second. -/
def Exec.bind {α β : Type} (x : Exec α) (f : α → Exec β) : Exec β :=
  match x with
  | .ret a => f a
  | .panic => .panic

/-! ## Identifiers and addresses -/

/-- The libp2p `peer.ID`: a byte string compared with `==`. -/
structure PeerID where
  raw : String
deriving DecidableEq, Repr

/-- The Go `net.IP`: a slice of bytes, 4 long (IPv4) or 16 long (IPv6). -/
abbrev IP := List Nat

/-- The Go `net.IPNet` with a CIDR mask: the address and the number of ones. -/
structure IPNet where
  IP : IP
  ones : Nat
deriving DecidableEq, Repr

/-- Address families distinguished by cidranger (`rnet.IPVersion`). -/
inductive IPVersion where
  | IPv4 : IPVersion
  | IPv6 : IPVersion
deriving DecidableEq, Repr

/-- The twelve leading bytes of an IPv4-mapped IPv6 address (`v4InV6Prefix`). -/
def v4InV6Prefix : List Nat := [0, 0, 0, 0, 0, 0, 0, 0, 0, 0, 255, 255]

/-- The Go `net.IP.To4`: the 4-byte form of an IPv4 address, `none` for Go's nil. -/
def To4 (ip : IP) : Option IP :=
  if ip.length = 4 then some ip
  else if ip.length = 16 ∧ ip.take 12 = v4InV6Prefix then some (ip.drop 12)
  else none

/-- The Go `net.IP.To16`: the 16-byte form of an address, `none` for Go's nil. -/
def To16 (ip : IP) : Option IP :=
  if ip.length = 4 then some (v4InV6Prefix ++ ip)
  else if ip.length = 16 then some ip
  else none

/-- The eight bits of a byte, most significant first. -/
def byteBits (b : Nat) : List Bool :=
  [b / 128 % 2 == 1, b / 64 % 2 == 1, b / 32 % 2 == 1, b / 16 % 2 == 1,
   b / 8 % 2 == 1, b / 4 % 2 == 1, b / 2 % 2 == 1, b % 2 == 1]

/-- The bits of a byte slice, most significant first. -/
def bytesBits : List Nat → List Bool
  | [] => []
  | b :: bs => byteBits b ++ bytesBits bs

/-- The cidranger `rnet.NewNetworkNumber`: family and big-endian bits of an address,
`none` for the library's nil number. -/
def NewNetworkNumber (ip : IP) : Option (IPVersion × List Bool) :=
  match To4 ip with
  | some x => some (.IPv4, bytesBits x)
  | none =>
    match To16 ip with
    | some x => some (.IPv6, bytesBits x)
    | none => none

/-- The Go `net.IPNet.Contains` for a CIDR mask: same family and the same
leading `ones` bits. -/
def IPNet.Contains (n : IPNet) (ip : MyNetwork.IP) : Bool :=
  match NewNetworkNumber n.IP, NewNetworkNumber ip with
  | some (v, nb), some (w, ib) => v == w && nb.take n.ones == ib.take n.ones
  | _, _ => false

/-! ## Peers and route table entries (`config/config.go`) -/

/-- The struct `Peer` of `config.go`. -/
structure Peer where
  ID : PeerID
  Name : String
  BuiltinAddr4 : IP
  BuiltinAddr6 : IP
deriving DecidableEq, Repr

/-- The struct `RouteTableEntry` of `config.go`. -/
structure RouteTableEntry where
  Net : IPNet
  Target : Peer
deriving DecidableEq, Repr

/-- A `cidranger.RangerEntry` interface value with its dynamic type: both
`*RouteTableEntry` and `RouteTableEntry` implement `Network()`. -/
inductive RangerEntry where
  | ptr (e : RouteTableEntry) : RangerEntry
  | val (e : RouteTableEntry) : RangerEntry
deriving DecidableEq, Repr

/-- The entry behind the interface value, whatever its dynamic type. -/
def RangerEntry.entry : RangerEntry → RouteTableEntry
  | .ptr e => e
  | .val e => e

/-- The method `RouteTableEntry.Network`. -/
def RangerEntry.Network (n : RangerEntry) : IPNet := n.entry.Net

/-- The Go type assertion `n.(RouteTableEntry)`: panics on a pointer. -/
def assertValue : RangerEntry → Exec RouteTableEntry
  | .val e => .ret e
  | .ptr _ => .panic

/-- The Go type assertion `n.(*RouteTableEntry)`: panics on a value. -/
def assertPointer : RangerEntry → Exec RouteTableEntry
  | .ptr e => .ret e
  | .val _ => .panic

/-! ## The route table (`cidranger.NewPCTrieRanger`) -/

/-- Errors returned by cidranger. -/
inductive RangerError where
  | ErrInvalidNetworkNumberInput : RangerError
deriving DecidableEq, Repr

/-- A prefix trie over the bits of a network number: the node reached from the
root by the bits `b₀ … bₖ₋₁` stands for the prefix of length `k` made of those
bits and may hold the entry inserted for that prefix. -/
inductive prefixTrie where
  | empty : prefixTrie
  | node (entry : Option RangerEntry) (child0 child1 : prefixTrie) : prefixTrie
deriving DecidableEq, Repr

namespace prefixTrie

/-- The trie method `insert`: walks down the bits of the network and sets the
entry of the node of that network, replacing an entry already there. -/
def insert : prefixTrie → List Bool → RangerEntry → prefixTrie
  | .empty, [], e => .node (some e) .empty .empty
  | .empty, b :: bs, e =>
    if b then .node none .empty (insert .empty bs e)
    else .node none (insert .empty bs e) .empty
  | .node _ c0 c1, [], e => .node (some e) c0 c1
  | .node x c0 c1, b :: bs, e =>
    if b then .node x c0 (insert c1 bs e) else .node x (insert c0 bs e) c1

/-- The trie method `containingNetworks`: the entries met on the way from the root
along the bits of the address, the entry of a node before those of its child
(ascending prefix order). -/
def containingNetworks : prefixTrie → List Bool → List RangerEntry
  | .empty, _ => []
  | .node x _ _, [] => x.toList
  | .node x c0 c1, b :: bs =>
    x.toList ++ (if b then containingNetworks c1 bs else containingNetworks c0 bs)

/-- The trie method `walkDepth`, with the path of every entry: the entry of a node,
then the entries below its child 0, then those below its child 1. -/
def walk : prefixTrie → List (List Bool × RangerEntry)
  | .empty => []
  | .node x c0 c1 =>
    x.toList.map (fun e => ([], e))
      ++ ((walk c0).map (fun pe => (false :: pe.1, pe.2))
      ++ (walk c1).map (fun pe => (true :: pe.1, pe.2)))

end prefixTrie

/-- The struct `versionedRanger` of cidranger: one trie for each address family. -/
structure versionedRanger where
  ipV4Ranger : prefixTrie
  ipV6Ranger : prefixTrie
deriving DecidableEq, Repr

/-- The constructor `cidranger.NewPCTrieRanger`. -/
def NewPCTrieRanger : versionedRanger := ⟨.empty, .empty⟩

/-- The key of a network in its trie: the family of its address and the leading
`ones` bits of its number. -/
def networkKey (n : IPNet) : Option (IPVersion × List Bool) :=
  match NewNetworkNumber n.IP with
  | some (v, bits) => some (v, bits.take n.ones)
  | none => none

namespace versionedRanger

/-- The method `Insert`: dispatches on the family of the network address
(`getRangerForIP`) and inserts into that trie; the error is the second component. -/
def Insert (r : versionedRanger) (entry : RangerEntry) : versionedRanger × Option RangerError :=
  match networkKey entry.Network with
  | some (.IPv4, key) => ({ r with ipV4Ranger := r.ipV4Ranger.insert key entry }, none)
  | some (.IPv6, key) => ({ r with ipV6Ranger := r.ipV6Ranger.insert key entry }, none)
  | none => (r, some .ErrInvalidNetworkNumberInput)

/-- The method `ContainingNetworks`: the entries whose network contains the
address, in ascending prefix order, and the error (`none` for nil). -/
def ContainingNetworks (r : versionedRanger) (ip : IP) : List RangerEntry × Option RangerError :=
  match NewNetworkNumber ip with
  | some (.IPv4, bits) => (r.ipV4Ranger.containingNetworks bits, none)
  | some (.IPv6, bits) => (r.ipV6Ranger.containingNetworks bits, none)
  | none => ([], some .ErrInvalidNetworkNumberInput)

/-- All entries of the table. -/
def entries (r : versionedRanger) : List RangerEntry :=
  (r.ipV4Ranger.walk ++ r.ipV6Ranger.walk).map (fun pe => pe.2)

end versionedRanger

/-! ## The configuration (`config/config.go`) -/

/-- A Go map, as the list of its key-value pairs (at most one pair for a key). -/
abbrev GoMap (κ ν : Type) := List (κ × ν)

/-- The map read `m[k]`. -/
def GoMap.get {κ ν : Type} [DecidableEq κ] : GoMap κ ν → κ → Option ν
  | [], _ => none
  | (k', v) :: m, k => if k' = k then some v else GoMap.get m k

/-- The map assignment `m[k] = v`. -/
def GoMap.set {κ ν : Type} [DecidableEq κ] : GoMap κ ν → κ → ν → GoMap κ ν
  | [], k, v => [(k, v)]
  | (k', v') :: m, k, v => if k' = k then (k, v) :: m else (k', v') :: GoMap.set m k v

/-- The struct `PeerLookup` of `config.go`. -/
structure PeerLookup where
  ByRoute : versionedRanger
  ByName : GoMap String Peer
  ByNetID : GoMap (List Nat) Peer
deriving DecidableEq, Repr

/-- The struct `Config` of `config.go`, restricted to the peer registry and the
route table (the fields `Path`, `Interface`, `ListenAddresses`, `PrivateKey`,
`BuiltinAddr4`, `BuiltinAddr6` and `Services` play no part here). -/
structure Config where
  Peers : List Peer
  PeerLookup : PeerLookup
deriving DecidableEq, Repr

/-- Functions that the sources call and do not define. -/
structure Env where
  /-- `mkBuiltinAddr4` of package `config`. -/
  mkBuiltinAddr4 : PeerID → IP
  /-- `mkBuiltinAddr6` of package `config`. -/
  mkBuiltinAddr6 : PeerID → IP
  /-- `peer.Decode` of libp2p: the peer id, or the text of the error. -/
  Decode : String → Except String PeerID
  /-- `strings.ToLower` of the Go standard library. -/
  ToLower : String → String
  /-- `peer.ID.String` of libp2p. -/
  IDString : PeerID → String
  /-- `net.ParseCIDR` of the Go standard library: the network (its second result),
  or the text of the error. -/
  ParseCIDR : String → Except String IPNet
  /-- `net.IP.String` of the Go standard library. -/
  IPString : IP → String
  /-- The constant `p2p.Protocol`, the protocol id of the overlay streams. -/
  Protocol : String

/-- The function `FindPeer`. -/
def FindPeer : List Peer → PeerID → Option Peer × Bool
  | [], _ => (none, false)
  | p :: peers, needle => if p.ID = needle then (some p, true) else FindPeer peers needle

/-- The function `FindPeerByName`. -/
def FindPeerByName : List Peer → String → Option Peer × Bool
  | [], _ => (none, false)
  | p :: peers, needle => if p.Name = needle then (some p, true) else FindPeerByName peers needle

/-- The loop of `FindRouteForIP` over `networks` in its duplicate-route branch: each
round evaluates `n.(RouteTableEntry)` for the message it prints. -/
def duplicateRouteLoop : List RangerEntry → Exec Unit
  | [] => .ret ()
  | n :: ns => (assertValue n).bind (fun _ => duplicateRouteLoop ns)

/-- The method `Config.FindRouteForIP`. -/
def Config.FindRouteForIP (cfg : Config) (needle : IP) : Exec (Option RouteTableEntry × Bool) :=
  match cfg.PeerLookup.ByRoute.ContainingNetworks needle with
  | (_, some _) => .ret (none, false)
  | (networks, none) =>
    match networks with
    | [] => .ret (none, false)
    | n0 :: rest =>
      if rest.length + 1 > 1 then
        (duplicateRouteLoop (n0 :: rest)).bind (fun _ =>
          (assertPointer n0).bind (fun rte => .ret (some rte, true)))
      else
        (assertPointer n0).bind (fun rte => .ret (some rte, true))

/-- The `net.CIDRMask(32, 32)` network of an address. -/
def hostRoute4 (ip : IP) : IPNet := ⟨ip, 32⟩

/-- The `net.CIDRMask(128, 128)` network of an address. -/
def hostRoute6 (ip : IP) : IPNet := ⟨ip, 128⟩

/-- The map key `[4]byte(p.BuiltinAddr6[12:16])`. -/
def netID (addr6 : IP) : List Nat := (addr6.drop 12).take 4

/-- The method `Config.AddPeer`: the configuration after the call and the error it
returns, `none` for nil. -/
def Config.AddPeer (env : Env) (cfg : Config) (name : String) (peerID : PeerID) :
    Config × Option String :=
  let newPeer : Peer :=
    { ID := peerID, Name := name,
      BuiltinAddr4 := env.mkBuiltinAddr4 peerID, BuiltinAddr6 := env.mkBuiltinAddr6 peerID }
  let peers := cfg.Peers ++ [newPeer]
  let r1 := (cfg.PeerLookup.ByRoute.Insert (.ptr ⟨hostRoute4 newPeer.BuiltinAddr4, newPeer⟩)).1
  let r2 := (r1.Insert (.ptr ⟨hostRoute6 newPeer.BuiltinAddr6, newPeer⟩)).1
  let byName :=
    if name ≠ "" then cfg.PeerLookup.ByName.set (env.ToLower name) newPeer
    else cfg.PeerLookup.ByName
  let byNetID := cfg.PeerLookup.ByNetID.set (netID newPeer.BuiltinAddr6) newPeer
  ({ Peers := peers, PeerLookup := { ByRoute := r2, ByName := byName, ByNetID := byNetID } }, none)

/-! ## The recursion gate (`p2p/routing_windows.go`) -/

/-- One component of a multiaddress: an `/ip4/a.b.c.d` component with the four
bytes of its address, or a component of another protocol with its code and
textual value. -/
inductive Component where
  | ip4 (b0 b1 b2 b3 : Nat) : Component
  | other (code : Nat) (value : String) : Component
deriving DecidableEq, Repr

/-- A multiaddress: the sequence of its components. -/
abbrev Multiaddr := List Component

/-- The call `net.ParseIP(ip4str)` on the value that `addr.ValueForProtocol(ma.P_IP4)`
returns: the 16-byte form of the address of the first `/ip4` component, `none`
when the multiaddress has no such component (`ValueForProtocol` returns an error). -/
def ip4OfMultiaddr : Multiaddr → Option IP
  | [] => none
  | .ip4 b0 b1 b2 b3 :: _ => some (v4InV6Prefix ++ [b0, b1, b2, b3])
  | .other _ _ :: cs => ip4OfMultiaddr cs

/-- The method `RecursionGater.InterceptAddrDial` of the gater built on `cfg`. -/
def InterceptAddrDial (cfg : Config) (pid : PeerID) (addr : Multiaddr) : Exec Bool :=
  match ip4OfMultiaddr addr with
  | some ip4 =>
    (cfg.FindRouteForIP ip4).bind (fun r =>
      match r with
      | (some rte, true) => if rte.Target.ID = pid then .ret false else .ret true
      | (none, true) => .panic
      | (_, false) => .ret true)
  | none => .ret true

/-! ## The `AddPeer` handler (`rpc/server.go`) -/

/-- What a handler does to its collaborators: `tunDev.Apply(tun.Route(net))`,
`tunDev.Apply(tun.RemoveRoute(net))` and `p2p.Rediscover()`. -/
inductive Effect where
  | tunRoute (net : IPNet) : Effect
  | tunRemoveRoute (net : IPNet) : Effect
  | rediscover : Effect
deriving DecidableEq, Repr

/-- The struct `HyprspaceRPC`: the configuration it points to, and the calls it
has issued to the TUN device and to the discovery loop, oldest first. -/
structure HyprspaceRPC where
  config : Config
  effects : List Effect
deriving DecidableEq, Repr

/-- The struct `AddPeerArgs`. -/
structure AddPeerArgs where
  Name : String
  ID : String
deriving DecidableEq, Repr

/-- The struct `AddPeerReply`; `Err` is the text of the error, `none` for nil. -/
structure AddPeerReply where
  Success : Bool
  Message : String
  Err : Option String
deriving DecidableEq, Repr

/-- The method `HyprspaceRPC.AddPeer` of `rpc/server.go`: the handler state after
the call and the reply it writes (the Go error it returns is always nil); the
index expression `hsr.config.Peers[len(hsr.config.Peers)-1]` panics on an empty
slice. -/
def HyprspaceRPC.AddPeer (env : Env) (hsr : HyprspaceRPC) (args : AddPeerArgs) :
    Exec (HyprspaceRPC × AddPeerReply) :=
  if args.Name = "" then
    .ret (hsr, ⟨false, "Peer name cannot be empty", some "peer name cannot be empty"⟩)
  else if args.ID = "" then
    .ret (hsr, ⟨false, "Peer ID cannot be empty", some "peer ID cannot be empty"⟩)
  else
    match env.Decode args.ID with
    | .error err => .ret (hsr, ⟨false, "Invalid peer ID: " ++ err, some err⟩)
    | .ok peerID =>
      if (FindPeer hsr.config.Peers peerID).2 then
        .ret (hsr, ⟨false, "Peer already exists", some "peer already exists"⟩)
      else if (FindPeerByName hsr.config.Peers args.Name).2 then
        .ret (hsr, ⟨false, "Peer name already exists", some "peer name already exists"⟩)
      else
        match hsr.config.AddPeer env args.Name peerID with
        | (cfg, some err) =>
          .ret ({ hsr with config := cfg }, ⟨false, "Failed to add peer: " ++ err, some err⟩)
        | (cfg, none) =>
          match cfg.Peers.getLast? with
          | none => .panic
          | some newPeer =>
            .ret ({ config := cfg,
                    effects := hsr.effects ++
                      [.tunRoute (hostRoute4 newPeer.BuiltinAddr4),
                       .tunRoute (hostRoute6 newPeer.BuiltinAddr6),
                       .rediscover] },
                  ⟨true, "Peer " ++ args.Name ++ " (" ++ args.ID ++ ") added successfully", none⟩)

/-- The number of bits of a network number is fixed by its family. -/
def IPVersion.bits : IPVersion → Nat
  | .IPv4 => 32
  | .IPv6 => 128

/-- The state change of the `Route` handler with action `Add` once the TUN route is
applied: `ByRoute.Insert(&RouteTableEntry{Net, Target})`. -/
def Config.insertRoute (cfg : Config) (net : IPNet) (target : Peer) : Config :=
  { cfg with PeerLookup :=
      { cfg.PeerLookup with ByRoute := (cfg.PeerLookup.ByRoute.Insert (.ptr ⟨net, target⟩)).1 } }

/-! ## The invariant of a route table filled by `Insert(&RouteTableEntry{…})` -/

/-- True for the dynamic type `*RouteTableEntry`. -/
def RangerEntry.isPtr : RangerEntry → Bool
  | .ptr _ => true
  | .val _ => false

/-- Every entry of the trie of family `v` sits at the key of its own network. -/
def prefixTrie.Keyed (v : IPVersion) (t : prefixTrie) : Prop :=
  ∀ pe ∈ t.walk, networkKey pe.2.Network = some (v, pe.1)

instance (v : IPVersion) (t : prefixTrie) : Decidable (t.Keyed v) := by
  unfold prefixTrie.Keyed
  infer_instance

/-- The state of a table that `Read`, `Config.AddPeer` and the `Route` handler can
build: each entry is stored in the trie of its family at the key of its
network, and is a `*RouteTableEntry`. -/
def versionedRanger.Consistent (r : versionedRanger) : Prop :=
  r.ipV4Ranger.Keyed .IPv4 ∧ r.ipV6Ranger.Keyed .IPv6 ∧ ∀ n ∈ r.entries, n.isPtr = true

instance (r : versionedRanger) : Decidable r.Consistent := by
  unfold versionedRanger.Consistent
  infer_instance

/-! ## References to peers on the command line (`config/config.go`) -/

/-- The Go `strings.HasPrefix`. -/
def HasPrefix (s pre : String) : Bool := pre.data.isPrefixOf s.data

/-- The Go `strings.TrimPrefix`. -/
def TrimPrefix (s pre : String) : String :=
  if HasPrefix s pre then ⟨s.data.drop pre.data.length⟩ else s

/-- The function `FindPeerByIDPrefix`. -/
def FindPeerByIDPrefix (env : Env) : List Peer → String → Option Peer × Bool
  | [], _ => (none, false)
  | p :: peers, needle =>
    if HasPrefix (env.IDString p.ID) needle then (some p, true)
    else FindPeerByIDPrefix env peers needle

/-- The function `FindPeerByCLIRef`. -/
def FindPeerByCLIRef (env : Env) (peers : List Peer) (needle : String) : Option Peer × Bool :=
  if HasPrefix needle "@" then
    let name := TrimPrefix needle "@"
    FindPeerByName peers name
  else
    FindPeerByIDPrefix env peers needle

/-! ## What is assumed of the address derivation -/

/-- The two built-in addresses of a peer are of the family their names say:
`mkBuiltinAddr4` yields 4 bytes, `mkBuiltinAddr6` yields 16 bytes that are not an
IPv4-mapped address. -/
def Env.WellFormed (env : Env) : Prop :=
  ∀ p : PeerID, (env.mkBuiltinAddr4 p).length = 4 ∧ (env.mkBuiltinAddr6 p).length = 16
    ∧ (env.mkBuiltinAddr6 p).take 12 ≠ v4InV6Prefix

/-! ## Sample data -/

/-- Exclusive or of the bytes at even and at odd positions. -/
def xorFold2 : List Nat → Nat × Nat
  | [] => (0, 0)
  | [a] => (a, 0)
  | a :: b :: rest => (a ^^^ (xorFold2 rest).1, b ^^^ (xorFold2 rest).2)

/-- The bytes of an identifier (its characters, ASCII in the samples). -/
def PeerID.bytes (p : PeerID) : List Nat := p.raw.data.map (fun c => c.toNat % 256)

/-- A sample environment: the built-in IPv4 address is `100.64.x.y` and the built-in
IPv6 address is `fd00:6879:7072:7370:6163:65ff:…:xy`, with `x` and `y` folded
from the bytes of the identifier; an identifier string decodes to itself when it
is alphanumeric; lower-casing is that of ASCII letters; `ParseCIDR` knows the
CIDR strings of the samples; an address prints as its bytes joined by dots. -/
def sampleEnv : Env where
  mkBuiltinAddr4 := fun p => [100, 64, 1 ^^^ (xorFold2 p.bytes).1, 2 ^^^ (xorFold2 p.bytes).2]
  mkBuiltinAddr6 := fun p =>
    [253, 0, 104, 121, 112, 114, 115, 112, 97, 99, 101, 255, 0, 0,
      (xorFold2 p.bytes).1, (xorFold2 p.bytes).2]
  Decode := fun s => if s.data.all Char.isAlphanum then .ok ⟨s⟩ else .error "invalid peer id"
  ToLower := fun s => ⟨s.data.map Char.toLower⟩
  IDString := fun p => p.raw
  ParseCIDR := fun s =>
    if s = "10.0.0.0/8" then .ok ⟨[10, 0, 0, 0], 8⟩
    else if s = "10.1.0.0/16" then .ok ⟨[10, 1, 0, 0], 16⟩
    else if s = "10.42.0.0/16" then .ok ⟨[10, 42, 0, 0], 16⟩
    else if s = "192.168.5.0/24" then .ok ⟨[192, 168, 5, 0], 24⟩
    else if s = "100.64.0.0/10" then .ok ⟨[100, 64, 0, 0], 10⟩
    else if s = "100.64.112.0/32" then .ok ⟨[100, 64, 112, 0], 32⟩
    else .error ("invalid CIDR address: " ++ s)
  IPString := fun ip => String.intercalate "." (ip.map Nat.repr)
  Protocol := "/mynetwork/0.0.1"

/-- Sample identifiers. -/
def idA : PeerID := ⟨"QmAlice"⟩

/-- Sample identifier of the peer bob. -/
def idB : PeerID := ⟨"QmBob"⟩

/-- Sample identifier of the peer carol. -/
def idC : PeerID := ⟨"QmCarol"⟩

/-- Sample identifier of a peer that is not configured. -/
def idD : PeerID := ⟨"QmDave"⟩

/-- The peer record that `Read` and `AddPeer` build for a name and an identifier. -/
def mkPeer (env : Env) (name : String) (id : PeerID) : Peer :=
  ⟨id, name, env.mkBuiltinAddr4 id, env.mkBuiltinAddr6 id⟩

/-- The configuration `Read` builds from a file without peers. -/
def emptyConfig : Config := ⟨[], ⟨NewPCTrieRanger, [], []⟩⟩

/-- Peers alice and bob, with the routes `10.0.0.0/8` via alice and `10.1.0.0/16`
via bob. -/
def cfgNested : Config :=
  ((((emptyConfig.AddPeer sampleEnv "alice" idA).1.AddPeer sampleEnv "bob" idB).1.insertRoute
    ⟨[10, 0, 0, 0], 8⟩ (mkPeer sampleEnv "alice" idA)).insertRoute
    ⟨[10, 1, 0, 0], 16⟩ (mkPeer sampleEnv "bob" idB))

/-- The route `10.0.0.0/8` via alice. -/
def route8 : RouteTableEntry := ⟨⟨[10, 0, 0, 0], 8⟩, mkPeer sampleEnv "alice" idA⟩

/-- The route `10.1.0.0/16` via bob. -/
def route16 : RouteTableEntry := ⟨⟨[10, 1, 0, 0], 16⟩, mkPeer sampleEnv "bob" idB⟩

/-- Peer carol with the route `192.168.5.0/24` via carol. -/
def cfgCarol : Config :=
  (emptyConfig.AddPeer sampleEnv "carol" idC).1.insertRoute
    ⟨[192, 168, 5, 0], 24⟩ (mkPeer sampleEnv "carol" idC)

/-- The route `192.168.5.0/24` via carol. -/
def route24 : RouteTableEntry := ⟨⟨[192, 168, 5, 0], 24⟩, mkPeer sampleEnv "carol" idC⟩

/-- The underlay address `/ip4/192.168.5.10/tcp/4001`. -/
def addrInCarol : Multiaddr := [.ip4 192 168 5 10, .other 6 "4001"]

/-- Peer alice with the route `100.64.0.0/10` via alice, a prefix that covers every
built-in IPv4 address of the sample environment. -/
def cfgBroad : Config :=
  (emptyConfig.AddPeer sampleEnv "alice" idA).1.insertRoute
    ⟨[100, 64, 0, 0], 10⟩ (mkPeer sampleEnv "alice" idA)

/-- A handler serving the configuration `cfg` that has issued no call yet. -/
def HyprspaceRPC.start (cfg : Config) : HyprspaceRPC := ⟨cfg, []⟩

/-- The registry with the single peer bob. -/
def cfgBob : Config := (emptyConfig.AddPeer sampleEnv "bob" idB).1

/-- Sample identifier of the peer alicia. -/
def idX : PeerID := ⟨"QmAlicia"⟩

/-- The registry of peers alice and alicia. -/
def peersAlice : List Peer := [mkPeer sampleEnv "alice" idA, mkPeer sampleEnv "alicia" idX]

/-! ## Removal and listing in the route table (`cidranger`) -/

/-- The trie method `remove`: walks down the bits of the network and takes the
entry of the node of that network away; the second component is the removed
entry, `none` when the network was not in the trie. -/
def prefixTrie.remove : prefixTrie → List Bool → prefixTrie × Option RangerEntry
  | .empty, _ => (.empty, none)
  | .node x c0 c1, [] => (.node none c0 c1, x)
  | .node x c0 c1, b :: bs =>
    if b then (.node x c0 (prefixTrie.remove c1 bs).1, (prefixTrie.remove c1 bs).2)
    else (.node x (prefixTrie.remove c0 bs).1 c1, (prefixTrie.remove c0 bs).2)

/-- The trie method `coveredNetworks`: walks down the bits of the queried network and
lists, in the order of `walkDepth`, the entries of the subtrie it reaches. -/
def prefixTrie.coveredNetworks : prefixTrie → List Bool → List RangerEntry
  | .empty, _ => []
  | .node x c0 c1, [] => (prefixTrie.node x c0 c1).walk.map (fun pe => pe.2)
  | .node _ c0 c1, b :: bs =>
    if b then prefixTrie.coveredNetworks c1 bs else prefixTrie.coveredNetworks c0 bs

/-- The method `versionedRanger.Remove`: the table after the call, the removed entry
(`none` for nil) and the error (`none` for nil). -/
def versionedRanger.Remove (r : versionedRanger) (network : IPNet) :
    versionedRanger × Option RangerEntry × Option RangerError :=
  match networkKey network with
  | some (.IPv4, key) =>
    ({ r with ipV4Ranger := (r.ipV4Ranger.remove key).1 }, (r.ipV4Ranger.remove key).2, none)
  | some (.IPv6, key) =>
    ({ r with ipV6Ranger := (r.ipV6Ranger.remove key).1 }, (r.ipV6Ranger.remove key).2, none)
  | none => (r, none, some .ErrInvalidNetworkNumberInput)

/-- The method `versionedRanger.CoveredNetworks`: the entries whose network lies
within the queried network, and the error (`none` for nil). -/
def versionedRanger.CoveredNetworks (r : versionedRanger) (network : IPNet) :
    List RangerEntry × Option RangerError :=
  match networkKey network with
  | some (.IPv4, key) => (r.ipV4Ranger.coveredNetworks key, none)
  | some (.IPv6, key) => (r.ipV6Ranger.coveredNetworks key, none)
  | none => ([], some .ErrInvalidNetworkNumberInput)

/-- The variable `cidranger.AllIPv4`, the network `0.0.0.0/0`. -/
def AllIPv4 : IPNet := ⟨[0, 0, 0, 0], 0⟩

/-- The variable `cidranger.AllIPv6`, the network `::/0`. -/
def AllIPv6 : IPNet := ⟨[0, 0, 0, 0, 0, 0, 0, 0, 0, 0, 0, 0, 0, 0, 0, 0], 0⟩

/-- The method `Config.FindRoute`. -/
def Config.FindRoute (cfg : Config) (needle : IPNet) : Exec (Option RouteTableEntry × Bool) :=
  match cfg.PeerLookup.ByRoute.CoveredNetworks needle with
  | (_, some _) => .ret (none, false)
  | (networks, none) =>
    match networks with
    | [] => .ret (none, false)
    | n0 :: rest =>
      if rest.length + 1 > 1 then
        (duplicateRouteLoop (n0 :: rest)).bind (fun _ =>
          (assertPointer n0).bind (fun rte => .ret (some rte, true)))
      else
        (assertPointer n0).bind (fun rte => .ret (some rte, true))

/-! ## The libp2p host, as far as the handlers look at it -/

/-- A stream of a connection: its protocol id (`s.Protocol()`). -/
structure Stream where
  Protocol : String
deriving DecidableEq, Repr

/-- A connection of the host: `c.RemotePeer()`, `c.RemoteMultiaddr()` and
`c.GetStreams()`. -/
structure Conn where
  RemotePeer : PeerID
  RemoteMultiaddr : Multiaddr
  Streams : List Stream
deriving DecidableEq, Repr

/-- The state of `hsr.host.Network()`: the connections `Conns()` and the predicate
`Connectedness(p) == network.Connected`. -/
structure Host where
  Conns : List Conn
  Connected : PeerID → Bool

/-- The method `Network().ConnsToPeer`. -/
def Host.ConnsToPeer (h : Host) (p : PeerID) : List Conn :=
  h.Conns.filter (fun c => c.RemotePeer = p)

/-- The multiaddress protocol code `ma.P_CIRCUIT`. -/
def P_CIRCUIT : Nat := 290

/-- The multiaddress protocol code `ma.P_P2P`. -/
def P_P2P : Nat := 421

/-- The method `Multiaddr.ValueForProtocol` for a protocol other than `ip4`: the value
of the first component of that protocol, `none` when it returns an error. -/
def ValueForProtocol : Multiaddr → Nat → Option String
  | [], _ => none
  | .ip4 _ _ _ _ :: cs, code => ValueForProtocol cs code
  | .other c v :: cs, code => if c = code then some v else ValueForProtocol cs code

/-! ## The `Route` and `Peers` handlers (`rpc/server.go`, `rpc/server_windows.go`) -/

/-- The string type `RouteAction` with its constants `Show`, `Add` and `Del`; any
other value is `other`. -/
inductive RouteAction where
  | Show : RouteAction
  | Add : RouteAction
  | Del : RouteAction
  | other (s : String) : RouteAction
deriving DecidableEq, Repr

/-- The struct `RouteArgs`. -/
structure RouteArgs where
  Action : RouteAction
  Args : List String
deriving DecidableEq, Repr

/-- The struct `RouteInfo`. -/
structure RouteInfo where
  Network : IPNet
  TargetName : String
  TargetAddr : PeerID
  RelayAddr : PeerID
  IsRelay : Bool
  IsConnected : Bool
deriving DecidableEq, Repr

/-- The struct `RouteReply`; `Err` is the text of the error, `none` for nil. -/
structure RouteReply where
  Out : String
  Routes : List RouteInfo
  Err : Option String
deriving DecidableEq, Repr

/-- The variables `relay` and `relayAddr` of the `Show` branch. -/
structure RelayState where
  relay : Bool
  relayAddr : PeerID
deriving DecidableEq, Repr

/-- The loop over `c.GetStreams()` in the `Show` branch; the second component tells
that `break ConnLoop` was reached. -/
def streamLoop (env : Env) (target : PeerID) (c : Conn) :
    List Stream → RelayState → RelayState × Bool
  | [], st => (st, false)
  | s :: ss, st =>
    if s.Protocol = env.Protocol then
      match ValueForProtocol c.RemoteMultiaddr P_CIRCUIT with
      | some _ =>
        match ValueForProtocol c.RemoteMultiaddr P_P2P with
        | some ra =>
          match env.Decode ra with
          | .ok id => streamLoop env target c ss ⟨true, id⟩
          | .error _ => streamLoop env target c ss ⟨true, target⟩
        | none => streamLoop env target c ss ⟨true, st.relayAddr⟩
      | none => (⟨false, target⟩, true)
    else streamLoop env target c ss st

/-- The loop `ConnLoop` over `ConnsToPeer(rte.Target.ID)` in the `Show` branch. -/
def connLoop (env : Env) (target : PeerID) : List Conn → RelayState → RelayState
  | [], st => st
  | c :: cs, st =>
    if (streamLoop env target c c.Streams st).2 then (streamLoop env target c c.Streams st).1
    else connLoop env target cs (streamLoop env target c c.Streams st).1

/-- One round of the loop over `allRoutes` in the `Show` branch; the assertion
`r.(*config.RouteTableEntry)` panics on a value. -/
def routeInfoOf (env : Env) (host : Host) (r : RangerEntry) : Exec RouteInfo :=
  (assertPointer r).bind (fun rte =>
    let connected := host.Connected rte.Target.ID
    let st : RelayState :=
      if connected then connLoop env rte.Target.ID (host.ConnsToPeer rte.Target.ID)
        ⟨false, rte.Target.ID⟩
      else ⟨false, rte.Target.ID⟩
    .ret { Network := rte.Net, TargetName := rte.Target.Name, TargetAddr := rte.Target.ID,
           RelayAddr := st.relayAddr, IsRelay := st.relay, IsConnected := connected })

/-- The loop over `allRoutes` in the `Show` branch. -/
def routeInfos (env : Env) (host : Host) : List RangerEntry → Exec (List RouteInfo)
  | [] => .ret []
  | r :: rs =>
    (routeInfoOf env host r).bind (fun info =>
      (routeInfos env host rs).bind (fun infos => .ret (info :: infos)))

/-- The TUN device: given the calls issued so far, what `tunDev.Apply` returns for
the next call (the text of the error, `none` for nil). -/
abbrev TUN := List Effect → Effect → Option String

/-- The text of a cidranger error. -/
def RangerError.text : RangerError → String
  | .ErrInvalidNetworkNumberInput => "Invalid network number input"

/-- The method `HyprspaceRPC.Route` of `rpc/server.go`: the handler state after the
call, the reply (overwritten by `Show` only) and the error it returns, `none`
for nil. -/
def HyprspaceRPC.Route (env : Env) (host : Host) (tun : TUN) (hsr : HyprspaceRPC)
    (args : RouteArgs) (reply : RouteReply) :
    Exec (HyprspaceRPC × RouteReply × Option String) :=
  match args.Action with
  | .Show =>
    match hsr.config.PeerLookup.ByRoute.CoveredNetworks AllIPv4 with
    | (_, some err) => .ret (hsr, reply, some err.text)
    | (allRoutes4, none) =>
      match hsr.config.PeerLookup.ByRoute.CoveredNetworks AllIPv6 with
      | (_, some err) => .ret (hsr, reply, some err.text)
      | (allRoutes6, none) =>
        (routeInfos env host (allRoutes4 ++ allRoutes6)).bind (fun infos =>
          .ret (hsr, { Out := "", Routes := infos, Err := none }, none))
  | .Add =>
    match args.Args with
    | [arg0, arg1] =>
      match env.ParseCIDR arg0 with
      | .error err => .ret (hsr, reply, some err)
      | .ok network =>
        match FindPeerByCLIRef env hsr.config.Peers arg1 with
        | (_, false) => .ret (hsr, reply, some "no such peer")
        | (none, true) => .panic
        | (some target, true) =>
          match tun hsr.effects (.tunRoute network) with
          | some err =>
            .ret ({ hsr with effects := hsr.effects ++ [.tunRoute network] }, reply, some err)
          | none =>
            .ret ({ config := hsr.config.insertRoute network target,
                    effects := hsr.effects ++ [.tunRoute network] }, reply, none)
    | _ => .ret (hsr, reply, some "expected exactly 2 arguments")
  | .Del =>
    match args.Args with
    | [arg0] =>
      match env.ParseCIDR arg0 with
      | .error err => .ret (hsr, reply, some err)
      | .ok network =>
        match tun hsr.effects (.tunRemoveRoute network) with
        | some err =>
          .ret ({ hsr with effects := hsr.effects ++ [.tunRemoveRoute network] }, reply, some err)
        | none =>
          match hsr.config.PeerLookup.ByRoute.Remove network with
          | (_, _, some err) =>
            .ret ({ hsr with effects :=
                      hsr.effects ++ [.tunRemoveRoute network, .tunRoute network] },
                  reply, some err.text)
          | (table, _, none) =>
            .ret ({ config := { hsr.config with
                      PeerLookup := { hsr.config.PeerLookup with ByRoute := table } },
                    effects := hsr.effects ++ [.tunRemoveRoute network] }, reply, none)
    | _ => .ret (hsr, reply, some "expected exactly 1 argument")
  | .other _ => .ret (hsr, reply, some "no such action")

/-- The struct `PeerInfo`. -/
structure PeerInfo where
  PeerID : String
  Name : String
  IPv4 : String
  IPv6 : String
deriving DecidableEq, Repr

/-- The entry the Windows `Peers` handler builds for a configured peer. -/
def peerInfoOf (env : Env) (p : Peer) : PeerInfo :=
  { PeerID := env.IDString p.ID, Name := p.Name,
    IPv4 := if p.BuiltinAddr4 ≠ [] then env.IPString p.BuiltinAddr4 else "",
    IPv6 := if p.BuiltinAddr6 ≠ [] then env.IPString p.BuiltinAddr6 else "" }

/-- The inner loop of the `Peers` handler of `rpc/server.go` over `hsr.config.Peers`:
the first peer whose textual id is `peerInfo.PeerID` fills the entry. -/
def fillPeerInfo (env : Env) : List Peer → PeerInfo → PeerInfo
  | [], info => info
  | peer :: peers, info =>
    if env.IDString peer.ID = info.PeerID then
      { info with
        Name := peer.Name,
        IPv4 := if peer.BuiltinAddr4 ≠ [] then env.IPString peer.BuiltinAddr4 else info.IPv4,
        IPv6 := if peer.BuiltinAddr6 ≠ [] then env.IPString peer.BuiltinAddr6 else info.IPv6 }
    else fillPeerInfo env peers info

/-- The method `HyprspaceRPC.Peers` of `rpc/server.go` (non-Windows): the list
`reply.Peers`, one entry for each connection of the host. -/
def HyprspaceRPC.Peers (env : Env) (host : Host) (hsr : HyprspaceRPC) : List PeerInfo :=
  host.Conns.map (fun c =>
    fillPeerInfo env hsr.config.Peers
      { PeerID := env.IDString c.RemotePeer, Name := "", IPv4 := "", IPv6 := "" })

/-- The method `HyprspaceRPC.Peers` of `rpc/server_windows.go`: the list
`reply.Peers`, one entry for each configured peer. -/
def HyprspaceRPC.PeersWindows (env : Env) (hsr : HyprspaceRPC) : List PeerInfo :=
  hsr.config.Peers.map (peerInfoOf env)

/-! ## Loading the configuration (`Read` of `config/config.go`) -/

/-- The struct `schema.Route`. -/
structure SchemaRoute where
  Net : String
deriving DecidableEq, Repr

/-- The struct `schema.Peer`. -/
structure SchemaPeer where
  Id : String
  Name : String
  Routes : List SchemaRoute
deriving DecidableEq, Repr

/-- How `Read` ends: with a configuration, with an error, or in `log.Fatal`. -/
inductive ReadOutcome where
  | ok (cfg : Config) : ReadOutcome
  | err (e : String) : ReadOutcome
  | fatal : ReadOutcome
deriving DecidableEq, Repr

/-- The loop of `Read` over `configPeer.Routes`: every route is inserted with the
target `p`; `none` stands for `log.Fatal` on an invalid network. -/
def readRoutes (env : Env) (p : Peer) : List SchemaRoute → versionedRanger → Option versionedRanger
  | [], r => some r
  | rt :: rts, r =>
    match env.ParseCIDR rt.Net with
    | .error _ => none
    | .ok network => readRoutes env p rts (r.Insert (.ptr ⟨network, p⟩)).1

/-- The loop of `Read` over `input.Peers`, from the configuration built so far. -/
def readPeers (env : Env) : List SchemaPeer → Config → ReadOutcome
  | [], cfg => .ok cfg
  | configPeer :: rest, cfg =>
    match env.Decode configPeer.Id with
    | .error e => .err e
    | .ok id =>
      let p : Peer :=
        { ID := id, Name := configPeer.Name,
          BuiltinAddr4 := env.mkBuiltinAddr4 id, BuiltinAddr6 := env.mkBuiltinAddr6 id }
      match readRoutes env p configPeer.Routes cfg.PeerLookup.ByRoute with
      | none => .fatal
      | some r0 =>
        let r1 := (r0.Insert (.ptr ⟨hostRoute4 p.BuiltinAddr4, p⟩)).1
        let r2 := (r1.Insert (.ptr ⟨hostRoute6 p.BuiltinAddr6, p⟩)).1
        let byName :=
          if configPeer.Name ≠ "" then cfg.PeerLookup.ByName.set (env.ToLower configPeer.Name) p
          else cfg.PeerLookup.ByName
        let byNetID := cfg.PeerLookup.ByNetID.set (netID p.BuiltinAddr6) p
        readPeers env rest
          { Peers := cfg.Peers ++ [p],
            PeerLookup := { ByRoute := r2, ByName := byName, ByNetID := byNetID } }

/-- The function `Read`, from the peers of the decoded file on: the route table and
the two maps start empty and the peers are taken in the order of the file. -/
def Read (env : Env) (peers : List SchemaPeer) : ReadOutcome :=
  readPeers env peers emptyConfig

/-- A TUN device on which every call succeeds. -/
def tunOK : TUN := fun _ _ => none

/-- A TUN device on which every call fails. -/
def tunDown : TUN := fun _ _ => some "operation not permitted"

/-- A host without any connection. -/
def hostIdle : Host := ⟨[], fun _ => false⟩

/-- A host whose only connection is to dave, a node that is not configured. -/
def hostDave : Host := ⟨[⟨idD, [.ip4 203 0 113 7, .other 6 "4001"], []⟩], fun p => p = idD⟩

/-- The reply value a handler is called with. -/
def emptyReply : RouteReply := ⟨"", [], none⟩

/-- A host with two connections, to dave, a node that is not configured, and to
bob. -/
def hostDaveBob : Host :=
  ⟨[⟨idD, [.ip4 203 0 113 7, .other 6 "4001"], []⟩,
    ⟨idB, [.ip4 198 51 100 2, .other 6 "4001"], []⟩], fun p => p = idD ∨ p = idB⟩

/-- The interface `cidranger.Ranger`, the declared type of `PeerLookup.ByRoute`, as
far as the `Del` branch of `Route` uses it: an implementation with the states
`ρ` and its method `Remove`, which returns the state after the call, the removed
entry (`none` for nil) and the text of the error (`none` for nil). -/
structure RangerImpl (ρ : Type) where
  Remove : ρ → IPNet → ρ × Option RangerEntry × Option String

/-- The implementation `cidranger.NewPCTrieRanger()` returns, which `config.Read`
stores in `PeerLookup.ByRoute`. -/
def trieRanger : RangerImpl versionedRanger where
  Remove := fun r network =>
    ((r.Remove network).1, (r.Remove network).2.1, (r.Remove network).2.2.map RangerError.text)

/-- The `Del` branch of `HyprspaceRPC.Route` after `net.ParseCIDR`, for any
implementation of the interface behind `ByRoute`: the state of the table, the
calls issued and the error returned (`none` for nil). -/
def routeDel {ρ : Type} (R : RangerImpl ρ) (tun : TUN) (table : ρ) (effects : List Effect)
    (network : IPNet) : ρ × List Effect × Option String :=
  match tun effects (.tunRemoveRoute network) with
  | some err => (table, effects ++ [.tunRemoveRoute network], some err)
  | none =>
    match R.Remove table network with
    | (table', _, some err) =>
      (table', effects ++ [.tunRemoveRoute network, .tunRoute network], some err)
    | (table', _, none) => (table', effects ++ [.tunRemoveRoute network], none)

/-- An implementation of the interface whose `Remove` returns an error and leaves
the table as it is. -/
def failingRanger : RangerImpl (List RangerEntry) where
  Remove := fun table _ => (table, none, some "bit position not valid")

/-! ## The peer registry and its indices -/

/-- The two maps follow the peer list: `ByNetID` holds, for a key, the last peer of
`cfg.Peers` with that netid, and `ByName` holds, for a key, the last named peer
of `cfg.Peers` whose lower-cased name is that key. -/
def Config.Indexed (env : Env) (cfg : Config) : Prop :=
  (∀ k, cfg.PeerLookup.ByNetID.get k
      = (cfg.Peers.filter (fun p => decide (netID p.BuiltinAddr6 = k))).getLast?)
    ∧ (∀ k, cfg.PeerLookup.ByName.get k
      = (cfg.Peers.filter (fun p => decide (p.Name ≠ "" ∧ env.ToLower p.Name = k))).getLast?)

/-- The configurations reachable from what `Read` builds through calls of
`HyprspaceRPC.AddPeer` that reply `Success == true`. -/
inductive RegistryReachable (env : Env) : Config → Prop where
  | read (file : List SchemaPeer) (cfg : Config) :
      Read env file = .ok cfg → RegistryReachable env cfg
  | addPeer (hsr hsr' : HyprspaceRPC) (args : AddPeerArgs) (reply : AddPeerReply) :
      RegistryReachable env hsr.config →
      HyprspaceRPC.AddPeer env hsr args = .ret (hsr', reply) → reply.Success = true →
      RegistryReachable env hsr'.config

/-- The registry after `"Bob"` (id of carol) has joined `"bob"`. -/
def cfgTwoBobs : Config := (cfgBob.AddPeer sampleEnv "Bob" idC).1

/-! ## The host routes of the configured peers -/

/-- The entry `(p.BuiltinAddr4/32 → p)` as `Read` and `AddPeer` store it. -/
def hostEntry4 (p : Peer) : RangerEntry := .ptr ⟨hostRoute4 p.BuiltinAddr4, p⟩

/-- The entry `(p.BuiltinAddr6/128 → p)` as `Read` and `AddPeer` store it. -/
def hostEntry6 (p : Peer) : RangerEntry := .ptr ⟨hostRoute6 p.BuiltinAddr6, p⟩

/-- The table holds the two host routes of every peer of the list. -/
def HostRoutes (peers : List Peer) (r : versionedRanger) : Prop :=
  ∀ p ∈ peers, hostEntry4 p ∈ r.entries ∧ hostEntry6 p ∈ r.entries

/-- True when the key is that of a host prefix of one of the peers. -/
def isHostKey (peers : List Peer) (k : Option (IPVersion × List Bool)) : Bool :=
  peers.any (fun p =>
    decide (k = networkKey (hostRoute4 p.BuiltinAddr4))
      || decide (k = networkKey (hostRoute6 p.BuiltinAddr6)))

/-- None of the routes, once parsed, has the host prefix of one of the peers. -/
def routesGuard (env : Env) (peers : List Peer) (routes : List SchemaRoute) : Bool :=
  routes.all (fun rt =>
    match env.ParseCIDR rt.Net with
    | .ok net => !isHostKey peers (networkKey net)
    | .error _ => true)

/-- A file in which no route and no built-in address of a listed peer is a host
prefix of a peer listed before it (`prev` are the peers read so far). -/
def FileGuard (env : Env) : List SchemaPeer → List Peer → Bool
  | [], _ => true
  | cp :: rest, prev =>
    match env.Decode cp.Id with
    | .error _ => true
    | .ok id =>
      routesGuard env prev cp.Routes
        && !isHostKey prev (networkKey (hostRoute4 (env.mkBuiltinAddr4 id)))
        && !isHostKey prev (networkKey (hostRoute6 (env.mkBuiltinAddr6 id)))
        && FileGuard env rest (prev ++ [mkPeer env cp.Name id])

/-- The configurations reachable from what `Read` builds through `AddPeer` and `Route`
calls that leave the host prefixes of the configured peers alone: the file is
guarded, an added peer has built-in addresses that no configured peer has, and
the prefix argument of a `Route` call is not a host prefix of a configured
peer. -/
inductive GuardedReachable (env : Env) : Config → Prop where
  | read (file : List SchemaPeer) (cfg : Config) :
      Read env file = .ok cfg → FileGuard env file [] = true → GuardedReachable env cfg
  | addPeer (hsr hsr' : HyprspaceRPC) (args : AddPeerArgs) (reply : AddPeerReply) :
      GuardedReachable env hsr.config →
      HyprspaceRPC.AddPeer env hsr args = .ret (hsr', reply) → reply.Success = true →
      (∀ id, env.Decode args.ID = .ok id →
        isHostKey hsr.config.Peers (networkKey (hostRoute4 (env.mkBuiltinAddr4 id))) = false
          ∧ isHostKey hsr.config.Peers
              (networkKey (hostRoute6 (env.mkBuiltinAddr6 id))) = false) →
      GuardedReachable env hsr'.config
  | route (host : Host) (tun : TUN) (hsr hsr' : HyprspaceRPC) (args : RouteArgs)
      (reply reply' : RouteReply) (err : Option String) :
      GuardedReachable env hsr.config →
      HyprspaceRPC.Route env host tun hsr args reply = .ret (hsr', reply', err) →
      (∀ a0 net, args.Args.head? = some a0 → env.ParseCIDR a0 = .ok net →
        isHostKey hsr.config.Peers (networkKey net) = false) →
      GuardedReachable env hsr'.config

/-- The configuration `cfgNested` after the route `10.1.0.0/16` has been deleted. -/
def cfgNestedDel : Config :=
  { cfgNested with PeerLookup := { cfgNested.PeerLookup with
      ByRoute := (cfgNested.PeerLookup.ByRoute.Remove ⟨[10, 1, 0, 0], 16⟩).1 } }

/-! ## The discovery loop (`p2p/discover.go`) -/

/-- The constant `time.Millisecond`; a `time.Duration` is a signed 64-bit count of
nanoseconds, here an `Int`. -/
def Millisecond : Int := 1000000

/-- The constant `time.Second`. -/
def Second : Int := 1000000000

/-- The value of a 64-bit signed integer after an arithmetic operation wraps. -/
def wrapInt64 (x : Int) : Int := (x + 2 ^ 63) % 2 ^ 64 - 2 ^ 63

/-- What `Discover` asks of the host: `h.Network().Connectedness(p) ==
network.Connected` in a state of the host, and `h.Network().DialPeer(ctx, p)`,
which changes the state and returns an error (`none` for nil). -/
structure HostOps (σ : Type) where
  Connected : σ → PeerID → Bool
  DialPeer : σ → PeerID → σ × Option String

/-- The calls `Discover` issues: `DialPeer`, `dht.Bootstrap`,
`dht.RefreshRoutingTable` and `ticker.Reset`. -/
inductive DiscoverEffect where
  | dial (p : PeerID) : DiscoverEffect
  | bootstrap : DiscoverEffect
  | refreshRoutingTable : DiscoverEffect
  | tickerReset (d : Int) : DiscoverEffect
deriving DecidableEq, Repr

/-- The loop of a tick over `cfg.Peers`: the state of the host, the variable
`connectedToAny` and the calls issued so far. -/
def peersLoop {σ : Type} (ops : HostOps σ) :
    List Peer → σ × Bool × List DiscoverEffect → σ × Bool × List DiscoverEffect
  | [], acc => acc
  | p :: ps, (h, connectedToAny, log) =>
    if ops.Connected h p.ID then peersLoop ops ps (h, true, log)
    else
      match ops.DialPeer h p.ID with
      | (h', some _) => peersLoop ops ps (h', connectedToAny, log ++ [.dial p.ID])
      | (h', none) => peersLoop ops ps (h', true, log ++ [.dial p.ID])

/-- The variables of `Discover`: the interval `dur` and the period of `ticker`. -/
structure DiscoverState where
  dur : Int
  ticker : Int
deriving DecidableEq, Repr

/-- The state of `Discover` when it enters its loop. -/
def Discover.init : DiscoverState := ⟨Second * 1, Second * 1⟩

/-- The case `<-discoverNow` of the loop. -/
def Discover.onDiscoverNow (_st : DiscoverState) : DiscoverState × List DiscoverEffect :=
  (⟨Second * 3, Millisecond * 1⟩, [.tickerReset (Millisecond * 1)])

/-- The interval of the branch `else` of a tick: `dur * 2`, capped at a minute. -/
def Discover.backoff (dur : Int) : Int :=
  if wrapInt64 (dur * 2) ≥ Second * 60 then Second * 60 else wrapInt64 (dur * 2)

/-- The case `<-ticker.C` of the loop, for the peers `cfg.Peers` holds at that moment
and the state of the host at that moment. -/
def Discover.onTick {σ : Type} (ops : HostOps σ) (peers : List Peer) (h : σ)
    (st : DiscoverState) : DiscoverState × σ × List DiscoverEffect :=
  match peersLoop ops peers (h, false, []) with
  | (h', false, log) =>
    (⟨Second * 10, Second * 10⟩, h',
      log ++ [.bootstrap, .refreshRoutingTable, .tickerReset (Second * 10)])
  | (h', true, log) =>
    (⟨Discover.backoff st.dur, Discover.backoff st.dur⟩, h',
      log ++ [.tickerReset (Discover.backoff st.dur)])

/-- What the loop of `Discover` receives: a rediscover signal, or a tick, with the
peers and the state of the host it then finds. -/
inductive DiscoverEvent (σ : Type) where
  | discoverNow : DiscoverEvent σ
  | tick (peers : List Peer) (h : σ) : DiscoverEvent σ

/-- One round of the loop of `Discover`. -/
def Discover.step {σ : Type} (ops : HostOps σ) (st : DiscoverState) :
    DiscoverEvent σ → DiscoverState
  | .discoverNow => (Discover.onDiscoverNow st).1
  | .tick peers h => (Discover.onTick ops peers h st).1

/-- The loop of `Discover` over the events it receives before `ctx.Done()`. -/
def Discover.run {σ : Type} (ops : HostOps σ) (events : List (DiscoverEvent σ)) :
    DiscoverState :=
  events.foldl (Discover.step ops) Discover.init

/-- The tick finds a peer connected or dials one with success: `connectedToAny` is
true after the loop over the peers. -/
def tickConnected {σ : Type} (ops : HostOps σ) (peers : List Peer) (h : σ) : Bool :=
  (peersLoop ops peers (h, false, [])).2.1

/-- A sample host: its state is the list of the connected peers; dialing bob
succeeds, dialing anybody else fails. -/
def sampleOps : HostOps (List PeerID) where
  Connected := fun h p => decide (p ∈ h)
  DialPeer := fun h p => if p = idB then (p :: h, none) else (h, some "dial backoff")

/-- The state of the host when the loop of a tick, started in the state `h`, has gone
through the peers `pre`. -/
def hostAfter {σ : Type} (ops : HostOps σ) (pre : List Peer) (h : σ) : σ :=
  (peersLoop ops pre (h, false, [])).1

/-- The calls the loop of a tick, started in the state `h`, issues for the peers. -/
def dialsOf {σ : Type} (ops : HostOps σ) (peers : List Peer) (h : σ) : List DiscoverEffect :=
  (peersLoop ops peers (h, false, [])).2.2

/-! ## The JSON-RPC front end (`rpc/jsonrpc_client.go`, `rpc/jsonrpc_server.go`) -/

/-- A decoded JSON value, the `interface{}` that `json.Unmarshal` produces. -/
inductive JSON where
  | null : JSON
  | bool (b : Bool) : JSON
  | number (n : Int) : JSON
  | string (s : String) : JSON
  | array (items : List JSON) : JSON
  | object (fields : List (String × JSON)) : JSON

/-- The map read `paramsMap[key]`, `none` for the nil interface of a missing key. -/
def JSON.field : List (String × JSON) → String → Option JSON
  | [], _ => none
  | (k, v) :: fields, key => if k = key then some v else JSON.field fields key

/-- The string values of the constants `Show`, `Add` and `Del` of type `RouteAction`,
which the sources use and do not declare. -/
structure RouteActionNames where
  Show : String
  Add : String
  Del : String
deriving DecidableEq, Repr

/-- The three constants are different strings. -/
def RouteActionNames.Distinct (names : RouteActionNames) : Prop :=
  names.Show ≠ names.Add ∧ names.Show ≠ names.Del ∧ names.Add ≠ names.Del

instance (names : RouteActionNames) : Decidable names.Distinct := by
  unfold RouteActionNames.Distinct
  infer_instance

/-- The conversion `string(action)`. -/
def RouteAction.string (names : RouteActionNames) : RouteAction → String
  | .Show => names.Show
  | .Add => names.Add
  | .Del => names.Del
  | .other s => s

/-- The conversion `RouteAction(actionStr)`. -/
def RouteAction.ofString (names : RouteActionNames) (s : String) : RouteAction :=
  if s = names.Show then .Show
  else if s = names.Add then .Add
  else if s = names.Del then .Del
  else .other s

/-- The method and the params of the request that `JSONRPCClient.Route` sends, as the
server decodes them: a nil slice of arguments arrives as `null`. -/
def JSONRPCClient.Route (names : RouteActionNames) (action : RouteAction)
    (args : Option (List String)) : String × JSON :=
  ("route",
    .object [("action", .string (action.string names)),
             ("args", match args with
                      | none => .null
                      | some l => .array (l.map JSON.string))])

/-- The request of `JSONRPCClient.ShowRoutes`. -/
def JSONRPCClient.ShowRoutes (names : RouteActionNames) : String × JSON :=
  JSONRPCClient.Route names .Show none

/-- The request of `JSONRPCClient.AddRoute`. -/
def JSONRPCClient.AddRoute (names : RouteActionNames) (destination : String) : String × JSON :=
  JSONRPCClient.Route names .Add (some [destination])

/-- The request of `JSONRPCClient.DelRoute`. -/
def JSONRPCClient.DelRoute (names : RouteActionNames) (destination : String) : String × JSON :=
  JSONRPCClient.Route names .Del (some [destination])

/-- The struct `JSONRPCError`; `Data` is the text of the error, `none` when absent. -/
structure JSONRPCError where
  Code : Int
  Message : String
  Data : Option String
deriving DecidableEq, Repr

/-- The constant `InvalidParams`. -/
def InvalidParams : Int := -32602

/-- The constant `InternalError`. -/
def InternalError : Int := -32603

/-- The loop of `handleRoute` over `argsList`: the items that are strings. -/
def stringArgs : List JSON → List String
  | [] => []
  | .string s :: rest => s :: stringArgs rest
  | _ :: rest => stringArgs rest

/-- The end of `handleRoute`: an error of `Route` becomes the JSON-RPC error
`InternalError` with the text of the error as data. -/
def routeResponse (out : HyprspaceRPC × RouteReply × Option String) :
    HyprspaceRPC × Option RouteReply × Option JSONRPCError :=
  match out with
  | (hsr, _, some e) => (hsr, none, some ⟨InternalError, "Internal error", some e⟩)
  | (hsr, reply, none) => (hsr, some reply, none)

/-- The method `JSONRPCServer.handleRoute` over the `Route` handler of
`rpc/server.go`: the handler state after the call, the result and the error. -/
def JSONRPCServer.handleRoute (env : Env) (names : RouteActionNames) (host : Host) (tun : TUN)
    (hsr : HyprspaceRPC) (params : JSON) :
    Exec (HyprspaceRPC × Option RouteReply × Option JSONRPCError) :=
  match params with
  | .object paramsMap =>
    let action : RouteAction :=
      match JSON.field paramsMap "action" with
      | some (.string actionStr) => RouteAction.ofString names actionStr
      | _ => .Show
    let args : List String :=
      match JSON.field paramsMap "args" with
      | some (.array argsList) => stringArgs argsList
      | _ => []
    (HyprspaceRPC.Route env host tun hsr ⟨action, args⟩ ⟨"", [], none⟩).bind
      (fun out => .ret (routeResponse out))
  | _ => .ret (hsr, none, some ⟨InvalidParams, "Invalid params", none⟩)

/-- Sample values of the constants of `RouteAction`. -/
def sampleNames : RouteActionNames := ⟨"show", "add", "del"⟩

/-! # Theorems -/

/-! ## Facts about the prefix trie -/

namespace prefixTrie

theorem mem_walk_node (x : Option RangerEntry) (c0 c1 : prefixTrie) (p : List Bool)
    (n : RangerEntry) :
    (p, n) ∈ (node x c0 c1).walk ↔
      (p = [] ∧ x = some n) ∨ (∃ q, p = false :: q ∧ (q, n) ∈ c0.walk)
        ∨ (∃ q, p = true :: q ∧ (q, n) ∈ c1.walk) := by
  simp only [walk, List.mem_append, List.mem_map, Prod.mk.injEq, Option.mem_toList,
    Option.mem_def, Prod.exists]
  constructor
  · rintro (⟨a, ha, rfl, rfl⟩ | ⟨a, b, hab, rfl, rfl⟩ | ⟨a, b, hab, rfl, rfl⟩)
    · exact Or.inl ⟨rfl, ha⟩
    · exact Or.inr (Or.inl ⟨a, rfl, hab⟩)
    · exact Or.inr (Or.inr ⟨a, rfl, hab⟩)
  · rintro (⟨rfl, hx⟩ | ⟨q, rfl, hq⟩ | ⟨q, rfl, hq⟩)
    · exact Or.inl ⟨n, hx, rfl, rfl⟩
    · exact Or.inr (Or.inl ⟨q, n, hq, rfl, rfl⟩)
    · exact Or.inr (Or.inr ⟨q, n, hq, rfl, rfl⟩)

theorem walk_empty : empty.walk = [] := rfl

/-- What a trie holds after `insert`: the new entry at its key, and every former
entry whose key is another one. -/
theorem mem_walk_insert (key : List Bool) (e : RangerEntry) :
    ∀ (t : prefixTrie) (p : List Bool) (n : RangerEntry),
      (p, n) ∈ (t.insert key e).walk ↔ (p = key ∧ n = e) ∨ ((p, n) ∈ t.walk ∧ p ≠ key) := by
  induction key with
  | nil =>
    intro t p n
    cases t with
    | empty =>
      simp only [insert, mem_walk_node, walk_empty, List.not_mem_nil, and_false, exists_false,
        or_false, false_and, Option.some.injEq]
      constructor
      · rintro ⟨rfl, rfl⟩; exact ⟨rfl, rfl⟩
      · rintro ⟨rfl, rfl⟩; exact ⟨rfl, rfl⟩
    | node x c0 c1 =>
      simp only [insert, mem_walk_node, Option.some.injEq]
      constructor
      · rintro (⟨rfl, rfl⟩ | ⟨q, rfl, hq⟩ | ⟨q, rfl, hq⟩)
        · exact Or.inl ⟨rfl, rfl⟩
        · exact Or.inr ⟨Or.inr (Or.inl ⟨q, rfl, hq⟩), by simp⟩
        · exact Or.inr ⟨Or.inr (Or.inr ⟨q, rfl, hq⟩), by simp⟩
      · rintro (⟨rfl, rfl⟩ | ⟨(⟨rfl, _⟩ | h | h), hne⟩)
        · exact Or.inl ⟨rfl, rfl⟩
        · exact absurd rfl hne
        · exact Or.inr (Or.inl h)
        · exact Or.inr (Or.inr h)
  | cons b bs ih =>
    intro t p n
    cases t with
    | empty =>
      cases b with
      | false =>
        simp only [insert, Bool.false_eq_true, if_false, mem_walk_node, walk_empty,
          List.not_mem_nil, and_false, exists_false, or_false, ih, false_and]
        constructor
        · rintro (⟨_, h⟩ | ⟨q, rfl, rfl, rfl⟩)
          · cases h
          · exact ⟨rfl, rfl⟩
        · rintro ⟨rfl, rfl⟩; exact Or.inr ⟨bs, rfl, rfl, rfl⟩
      | true =>
        simp only [insert, if_true, mem_walk_node, walk_empty,
          List.not_mem_nil, and_false, exists_false, or_false, ih, false_and]
        constructor
        · rintro (⟨_, h⟩ | h | ⟨q, rfl, rfl, rfl⟩)
          · cases h
          · exact h.elim
          · exact ⟨rfl, rfl⟩
        · rintro ⟨rfl, rfl⟩; exact Or.inr (Or.inr ⟨bs, rfl, rfl, rfl⟩)
    | node x c0 c1 =>
      cases b with
      | false =>
        simp only [insert, Bool.false_eq_true, if_false, mem_walk_node, ih]
        constructor
        · rintro (⟨rfl, hx⟩ | ⟨q, rfl, (⟨rfl, rfl⟩ | ⟨hq, hne⟩)⟩ | ⟨q, rfl, hq⟩)
          · exact Or.inr ⟨Or.inl ⟨rfl, hx⟩, by simp⟩
          · exact Or.inl ⟨rfl, rfl⟩
          · exact Or.inr ⟨Or.inr (Or.inl ⟨q, rfl, hq⟩), by simpa using hne⟩
          · exact Or.inr ⟨Or.inr (Or.inr ⟨q, rfl, hq⟩), by simp⟩
        · rintro (⟨rfl, rfl⟩ | ⟨(⟨rfl, hx⟩ | ⟨q, rfl, hq⟩ | ⟨q, rfl, hq⟩), hne⟩)
          · exact Or.inr (Or.inl ⟨bs, rfl, Or.inl ⟨rfl, rfl⟩⟩)
          · exact Or.inl ⟨rfl, hx⟩
          · exact Or.inr (Or.inl ⟨q, rfl, Or.inr ⟨hq, by simpa using hne⟩⟩)
          · exact Or.inr (Or.inr ⟨q, rfl, hq⟩)
      | true =>
        simp only [insert, if_true, mem_walk_node, ih]
        constructor
        · rintro (⟨rfl, hx⟩ | ⟨q, rfl, hq⟩ | ⟨q, rfl, (⟨rfl, rfl⟩ | ⟨hq, hne⟩)⟩)
          · exact Or.inr ⟨Or.inl ⟨rfl, hx⟩, by simp⟩
          · exact Or.inr ⟨Or.inr (Or.inl ⟨q, rfl, hq⟩), by simp⟩
          · exact Or.inl ⟨rfl, rfl⟩
          · exact Or.inr ⟨Or.inr (Or.inr ⟨q, rfl, hq⟩), by simpa using hne⟩
        · rintro (⟨rfl, rfl⟩ | ⟨(⟨rfl, hx⟩ | ⟨q, rfl, hq⟩ | ⟨q, rfl, hq⟩), hne⟩)
          · exact Or.inr (Or.inr ⟨bs, rfl, Or.inl ⟨rfl, rfl⟩⟩)
          · exact Or.inl ⟨rfl, hx⟩
          · exact Or.inr (Or.inl ⟨q, rfl, hq⟩)
          · exact Or.inr (Or.inr ⟨q, rfl, Or.inr ⟨hq, by simpa using hne⟩⟩)

/-- No two entries of a trie sit at the same path. -/
theorem walk_paths_nodup : ∀ t : prefixTrie, (t.walk.map Prod.fst).Nodup
  | .empty => by simp [walk]
  | .node x c0 c1 => by
    have h0 := walk_paths_nodup c0
    have h1 := walk_paths_nodup c1
    have inj : ∀ b : Bool, Function.Injective (fun q : List Bool => b :: q) := by
      intro b q q' h
      simpa using h
    simp only [walk, List.map_append, List.map_map]
    refine List.nodup_append.2 ⟨?_, ?_, ?_⟩
    · cases x <;> simp
    · refine List.nodup_append.2 ⟨?_, ?_, ?_⟩
      · have := h0.map (inj false)
        simpa [List.map_map, Function.comp_def] using this
      · have := h1.map (inj true)
        simpa [List.map_map, Function.comp_def] using this
      · intro p hp0 hp1
        simp only [List.mem_map, Function.comp_apply] at hp0 hp1
        obtain ⟨a, _, rfl⟩ := hp0
        obtain ⟨b, _, hb⟩ := hp1
        simp at hb
    · intro p hp hp'
      have hnil : p = [] := by
        cases x <;> simp at hp
        exact hp
      subst hnil
      simp only [List.mem_append, List.mem_map, Function.comp_apply] at hp'
      rcases hp' with ⟨a, _, ha⟩ | ⟨a, _, ha⟩ <;> simp at ha

/-- The entries `containingNetworks` returns are those whose path is a prefix of
the bits of the address, in the order of `walk`. -/
theorem containingNetworks_eq_filter : ∀ (t : prefixTrie) (bits : List Bool),
    t.containingNetworks bits =
      (t.walk.filter (fun pe => pe.1.isPrefixOf bits)).map Prod.snd
  | .empty, bits => by simp [containingNetworks, walk]
  | .node x c0 c1, [] => by
    cases x <;>
      simp [containingNetworks, walk, List.filter_append, List.filter_map, Function.comp_def,
        List.isPrefixOf]
  | .node x c0 c1, b :: bs => by
    have h0 := containingNetworks_eq_filter c0 bs
    have h1 := containingNetworks_eq_filter c1 bs
    cases b <;> cases x <;>
      simp [containingNetworks, walk, List.filter_append, List.filter_map, Function.comp_def,
        List.isPrefixOf, h0, h1, List.map_map]

end prefixTrie
/-! ## Facts about network numbers -/

theorem length_bytesBits : ∀ bs : List Nat, (bytesBits bs).length = 8 * bs.length
  | [] => rfl
  | b :: bs => by
    simp only [bytesBits, List.length_append, length_bytesBits bs, byteBits, List.length_cons,
      List.length_nil]
    omega

theorem NewNetworkNumber_length {ip : IP} {v : IPVersion} {bits : List Bool}
    (h : NewNetworkNumber ip = some (v, bits)) : bits.length = v.bits := by
  unfold NewNetworkNumber at h
  cases h4 : To4 ip with
  | some x =>
    rw [h4] at h
    simp only [Option.some.injEq, Prod.mk.injEq] at h
    obtain ⟨rfl, rfl⟩ := h
    have hx : x.length = 4 := by
      unfold To4 at h4
      split_ifs at h4 with h1 h2
      · simp only [Option.some.injEq] at h4
        rw [← h4]
        exact h1
      · simp only [Option.some.injEq] at h4
        rw [← h4, List.length_drop, h2.1]
    rw [length_bytesBits, hx]
    rfl
  | none =>
    rw [h4] at h
    cases h6 : To16 ip with
    | some x =>
      rw [h6] at h
      simp only [Option.some.injEq, Prod.mk.injEq] at h
      obtain ⟨rfl, rfl⟩ := h
      have hx : x.length = 16 := by
        unfold To16 at h6
        split_ifs at h6 with h1 h2
        · simp only [Option.some.injEq] at h6
          rw [← h6, List.length_append, h1]
          rfl
        · simp only [Option.some.injEq] at h6
          rw [← h6]
          exact h2
      rw [length_bytesBits, hx]
      rfl
    | none =>
      rw [h6] at h
      cases h

/-- For a network stored at its key, `net.IPNet.Contains` is the prefix test that
the trie walk performs. -/
theorem Contains_eq_isPrefixOf {n : IPNet} {ip : IP} {v w : IPVersion} {path ib : List Bool}
    (hk : networkKey n = some (v, path)) (hip : NewNetworkNumber ip = some (w, ib)) :
    n.Contains ip = (v == w && path.isPrefixOf ib) := by
  unfold networkKey at hk
  cases hn : NewNetworkNumber n.IP with
  | none => rw [hn] at hk; cases hk
  | some vb =>
    obtain ⟨v', nb⟩ := vb
    rw [hn] at hk
    simp only [Option.some.injEq, Prod.mk.injEq] at hk
    obtain ⟨rfl, rfl⟩ := hk
    unfold IPNet.Contains
    rw [hn, hip]
    simp only
    by_cases hvw : v' = w
    · subst hvw
      have hl1 := NewNetworkNumber_length hn
      have hl2 := NewNetworkNumber_length hip
      simp only [beq_self_eq_true, Bool.true_and]
      rw [Bool.eq_iff_iff, beq_iff_eq, List.isPrefixOf_iff_prefix]
      constructor
      · intro h
        rw [h]
        exact List.take_prefix _ _
      · intro h
        have h' := List.prefix_iff_eq_take.1 h
        rw [h']
        rw [List.take_eq_take, List.length_take]
        omega
    · have : (v' == w) = false := by
        simpa using hvw
      simp [this]

/-! ## Facts about the route table -/

namespace versionedRanger

theorem mem_entries {r : versionedRanger} {n : RangerEntry} :
    n ∈ r.entries ↔ (∃ p, (p, n) ∈ r.ipV4Ranger.walk) ∨ (∃ p, (p, n) ∈ r.ipV6Ranger.walk) := by
  simp [entries, List.mem_map, List.mem_append, or_and_right, exists_or]

theorem Consistent_NewPCTrieRanger : NewPCTrieRanger.Consistent := by
  decide

/-- Query of a consistent table: `ContainingNetworks` returns the entries whose
network contains the address, and fails only on an address of no family. -/
theorem ContainingNetworks_eq {r : versionedRanger} (hr : r.Consistent) (ip : IP) :
    r.ContainingNetworks ip =
      if (NewNetworkNumber ip).isSome then
        (r.entries.filter (fun n => n.Network.Contains ip), none)
      else ([], some .ErrInvalidNetworkNumberInput) := by
  obtain ⟨h4, h6, _⟩ := hr
  unfold ContainingNetworks
  cases hip : NewNetworkNumber ip with
  | none => simp
  | some wb =>
    obtain ⟨w, ib⟩ := wb
    have key4 : ∀ pe ∈ r.ipV4Ranger.walk,
        pe.2.Network.Contains ip = (IPVersion.IPv4 == w && pe.1.isPrefixOf ib) :=
      fun pe hpe => Contains_eq_isPrefixOf (h4 pe hpe) hip
    have key6 : ∀ pe ∈ r.ipV6Ranger.walk,
        pe.2.Network.Contains ip = (IPVersion.IPv6 == w && pe.1.isPrefixOf ib) :=
      fun pe hpe => Contains_eq_isPrefixOf (h6 pe hpe) hip
    simp only [Option.isSome_some, if_true, entries, List.map_append, List.filter_append,
      List.filter_map, Function.comp_def]
    cases w with
    | IPv4 =>
      simp only [prefixTrie.containingNetworks_eq_filter]
      have e4 : r.ipV4Ranger.walk.filter (fun pe => pe.2.Network.Contains ip)
          = r.ipV4Ranger.walk.filter (fun pe => pe.1.isPrefixOf ib) := by
        apply List.filter_congr
        intro pe hpe
        rw [key4 pe hpe]
        simp
      have e6 : r.ipV6Ranger.walk.filter (fun pe => pe.2.Network.Contains ip) = [] := by
        rw [List.filter_eq_nil_iff]
        intro pe hpe
        rw [key6 pe hpe]
        simp
      rw [e4, e6]
      simp
    | IPv6 =>
      simp only [prefixTrie.containingNetworks_eq_filter]
      have e6 : r.ipV6Ranger.walk.filter (fun pe => pe.2.Network.Contains ip)
          = r.ipV6Ranger.walk.filter (fun pe => pe.1.isPrefixOf ib) := by
        apply List.filter_congr
        intro pe hpe
        rw [key6 pe hpe]
        simp
      have e4 : r.ipV4Ranger.walk.filter (fun pe => pe.2.Network.Contains ip) = [] := by
        rw [List.filter_eq_nil_iff]
        intro pe hpe
        rw [key4 pe hpe]
        simp
      rw [e4, e6]
      simp

/-- An address of no family is contained in no network. -/
theorem Contains_of_invalid {n : IPNet} {ip : IP} (h : NewNetworkNumber ip = none) :
    n.Contains ip = false := by
  unfold IPNet.Contains
  rw [h]
  cases NewNetworkNumber n.IP <;> rfl

/-- The entries of a consistent table are pairwise different. -/
theorem entries_nodup {r : versionedRanger} (hr : r.Consistent) : r.entries.Nodup := by
  obtain ⟨h4, h6, _⟩ := hr
  have hw4 : r.ipV4Ranger.walk.Nodup := List.Nodup.of_map _ (prefixTrie.walk_paths_nodup _)
  have hw6 : r.ipV6Ranger.walk.Nodup := List.Nodup.of_map _ (prefixTrie.walk_paths_nodup _)
  unfold entries
  refine List.Nodup.map_on ?_ (List.nodup_append.2 ⟨hw4, hw6, ?_⟩)
  · intro x hx y hy hxy
    have kx : ∃ v, networkKey x.2.Network = some (v, x.1) := by
      rcases List.mem_append.1 hx with h | h
      · exact ⟨_, h4 x h⟩
      · exact ⟨_, h6 x h⟩
    have ky : ∃ v, networkKey y.2.Network = some (v, y.1) := by
      rcases List.mem_append.1 hy with h | h
      · exact ⟨_, h4 y h⟩
      · exact ⟨_, h6 y h⟩
    obtain ⟨v, kx⟩ := kx
    obtain ⟨w, ky⟩ := ky
    rw [hxy, ky] at kx
    simp only [Option.some.injEq, Prod.mk.injEq] at kx
    exact Prod.ext kx.2.symm hxy
  · intro x hx4 hx6
    have a := h4 x hx4
    have b := h6 x hx6
    rw [a] at b
    simp at b

end versionedRanger

namespace versionedRanger

/-- `Insert` of a `*RouteTableEntry` keeps a table consistent. -/
theorem Consistent_Insert {r : versionedRanger} (hr : r.Consistent) (e : RouteTableEntry) :
    (r.Insert (.ptr e)).1.Consistent := by
  obtain ⟨h4, h6, hp⟩ := hr
  unfold Insert
  cases hk : networkKey (RangerEntry.ptr e).Network with
  | none => exact ⟨h4, h6, hp⟩
  | some vk =>
    obtain ⟨v, key⟩ := vk
    cases v with
    | IPv4 =>
      refine ⟨?_, h6, ?_⟩
      · rintro ⟨p, n⟩ hpn
        rcases (prefixTrie.mem_walk_insert key _ _ p n).1 hpn with ⟨rfl, rfl⟩ | ⟨h, _⟩
        · exact hk
        · exact h4 _ h
      · intro n hn
        rcases mem_entries.1 hn with ⟨p, hpn⟩ | ⟨p, hpn⟩
        · rcases (prefixTrie.mem_walk_insert key _ _ p n).1 hpn with ⟨_, rfl⟩ | ⟨h, _⟩
          · rfl
          · exact hp n (mem_entries.2 (Or.inl ⟨p, h⟩))
        · exact hp n (mem_entries.2 (Or.inr ⟨p, hpn⟩))
    | IPv6 =>
      refine ⟨h4, ?_, ?_⟩
      · rintro ⟨p, n⟩ hpn
        rcases (prefixTrie.mem_walk_insert key _ _ p n).1 hpn with ⟨rfl, rfl⟩ | ⟨h, _⟩
        · exact hk
        · exact h6 _ h
      · intro n hn
        rcases mem_entries.1 hn with ⟨p, hpn⟩ | ⟨p, hpn⟩
        · exact hp n (mem_entries.2 (Or.inl ⟨p, hpn⟩))
        · rcases (prefixTrie.mem_walk_insert key _ _ p n).1 hpn with ⟨_, rfl⟩ | ⟨h, _⟩
          · rfl
          · exact hp n (mem_entries.2 (Or.inr ⟨p, h⟩))

/-- The entries of a consistent table after `Insert`: the new entry, and the
former entries of every other network key. -/
theorem mem_entries_Insert {r : versionedRanger} (hr : r.Consistent) (e : RangerEntry)
    {k : IPVersion × List Bool} (hk : networkKey e.Network = some k) (n : RangerEntry) :
    n ∈ (r.Insert e).1.entries ↔
      n = e ∨ (n ∈ r.entries ∧ networkKey n.Network ≠ some k) := by
  obtain ⟨h4, h6, _⟩ := hr
  obtain ⟨v, key⟩ := k
  unfold Insert
  rw [hk]
  cases v with
  | IPv4 =>
    simp only [mem_entries, prefixTrie.mem_walk_insert]
    constructor
    · rintro (⟨p, (⟨_, rfl⟩ | ⟨h, hne⟩)⟩ | ⟨p, h⟩)
      · exact Or.inl rfl
      · refine Or.inr ⟨Or.inl ⟨p, h⟩, ?_⟩
        rw [h4 _ h]
        simpa using hne
      · refine Or.inr ⟨Or.inr ⟨p, h⟩, ?_⟩
        rw [h6 _ h]
        simp
    · rintro (rfl | ⟨(⟨p, h⟩ | ⟨p, h⟩), hne⟩)
      · exact Or.inl ⟨key, Or.inl ⟨rfl, rfl⟩⟩
      · refine Or.inl ⟨p, Or.inr ⟨h, ?_⟩⟩
        rintro rfl
        exact hne (h4 _ h)
      · exact Or.inr ⟨p, h⟩
  | IPv6 =>
    simp only [mem_entries, prefixTrie.mem_walk_insert]
    constructor
    · rintro (⟨p, h⟩ | ⟨p, (⟨_, rfl⟩ | ⟨h, hne⟩)⟩)
      · refine Or.inr ⟨Or.inl ⟨p, h⟩, ?_⟩
        rw [h4 _ h]
        simp
      · exact Or.inl rfl
      · refine Or.inr ⟨Or.inr ⟨p, h⟩, ?_⟩
        rw [h6 _ h]
        simpa using hne
    · rintro (rfl | ⟨(⟨p, h⟩ | ⟨p, h⟩), hne⟩)
      · exact Or.inr ⟨key, Or.inl ⟨rfl, rfl⟩⟩
      · exact Or.inl ⟨p, h⟩
      · refine Or.inr ⟨p, Or.inr ⟨h, ?_⟩⟩
        rintro rfl
        exact hne (h6 _ h)

end versionedRanger

/-! ## Facts about `FindRouteForIP` -/

/-- A list without repetition all of whose members equal `a`, and which has `a`,
is `[a]`. -/
theorem eq_singleton_of_nodup {α : Type} {l : List α} {a : α} (hn : l.Nodup) (ha : a ∈ l)
    (hall : ∀ x ∈ l, x = a) : l = [a] := by
  cases l with
  | nil => cases ha
  | cons x xs =>
    have hx : x = a := hall x (List.mem_cons_self _ _)
    cases xs with
    | nil => rw [hx]
    | cons y ys =>
      have hy : y = a := hall y (List.mem_cons_of_mem _ (List.mem_cons_self _ _))
      rw [List.nodup_cons] at hn
      exact absurd (by rw [hx, hy]; exact List.mem_cons_self _ _) hn.1

/-- The loop of the duplicate-route branch panics at its first round on a
`*RouteTableEntry`. -/
theorem duplicateRouteLoop_ptr (e : RouteTableEntry) (ns : List RangerEntry) :
    duplicateRouteLoop (.ptr e :: ns) = .panic := rfl

/-- The result of `FindRouteForIP` on a consistent table, from the list of the
entries whose network contains the address. -/
theorem FindRouteForIP_eq (cfg : Config) (hr : cfg.PeerLookup.ByRoute.Consistent) (ip : IP) :
    cfg.FindRouteForIP ip =
      match cfg.PeerLookup.ByRoute.entries.filter (fun n => n.Network.Contains ip) with
      | [] => .ret (none, false)
      | [.ptr e] => .ret (some e, true)
      | _ => .panic := by
  unfold Config.FindRouteForIP
  rw [versionedRanger.ContainingNetworks_eq hr]
  have hptr : ∀ n ∈ cfg.PeerLookup.ByRoute.entries.filter (fun n => n.Network.Contains ip),
      n.isPtr = true := fun n hn => hr.2.2 n (List.mem_of_mem_filter hn)
  cases hip : NewNetworkNumber ip with
  | none =>
    have : cfg.PeerLookup.ByRoute.entries.filter (fun n => n.Network.Contains ip) = [] := by
      rw [List.filter_eq_nil_iff]
      intro n _
      rw [versionedRanger.Contains_of_invalid hip]
      simp
    simp [this]
  | some wb =>
    simp only [Option.isSome_some, if_true]
    generalize cfg.PeerLookup.ByRoute.entries.filter (fun n => n.Network.Contains ip) = l at hptr
    match l, hptr with
    | [], _ => rfl
    | [.ptr e], _ => rfl
    | [.val e], h => exact absurd (h _ (List.mem_cons_self _ _)) (by simp [RangerEntry.isPtr])
    | .ptr e :: n :: ns, _ => simp [duplicateRouteLoop, assertValue, Exec.bind]
    | .val e :: n :: ns, h =>
      exact absurd (h _ (List.mem_cons_self _ _)) (by simp [RangerEntry.isPtr])

/-- A consistent table with exactly one entry whose network contains the address:
`FindRouteForIP` returns that entry. -/
theorem FindRouteForIP_of_unique (cfg : Config) (ip : IP) (e : RouteTableEntry)
    (hr : cfg.PeerLookup.ByRoute.Consistent)
    (hmem : RangerEntry.ptr e ∈ cfg.PeerLookup.ByRoute.entries)
    (hc : e.Net.Contains ip = true)
    (huniq : ∀ n ∈ cfg.PeerLookup.ByRoute.entries, n.Network.Contains ip = true → n = .ptr e) :
    cfg.FindRouteForIP ip = .ret (some e, true) := by
  have hl : cfg.PeerLookup.ByRoute.entries.filter (fun n => n.Network.Contains ip) = [.ptr e] := by
    apply eq_singleton_of_nodup ((versionedRanger.entries_nodup hr).filter _)
    · exact List.mem_filter.2 ⟨hmem, hc⟩
    · intro x hx
      exact huniq x (List.mem_of_mem_filter hx) (List.mem_filter.1 hx).2
  rw [FindRouteForIP_eq cfg hr ip, hl]

/-- A consistent table with no entry whose network contains the address:
`FindRouteForIP` returns `(nil, false)`. -/
theorem FindRouteForIP_of_none (cfg : Config) (ip : IP)
    (hr : cfg.PeerLookup.ByRoute.Consistent)
    (hnone : ∀ n ∈ cfg.PeerLookup.ByRoute.entries, n.Network.Contains ip = false) :
    cfg.FindRouteForIP ip = .ret (none, false) := by
  have hl : cfg.PeerLookup.ByRoute.entries.filter (fun n => n.Network.Contains ip) = [] := by
    rw [List.filter_eq_nil_iff]
    intro n hn
    rw [hnone n hn]
    simp
  rw [FindRouteForIP_eq cfg hr ip, hl]

/-! ## The claims -/

set_option maxRecDepth 100000 in
/-- C1, as stated, fails: with the routes `10.0.0.0/8` via alice and `10.1.0.0/16`
via bob in the table, the address `10.1.2.3` is contained in both prefixes and
the `/16` is the longest of them, yet `FindRouteForIP` does not return it: the
list `ContainingNetworks` returns has the `/8` at position 0, and the
duplicate-route branch panics on the type assertion `n.(RouteTableEntry)`. -/
theorem C1_FindRouteForIP_longest_counterexample :
    RangerEntry.ptr route16 ∈ cfgNested.PeerLookup.ByRoute.entries
      ∧ route16.Net.Contains [10, 1, 2, 3] = true
      ∧ (∀ n ∈ cfgNested.PeerLookup.ByRoute.entries,
          n.Network.Contains [10, 1, 2, 3] = true → n.Network.ones ≤ route16.Net.ones)
      ∧ cfgNested.PeerLookup.ByRoute.ContainingNetworks [10, 1, 2, 3]
          = ([.ptr route8, .ptr route16], none)
      ∧ cfgNested.FindRouteForIP [10, 1, 2, 3] = .panic
      ∧ cfgNested.FindRouteForIP [10, 1, 2, 3] ≠ .ret (some route16, true) := by
  decide

/-- C1, amended: for every route table whose entries were stored by
`Insert(&RouteTableEntry{…})` and every address contained in the prefix of exactly
one entry, `FindRouteForIP` returns found=true with that entry, and no entry
containing the address has a longer prefix. -/
theorem C1_FindRouteForIP_unique_containing (cfg : Config) (ip : IP) (e : RouteTableEntry)
    (hr : cfg.PeerLookup.ByRoute.Consistent)
    (hmem : RangerEntry.ptr e ∈ cfg.PeerLookup.ByRoute.entries)
    (hc : e.Net.Contains ip = true)
    (huniq : ∀ n ∈ cfg.PeerLookup.ByRoute.entries, n.Network.Contains ip = true → n = .ptr e) :
    cfg.FindRouteForIP ip = .ret (some e, true)
      ∧ ∀ n ∈ cfg.PeerLookup.ByRoute.entries,
          n.Network.Contains ip = true → n.Network.ones ≤ e.Net.ones := by
  refine ⟨FindRouteForIP_of_unique cfg ip e hr hmem hc huniq, ?_⟩
  intro n hn hcn
  rw [huniq n hn hcn]
  exact Nat.le_refl _

set_option maxRecDepth 100000 in
/-- Witness of C1 amended: in the table of `cfgNested` the address `10.2.3.4` is
contained in the prefix `10.0.0.0/8` only. -/
theorem C1_FindRouteForIP_unique_containing_witness :
    cfgNested.PeerLookup.ByRoute.Consistent
      ∧ RangerEntry.ptr route8 ∈ cfgNested.PeerLookup.ByRoute.entries
      ∧ route8.Net.Contains [10, 2, 3, 4] = true
      ∧ cfgNested.FindRouteForIP [10, 2, 3, 4] = .ret (some route8, true) :=
  ⟨by decide, by decide, by decide,
    (C1_FindRouteForIP_unique_containing cfgNested [10, 2, 3, 4] route8 (by decide) (by decide)
      (by decide) (by decide)).1⟩

set_option maxRecDepth 100000 in
/-- C2, as stated, fails: with the route `192.168.5.0/24` via carol, the lookup of
`192.168.5.10` yields an entry whose target is carol, and `InterceptAddrDial`
for carol and that address returns false. -/
theorem C2_InterceptAddrDial_same_target_counterexample :
    ip4OfMultiaddr addrInCarol = some (v4InV6Prefix ++ [192, 168, 5, 10])
      ∧ cfgCarol.FindRouteForIP (v4InV6Prefix ++ [192, 168, 5, 10]) = .ret (some route24, true)
      ∧ route24.Target.ID = idC
      ∧ InterceptAddrDial cfgCarol idC addrInCarol = .ret false := by
  decide

/-- C2, amended: for every peer id X and every underlay address with an IPv4
component whose route lookup yields an entry with `Target.ID == X`,
`InterceptAddrDial(X, addr)` returns false (the dial is denied). -/
theorem C2_InterceptAddrDial_same_target (cfg : Config) (X : PeerID) (addr : Multiaddr) (ip : IP)
    (rte : RouteTableEntry) (haddr : ip4OfMultiaddr addr = some ip)
    (hlookup : cfg.FindRouteForIP ip = .ret (some rte, true)) (htarget : rte.Target.ID = X) :
    InterceptAddrDial cfg X addr = .ret false := by
  unfold InterceptAddrDial
  rw [haddr]
  simp only [hlookup, Exec.bind, htarget, if_true]

set_option maxRecDepth 100000 in
/-- Witness of C2 amended: carol and `/ip4/192.168.5.10/tcp/4001`. -/
theorem C2_InterceptAddrDial_same_target_witness :
    InterceptAddrDial cfgCarol idC addrInCarol = .ret false :=
  C2_InterceptAddrDial_same_target cfgCarol idC addrInCarol (v4InV6Prefix ++ [192, 168, 5, 10])
    route24 (by decide) (by decide) (by decide)

set_option maxRecDepth 100000 in
/-- C3, as stated, fails: with the route `192.168.5.0/24` via carol, the lookup of
`192.168.5.10` yields an entry whose target is carol, and `InterceptAddrDial`
for the different peer dave and that address returns true. -/
theorem C3_InterceptAddrDial_other_target_counterexample :
    idC ≠ idD
      ∧ ip4OfMultiaddr addrInCarol = some (v4InV6Prefix ++ [192, 168, 5, 10])
      ∧ cfgCarol.FindRouteForIP (v4InV6Prefix ++ [192, 168, 5, 10]) = .ret (some route24, true)
      ∧ route24.Target.ID = idC
      ∧ InterceptAddrDial cfgCarol idD addrInCarol = .ret true := by
  decide

/-- C3, amended: for every pair of distinct peer ids X ≠ Y and every underlay
address with an IPv4 component whose route lookup yields an entry with
`Target.ID == X`, `InterceptAddrDial(Y, addr)` returns true (the dial is
allowed). -/
theorem C3_InterceptAddrDial_other_target (cfg : Config) (X Y : PeerID) (addr : Multiaddr)
    (ip : IP) (rte : RouteTableEntry) (hXY : X ≠ Y) (haddr : ip4OfMultiaddr addr = some ip)
    (hlookup : cfg.FindRouteForIP ip = .ret (some rte, true)) (htarget : rte.Target.ID = X) :
    InterceptAddrDial cfg Y addr = .ret true := by
  unfold InterceptAddrDial
  rw [haddr]
  simp only [hlookup, Exec.bind, htarget, if_neg hXY]

set_option maxRecDepth 100000 in
/-- Witness of C3 amended: carol owns the route, dave is dialed. -/
theorem C3_InterceptAddrDial_other_target_witness :
    InterceptAddrDial cfgCarol idD addrInCarol = .ret true :=
  C3_InterceptAddrDial_other_target cfgCarol idC idD addrInCarol
    (v4InV6Prefix ++ [192, 168, 5, 10]) route24 (by decide) (by decide) (by decide) (by decide)

/-- C4: for every peer id and every underlay multiaddress that has no IPv4
component, or whose IPv4 address is contained in the network of no entry of the
route table, `InterceptAddrDial` returns true. -/
theorem C4_InterceptAddrDial_no_route (cfg : Config) (pid : PeerID) (addr : Multiaddr)
    (hr : cfg.PeerLookup.ByRoute.Consistent)
    (h : ip4OfMultiaddr addr = none
      ∨ ∃ ip, ip4OfMultiaddr addr = some ip
          ∧ ∀ n ∈ cfg.PeerLookup.ByRoute.entries, n.Network.Contains ip = false) :
    InterceptAddrDial cfg pid addr = .ret true := by
  unfold InterceptAddrDial
  rcases h with h | ⟨ip, hip, hnone⟩
  · rw [h]
  · rw [hip]
    simp only [FindRouteForIP_of_none cfg ip hr hnone, Exec.bind]

set_option maxRecDepth 100000 in
/-- Witness of C4: the address `/ip4/8.8.8.8` matches no entry of `cfgCarol`. -/
theorem C4_InterceptAddrDial_no_route_witness :
    InterceptAddrDial cfgCarol idD [.ip4 8 8 8 8] = .ret true :=
  C4_InterceptAddrDial_no_route cfgCarol idD [.ip4 8 8 8 8] (by decide)
    (Or.inr ⟨v4InV6Prefix ++ [8, 8, 8, 8], by decide, by decide⟩)

/-! ## Facts about the peer registry -/

theorem GoMap.get_set_self {κ ν : Type} [DecidableEq κ] (m : GoMap κ ν) (k : κ) (v : ν) :
    (m.set k v).get k = some v := by
  induction m with
  | nil => simp [GoMap.set, GoMap.get]
  | cons kv m ih =>
    obtain ⟨k', v'⟩ := kv
    by_cases h : k' = k
    · simp [GoMap.set, GoMap.get, h]
    · simp [GoMap.set, GoMap.get, h, ih]

/-- `FindPeer` reports found exactly when some peer of the list has the id, and the
peer it returns has the id. -/
theorem FindPeer_found_iff (peers : List Peer) (needle : PeerID) :
    (FindPeer peers needle).2 = true ↔ ∃ p ∈ peers, p.ID = needle := by
  induction peers with
  | nil => simp [FindPeer]
  | cons p ps ih =>
    by_cases h : p.ID = needle
    · simp [FindPeer, h]
    · simp [FindPeer, h, ih]

theorem FindPeer_append_new (peers : List Peer) (p : Peer) :
    ∃ q, FindPeer (peers ++ [p]) p.ID = (some q, true) ∧ q.ID = p.ID := by
  induction peers with
  | nil => exact ⟨p, by simp [FindPeer], rfl⟩
  | cons a ps ih =>
    by_cases h : a.ID = p.ID
    · exact ⟨a, by simp [FindPeer, h], h⟩
    · obtain ⟨q, hq, hid⟩ := ih
      exact ⟨q, by simp [FindPeer, h, hq], hid⟩

/-- `Config.AddPeer` always returns the nil error. -/
theorem Config.AddPeer_err (env : Env) (cfg : Config) (name : String) (peerID : PeerID) :
    (cfg.AddPeer env name peerID).2 = none := rfl

/-- The handler `HyprspaceRPC.AddPeer` always returns a reply, and a reply with
`Success == false` comes with the handler state of before the call. -/
theorem HyprspaceRPC.AddPeer_failure (env : Env) (hsr : HyprspaceRPC) (args : AddPeerArgs) :
    (∃ out, HyprspaceRPC.AddPeer env hsr args = .ret out)
      ∧ ∀ (hsr' : HyprspaceRPC) (reply : AddPeerReply),
          HyprspaceRPC.AddPeer env hsr args = .ret (hsr', reply) → reply.Success = false →
            hsr' = hsr := by
  have hlast : ∀ peerID : PeerID,
      (hsr.config.AddPeer env args.Name peerID).1.Peers.getLast?
        = some (mkPeer env args.Name peerID) := by
    intro peerID
    simp [Config.AddPeer, mkPeer]
  unfold HyprspaceRPC.AddPeer
  by_cases h1 : args.Name = ""
  · rw [if_pos h1]
    exact ⟨⟨_, rfl⟩, by rintro hsr' reply h _; cases h; rfl⟩
  · rw [if_neg h1]
    by_cases h2 : args.ID = ""
    · rw [if_pos h2]
      exact ⟨⟨_, rfl⟩, by rintro hsr' reply h _; cases h; rfl⟩
    · rw [if_neg h2]
      cases hd : env.Decode args.ID with
      | error err => exact ⟨⟨_, rfl⟩, by rintro hsr' reply h _; cases h; rfl⟩
      | ok peerID =>
        dsimp only
        by_cases h3 : (FindPeer hsr.config.Peers peerID).2 = true
        · rw [if_pos h3]
          exact ⟨⟨_, rfl⟩, by rintro hsr' reply h _; cases h; rfl⟩
        · rw [if_neg h3]
          by_cases h4 : (FindPeerByName hsr.config.Peers args.Name).2 = true
          · rw [if_pos h4]
            exact ⟨⟨_, rfl⟩, by rintro hsr' reply h _; cases h; rfl⟩
          · rw [if_neg h4]
            have hadd : hsr.config.AddPeer env args.Name peerID
                = ((hsr.config.AddPeer env args.Name peerID).1, none) := rfl
            rw [hadd]
            dsimp only
            rw [hlast peerID]
            exact ⟨⟨_, rfl⟩, by rintro hsr' reply h hs; cases h; simp at hs⟩

/-- C5: whenever `HyprspaceRPC.AddPeer` replies `Success == false`, the peer list,
`ByName`, `ByNetID` and the route table `ByRoute` are those of before the call,
and the handler has issued no TUN route and no rediscover signal. -/
theorem C5_AddPeer_failure_is_noop (env : Env) (hsr hsr' : HyprspaceRPC) (args : AddPeerArgs)
    (reply : AddPeerReply) (hcall : HyprspaceRPC.AddPeer env hsr args = .ret (hsr', reply))
    (hfail : reply.Success = false) :
    hsr'.config.Peers = hsr.config.Peers
      ∧ hsr'.config.PeerLookup.ByName = hsr.config.PeerLookup.ByName
      ∧ hsr'.config.PeerLookup.ByNetID = hsr.config.PeerLookup.ByNetID
      ∧ hsr'.config.PeerLookup.ByRoute = hsr.config.PeerLookup.ByRoute
      ∧ hsr'.effects = hsr.effects := by
  rw [(HyprspaceRPC.AddPeer_failure env hsr args).2 hsr' reply hcall hfail]
  exact ⟨rfl, rfl, rfl, rfl, rfl⟩

set_option maxRecDepth 100000 in
/-- Witness of C5: with bob configured, a request to add `"bob"` under the fresh id
of carol is refused with the duplicate-name error, and nothing changes. -/
theorem C5_AddPeer_failure_is_noop_witness :
    HyprspaceRPC.AddPeer sampleEnv (HyprspaceRPC.start cfgBob) ⟨"bob", "QmCarol"⟩
        = .ret (HyprspaceRPC.start cfgBob,
            ⟨false, "Peer name already exists", some "peer name already exists"⟩)
      ∧ (HyprspaceRPC.start cfgBob).config.Peers = cfgBob.Peers
      ∧ (HyprspaceRPC.start cfgBob).effects = [] :=
  have h := C5_AddPeer_failure_is_noop sampleEnv (HyprspaceRPC.start cfgBob)
    (HyprspaceRPC.start cfgBob) ⟨"bob", "QmCarol"⟩
    ⟨false, "Peer name already exists", some "peer name already exists"⟩ (by decide) (by decide)
  ⟨by decide, h.1, h.2.2.2.2⟩

/-- C6: after `Config.AddPeer(name, id)` with a non-empty name has returned nil,
`FindPeer(cfg.Peers, id)` finds a peer with that id, `ByName[lowercase(name)]`
is a peer with that id, and `ByNetID` at the bytes 12 to 15 of
`mkBuiltinAddr6(id)` is a peer with that id. -/
theorem C6_AddPeer_then_lookups (env : Env) (cfg : Config) (name : String) (id : PeerID)
    (hname : name ≠ "") :
    (cfg.AddPeer env name id).2 = none
      ∧ (∃ p, FindPeer (cfg.AddPeer env name id).1.Peers id = (some p, true) ∧ p.ID = id)
      ∧ (∃ p, (cfg.AddPeer env name id).1.PeerLookup.ByName.get (env.ToLower name) = some p
          ∧ p.ID = id)
      ∧ (∃ p, (cfg.AddPeer env name id).1.PeerLookup.ByNetID.get (netID (env.mkBuiltinAddr6 id))
          = some p ∧ p.ID = id) := by
  refine ⟨rfl, ?_, ?_, ?_⟩
  · exact FindPeer_append_new cfg.Peers (mkPeer env name id)
  · refine ⟨mkPeer env name id, ?_, rfl⟩
    simp only [Config.AddPeer, if_pos hname, mkPeer]
    exact GoMap.get_set_self _ _ _
  · refine ⟨mkPeer env name id, ?_, rfl⟩
    simp only [Config.AddPeer, mkPeer]
    exact GoMap.get_set_self _ _ _

set_option maxRecDepth 100000 in
/-- Witness of C6: carol is added to the registry that holds bob. -/
theorem C6_AddPeer_then_lookups_witness :
    FindPeer (cfgBob.AddPeer sampleEnv "Carol" idC).1.Peers idC
        = (some (mkPeer sampleEnv "Carol" idC), true)
      ∧ ∃ p, (cfgBob.AddPeer sampleEnv "Carol" idC).1.PeerLookup.ByName.get "carol" = some p
          ∧ p.ID = idC :=
  ⟨by decide, (C6_AddPeer_then_lookups sampleEnv cfgBob "Carol" idC (by decide)).2.2.1⟩

/-- C8: a request with a non-empty name and a non-empty id string that decodes to
the id of a peer of `cfg.Peers` gets the reply `Success == false` with the error
"peer already exists", whatever the name, and changes nothing. -/
theorem C8_AddPeer_duplicate_id (env : Env) (hsr : HyprspaceRPC) (args : AddPeerArgs)
    (peerID : PeerID) (hname : args.Name ≠ "") (hid : args.ID ≠ "")
    (hdecode : env.Decode args.ID = .ok peerID)
    (hpresent : ∃ p ∈ hsr.config.Peers, p.ID = peerID) :
    HyprspaceRPC.AddPeer env hsr args
      = .ret (hsr, ⟨false, "Peer already exists", some "peer already exists"⟩) := by
  have hfound := (FindPeer_found_iff hsr.config.Peers peerID).2 hpresent
  unfold HyprspaceRPC.AddPeer
  rw [if_neg hname, if_neg hid, hdecode]
  dsimp only
  rw [if_pos hfound]

set_option maxRecDepth 100000 in
/-- Witness of C8: the id of bob is sent again, under the name `"robert"`. -/
theorem C8_AddPeer_duplicate_id_witness :
    HyprspaceRPC.AddPeer sampleEnv (HyprspaceRPC.start cfgBob) ⟨"robert", "QmBob"⟩
      = .ret (HyprspaceRPC.start cfgBob,
          ⟨false, "Peer already exists", some "peer already exists"⟩) :=
  C8_AddPeer_duplicate_id sampleEnv (HyprspaceRPC.start cfgBob) ⟨"robert", "QmBob"⟩ idB
    (by decide) (by decide) (by rfl) ⟨mkPeer sampleEnv "bob" idB, by decide, by decide⟩

set_option maxRecDepth 100000 in
/-- C9 on the code: with `"bob"` configured, the request to add `"Bob"` under the
fresh id of carol is accepted: the reply has `Success == true`, the peer list has
two peers, and `ByName["bob"]` now is the new peer, no longer bob. -/
theorem C9_AddPeer_duplicate_name_other_case :
    (FindPeer cfgBob.Peers idC).2 = false
      ∧ sampleEnv.ToLower "Bob" = sampleEnv.ToLower "bob"
      ∧ cfgBob.PeerLookup.ByName.get "bob" = some (mkPeer sampleEnv "bob" idB)
      ∧ ∃ hsr' reply,
          HyprspaceRPC.AddPeer sampleEnv (HyprspaceRPC.start cfgBob) ⟨"Bob", "QmCarol"⟩
            = .ret (hsr', reply)
          ∧ reply.Success = true
          ∧ hsr'.config.Peers = [mkPeer sampleEnv "bob" idB, mkPeer sampleEnv "Bob" idC]
          ∧ hsr'.config.PeerLookup.ByName.get "bob" = some (mkPeer sampleEnv "Bob" idC) := by
  refine ⟨by decide, by decide, by decide, ?_⟩
  refine ⟨⟨(cfgBob.AddPeer sampleEnv "Bob" idC).1,
      [.tunRoute (hostRoute4 (sampleEnv.mkBuiltinAddr4 idC)),
       .tunRoute (hostRoute6 (sampleEnv.mkBuiltinAddr6 idC)), .rediscover]⟩,
    ⟨true, "Peer Bob (QmCarol) added successfully", none⟩, ?_, rfl, ?_, ?_⟩
  · decide
  · decide
  · decide

/-! ## Facts about references to peers -/

theorem HasPrefix_at (s : String) : HasPrefix ("@" ++ s) "@" = true := by
  have h : ("@" ++ s).data = '@' :: s.data := by
    rw [String.data_append]
    rfl
  unfold HasPrefix
  rw [h]
  simp [List.isPrefixOf]

theorem TrimPrefix_at (s : String) : TrimPrefix ("@" ++ s) "@" = s := by
  have h : ("@" ++ s).data = '@' :: s.data := by
    rw [String.data_append]
    rfl
  unfold TrimPrefix
  rw [if_pos (HasPrefix_at s), h]
  rfl

theorem FindPeerByName_found (peers : List Peer) (s : String)
    (h : ∃ p ∈ peers, p.Name = s) :
    ∃ p, FindPeerByName peers s = (some p, true) ∧ p ∈ peers ∧ p.Name = s := by
  induction peers with
  | nil =>
    obtain ⟨p, hp, _⟩ := h
    cases hp
  | cons a ps ih =>
    by_cases ha : a.Name = s
    · exact ⟨a, by simp [FindPeerByName, ha], List.mem_cons_self _ _, ha⟩
    · obtain ⟨p, hp, hn⟩ := h
      have hp' : p ∈ ps := by
        rcases List.mem_cons.1 hp with rfl | h'
        · exact absurd hn ha
        · exact h'
      obtain ⟨q, hq, hmem, hname⟩ := ih ⟨p, hp', hn⟩
      exact ⟨q, by simp [FindPeerByName, ha, hq], List.mem_cons_of_mem _ hmem, hname⟩

theorem FindPeerByName_none (peers : List Peer) (s : String)
    (h : ∀ p ∈ peers, p.Name ≠ s) : FindPeerByName peers s = (none, false) := by
  induction peers with
  | nil => rfl
  | cons a ps ih =>
    have ha : a.Name ≠ s := h a (List.mem_cons_self _ _)
    simp only [FindPeerByName, if_neg ha]
    exact ih (fun p hp => h p (List.mem_cons_of_mem _ hp))

set_option maxRecDepth 100000 in
/-- C10, as stated, fails: in the registry of alice and alicia the peer alice has
the name `"alice"`, equal to `"ALICE"` when compared case-insensitively, and
`FindPeerByCLIRef` reports not-found for the reference `"@ALICE"`. -/
theorem C10_FindPeerByCLIRef_name_case_counterexample :
    (∃ p ∈ peersAlice, sampleEnv.ToLower p.Name = sampleEnv.ToLower "ALICE")
      ∧ FindPeerByCLIRef sampleEnv peersAlice ("@" ++ "ALICE") = (none, false) := by
  decide

/-- C10, amended: for every peer list and every reference of the form `"@" + s`,
`FindPeerByCLIRef` returns a peer of the list whose name equals `s` exactly when
there is one, and reports not-found when no peer of the list has the name `s`
exactly. -/
theorem C10_FindPeerByCLIRef_name_exact (env : Env) (peers : List Peer) (s : String) :
    ((∃ p ∈ peers, p.Name = s) →
        ∃ p, FindPeerByCLIRef env peers ("@" ++ s) = (some p, true) ∧ p ∈ peers ∧ p.Name = s)
      ∧ ((∀ p ∈ peers, p.Name ≠ s) → FindPeerByCLIRef env peers ("@" ++ s) = (none, false)) := by
  have h : FindPeerByCLIRef env peers ("@" ++ s) = FindPeerByName peers s := by
    unfold FindPeerByCLIRef
    rw [if_pos (HasPrefix_at s)]
    dsimp only
    rw [TrimPrefix_at]
  rw [h]
  exact ⟨FindPeerByName_found peers s, FindPeerByName_none peers s⟩

set_option maxRecDepth 100000 in
/-- Witness of C10 amended: `"@alice"` finds alice, `"@ALICE"` finds nobody. -/
theorem C10_FindPeerByCLIRef_name_exact_witness :
    (∃ p, FindPeerByCLIRef sampleEnv peersAlice ("@" ++ "alice") = (some p, true)
        ∧ p ∈ peersAlice ∧ p.Name = "alice")
      ∧ FindPeerByCLIRef sampleEnv peersAlice ("@" ++ "ALICE") = (none, false) :=
  ⟨(C10_FindPeerByCLIRef_name_exact sampleEnv peersAlice "alice").1
      ⟨mkPeer sampleEnv "alice" idA, by decide, by decide⟩,
    (C10_FindPeerByCLIRef_name_exact sampleEnv peersAlice "ALICE").2 (by decide)⟩

/-! ## Facts about the host routes of a peer -/

theorem sampleEnv_WellFormed : sampleEnv.WellFormed := by
  intro p
  refine ⟨rfl, rfl, ?_⟩
  simp [sampleEnv, v4InV6Prefix]

theorem NewNetworkNumber_of_length_four {ip : IP} (h : ip.length = 4) :
    NewNetworkNumber ip = some (.IPv4, bytesBits ip) := by
  simp [NewNetworkNumber, To4, h]

theorem NewNetworkNumber_of_length_sixteen {ip : IP} (h : ip.length = 16)
    (hne : ip.take 12 ≠ v4InV6Prefix) :
    NewNetworkNumber ip = some (.IPv6, bytesBits ip) := by
  simp [NewNetworkNumber, To4, To16, h, hne]

theorem networkKey_hostRoute4 {ip : IP} (h : ip.length = 4) :
    networkKey (hostRoute4 ip) = some (.IPv4, bytesBits ip) := by
  unfold networkKey hostRoute4
  simp only [NewNetworkNumber_of_length_four h]
  rw [List.take_of_length_le]
  rw [length_bytesBits, h]

theorem networkKey_hostRoute6 {ip : IP} (h : ip.length = 16) (hne : ip.take 12 ≠ v4InV6Prefix) :
    networkKey (hostRoute6 ip) = some (.IPv6, bytesBits ip) := by
  unfold networkKey hostRoute6
  simp only [NewNetworkNumber_of_length_sixteen h hne]
  rw [List.take_of_length_le]
  rw [length_bytesBits, h]

/-- After `Config.AddPeer` on a consistent table that holds no entry of another
prefix containing one of the two built-in addresses of the new peer, the lookup
of each built-in address returns the host route of the new peer. -/
theorem FindRouteForIP_AddPeer (env : Env) (cfg : Config) (name : String) (id : PeerID)
    (henv : env.WellFormed) (hr : cfg.PeerLookup.ByRoute.Consistent)
    (hno4 : ∀ n ∈ cfg.PeerLookup.ByRoute.entries,
      n.Network.Contains (env.mkBuiltinAddr4 id) = true →
        networkKey n.Network = networkKey (hostRoute4 (env.mkBuiltinAddr4 id)))
    (hno6 : ∀ n ∈ cfg.PeerLookup.ByRoute.entries,
      n.Network.Contains (env.mkBuiltinAddr6 id) = true →
        networkKey n.Network = networkKey (hostRoute6 (env.mkBuiltinAddr6 id))) :
    (cfg.AddPeer env name id).1.FindRouteForIP (env.mkBuiltinAddr4 id)
        = .ret (some ⟨hostRoute4 (env.mkBuiltinAddr4 id), mkPeer env name id⟩, true)
      ∧ (cfg.AddPeer env name id).1.FindRouteForIP (env.mkBuiltinAddr6 id)
        = .ret (some ⟨hostRoute6 (env.mkBuiltinAddr6 id), mkPeer env name id⟩, true) := by
  obtain ⟨hl4, hl6, hne6⟩ := henv id
  have k4 := networkKey_hostRoute4 hl4
  have k6 := networkKey_hostRoute6 hl6 hne6
  rw [k4] at hno4
  rw [k6] at hno6
  have n4 := NewNetworkNumber_of_length_four hl4
  have n6 := NewNetworkNumber_of_length_sixteen hl6 hne6
  have c44 : (hostRoute4 (env.mkBuiltinAddr4 id)).Contains (env.mkBuiltinAddr4 id) = true := by
    rw [Contains_eq_isPrefixOf k4 n4]
    simp
  have c66 : (hostRoute6 (env.mkBuiltinAddr6 id)).Contains (env.mkBuiltinAddr6 id) = true := by
    rw [Contains_eq_isPrefixOf k6 n6]
    simp
  have c46 : (hostRoute4 (env.mkBuiltinAddr4 id)).Contains (env.mkBuiltinAddr6 id) = false := by
    rw [Contains_eq_isPrefixOf k4 n6]
    rfl
  have c64 : (hostRoute6 (env.mkBuiltinAddr6 id)).Contains (env.mkBuiltinAddr4 id) = false := by
    rw [Contains_eq_isPrefixOf k6 n4]
    rfl
  have hr1 := versionedRanger.Consistent_Insert hr
    ⟨hostRoute4 (env.mkBuiltinAddr4 id), mkPeer env name id⟩
  have hr2 := versionedRanger.Consistent_Insert hr1
    ⟨hostRoute6 (env.mkBuiltinAddr6 id), mkPeer env name id⟩
  have m1 := versionedRanger.mem_entries_Insert hr
    (.ptr ⟨hostRoute4 (env.mkBuiltinAddr4 id), mkPeer env name id⟩) k4
  have m2 := versionedRanger.mem_entries_Insert hr1
    (.ptr ⟨hostRoute6 (env.mkBuiltinAddr6 id), mkPeer env name id⟩) k6
  have hne46 : (some (IPVersion.IPv4, bytesBits (env.mkBuiltinAddr4 id)) :
      Option (IPVersion × List Bool)) ≠ some (IPVersion.IPv6, bytesBits (env.mkBuiltinAddr6 id)) := by
    simp
  constructor
  · refine FindRouteForIP_of_unique _ _ _ hr2 ?_ c44 ?_
    · refine (m2 _).2 (Or.inr ⟨(m1 _).2 (Or.inl rfl), ?_⟩)
      show networkKey (hostRoute4 (env.mkBuiltinAddr4 id)) ≠ _
      rw [k4]
      exact hne46
    · intro n hn hc
      rcases (m2 n).1 hn with rfl | ⟨hn1, _⟩
      · rw [show (RangerEntry.ptr ⟨hostRoute6 (env.mkBuiltinAddr6 id), mkPeer env name id⟩).Network
            = hostRoute6 (env.mkBuiltinAddr6 id) from rfl, c64] at hc
        cases hc
      · rcases (m1 n).1 hn1 with rfl | ⟨hn0, hk⟩
        · rfl
        · exact absurd (hno4 n hn0 hc) hk
  · refine FindRouteForIP_of_unique _ _ _ hr2 ?_ c66 ?_
    · exact (m2 _).2 (Or.inl rfl)
    · intro n hn hc
      rcases (m2 n).1 hn with rfl | ⟨hn1, hk6⟩
      · rfl
      · rcases (m1 n).1 hn1 with rfl | ⟨hn0, _⟩
        · rw [show (RangerEntry.ptr ⟨hostRoute4 (env.mkBuiltinAddr4 id), mkPeer env name id⟩).Network
              = hostRoute4 (env.mkBuiltinAddr4 id) from rfl, c46] at hc
          cases hc
        · exact absurd (hno6 n hn0 hc) hk6

set_option maxRecDepth 100000 in
/-- C7, as stated, fails: the table of `cfgBroad` holds the route `100.64.0.0/10`
via alice, a broader prefix that covers the built-in IPv4 address of bob; after
`AddPeer("bob", idB)` has returned nil, two entries contain that address, the
one at position 0 has the target alice, and `FindRouteForIP` panics in its
duplicate-route branch instead of returning an entry of bob. -/
theorem C7_AddPeer_under_broader_prefix_counterexample :
    cfgBroad.PeerLookup.ByRoute.Consistent
      ∧ (cfgBroad.AddPeer sampleEnv "bob" idB).2 = none
      ∧ (cfgBroad.AddPeer sampleEnv "bob" idB).1.PeerLookup.ByRoute.ContainingNetworks
            (sampleEnv.mkBuiltinAddr4 idB)
          = ([.ptr ⟨⟨[100, 64, 0, 0], 10⟩, mkPeer sampleEnv "alice" idA⟩,
              .ptr ⟨hostRoute4 (sampleEnv.mkBuiltinAddr4 idB), mkPeer sampleEnv "bob" idB⟩], none)
      ∧ (cfgBroad.AddPeer sampleEnv "bob" idB).1.FindRouteForIP (sampleEnv.mkBuiltinAddr4 idB)
          = .panic := by
  decide

/-- C7, amended: for every configuration state whose route table holds no entry of
another prefix that contains `mkBuiltinAddr4(id)` or `mkBuiltinAddr6(id)`, and
every peer id, after `Config.AddPeer(name, id)` has returned nil,
`FindRouteForIP(mkBuiltinAddr4(id))` and `FindRouteForIP(mkBuiltinAddr6(id))`
both return found=true with an entry whose `Target.ID` equals `id`. -/
theorem C7_AddPeer_then_host_routes (env : Env) (cfg : Config) (name : String) (id : PeerID)
    (henv : env.WellFormed) (hr : cfg.PeerLookup.ByRoute.Consistent)
    (hno4 : ∀ n ∈ cfg.PeerLookup.ByRoute.entries,
      n.Network.Contains (env.mkBuiltinAddr4 id) = true →
        networkKey n.Network = networkKey (hostRoute4 (env.mkBuiltinAddr4 id)))
    (hno6 : ∀ n ∈ cfg.PeerLookup.ByRoute.entries,
      n.Network.Contains (env.mkBuiltinAddr6 id) = true →
        networkKey n.Network = networkKey (hostRoute6 (env.mkBuiltinAddr6 id))) :
    (cfg.AddPeer env name id).2 = none
      ∧ (∃ rte, (cfg.AddPeer env name id).1.FindRouteForIP (env.mkBuiltinAddr4 id)
            = .ret (some rte, true) ∧ rte.Target.ID = id)
      ∧ (∃ rte, (cfg.AddPeer env name id).1.FindRouteForIP (env.mkBuiltinAddr6 id)
            = .ret (some rte, true) ∧ rte.Target.ID = id) := by
  obtain ⟨h4, h6⟩ := FindRouteForIP_AddPeer env cfg name id henv hr hno4 hno6
  exact ⟨rfl, ⟨_, h4, rfl⟩, ⟨_, h6, rfl⟩⟩

set_option maxRecDepth 100000 in
/-- Witness of C7 amended: carol is added to the registry that holds bob; the table
holds the two host routes of bob only. -/
theorem C7_AddPeer_then_host_routes_witness :
    cfgBob.PeerLookup.ByRoute.Consistent
      ∧ (∃ rte, (cfgBob.AddPeer sampleEnv "carol" idC).1.FindRouteForIP
            (sampleEnv.mkBuiltinAddr4 idC) = .ret (some rte, true) ∧ rte.Target.ID = idC)
      ∧ (∃ rte, (cfgBob.AddPeer sampleEnv "carol" idC).1.FindRouteForIP
            (sampleEnv.mkBuiltinAddr6 idC) = .ret (some rte, true) ∧ rte.Target.ID = idC) :=
  ⟨by decide,
    (C7_AddPeer_then_host_routes sampleEnv cfgBob "carol" idC sampleEnv_WellFormed (by decide)
      (by decide) (by decide)).2⟩

/-! ## Facts about removal and listing in the trie -/

namespace prefixTrie

/-- What a trie holds after `remove`: every former entry of another key. -/
theorem mem_walk_remove (key : List Bool) :
    ∀ (t : prefixTrie) (p : List Bool) (n : RangerEntry),
      (p, n) ∈ (t.remove key).1.walk ↔ ((p, n) ∈ t.walk ∧ p ≠ key) := by
  induction key with
  | nil =>
    intro t p n
    cases t with
    | empty => simp [remove, walk]
    | node x c0 c1 =>
      simp only [remove, mem_walk_node]
      constructor
      · rintro (⟨_, h⟩ | ⟨q, rfl, hq⟩ | ⟨q, rfl, hq⟩)
        · cases h
        · exact ⟨Or.inr (Or.inl ⟨q, rfl, hq⟩), by simp⟩
        · exact ⟨Or.inr (Or.inr ⟨q, rfl, hq⟩), by simp⟩
      · rintro ⟨(⟨rfl, _⟩ | h | h), hne⟩
        · exact absurd rfl hne
        · exact Or.inr (Or.inl h)
        · exact Or.inr (Or.inr h)
  | cons b bs ih =>
    intro t p n
    cases t with
    | empty => simp [remove, walk]
    | node x c0 c1 =>
      cases b with
      | false =>
        simp only [remove, Bool.false_eq_true, if_false, mem_walk_node, ih]
        constructor
        · rintro (⟨rfl, hx⟩ | ⟨q, rfl, hq, hne⟩ | ⟨q, rfl, hq⟩)
          · exact ⟨Or.inl ⟨rfl, hx⟩, by simp⟩
          · exact ⟨Or.inr (Or.inl ⟨q, rfl, hq⟩), by simpa using hne⟩
          · exact ⟨Or.inr (Or.inr ⟨q, rfl, hq⟩), by simp⟩
        · rintro ⟨(⟨rfl, hx⟩ | ⟨q, rfl, hq⟩ | ⟨q, rfl, hq⟩), hne⟩
          · exact Or.inl ⟨rfl, hx⟩
          · exact Or.inr (Or.inl ⟨q, rfl, hq, by simpa using hne⟩)
          · exact Or.inr (Or.inr ⟨q, rfl, hq⟩)
      | true =>
        simp only [remove, if_true, mem_walk_node, ih]
        constructor
        · rintro (⟨rfl, hx⟩ | ⟨q, rfl, hq⟩ | ⟨q, rfl, hq, hne⟩)
          · exact ⟨Or.inl ⟨rfl, hx⟩, by simp⟩
          · exact ⟨Or.inr (Or.inl ⟨q, rfl, hq⟩), by simp⟩
          · exact ⟨Or.inr (Or.inr ⟨q, rfl, hq⟩), by simpa using hne⟩
        · rintro ⟨(⟨rfl, hx⟩ | ⟨q, rfl, hq⟩ | ⟨q, rfl, hq⟩), hne⟩
          · exact Or.inl ⟨rfl, hx⟩
          · exact Or.inr (Or.inl ⟨q, rfl, hq⟩)
          · exact Or.inr (Or.inr ⟨q, rfl, hq, by simpa using hne⟩)

/-- A trie that holds no entry at a key is left as it is by `remove`, and `remove`
returns no entry. -/
theorem remove_of_absent (key : List Bool) :
    ∀ (t : prefixTrie), (∀ n, (key, n) ∉ t.walk) → t.remove key = (t, none) := by
  induction key with
  | nil =>
    intro t h
    cases t with
    | empty => rfl
    | node x c0 c1 =>
      cases x with
      | none => rfl
      | some e =>
        exact absurd ((mem_walk_node _ _ _ _ _).2 (Or.inl ⟨rfl, rfl⟩)) (h e)
  | cons b bs ih =>
    intro t h
    cases t with
    | empty => rfl
    | node x c0 c1 =>
      cases b with
      | false =>
        have h0 : ∀ n, (bs, n) ∉ c0.walk := fun n hn =>
          h n ((mem_walk_node _ _ _ _ _).2 (Or.inr (Or.inl ⟨bs, rfl, hn⟩)))
        simp [remove, ih c0 h0]
      | true =>
        have h1 : ∀ n, (bs, n) ∉ c1.walk := fun n hn =>
          h n ((mem_walk_node _ _ _ _ _).2 (Or.inr (Or.inr ⟨bs, rfl, hn⟩)))
        simp [remove, ih c1 h1]

/-- The entries `coveredNetworks` returns are those whose path starts with the bits
of the queried network, in the order of `walk`. -/
theorem coveredNetworks_eq_filter : ∀ (t : prefixTrie) (key : List Bool),
    t.coveredNetworks key = (t.walk.filter (fun pe => key.isPrefixOf pe.1)).map Prod.snd
  | .empty, key => by cases key <;> simp [coveredNetworks, walk]
  | .node x c0 c1, [] => by
    simp [coveredNetworks, List.isPrefixOf]
  | .node x c0 c1, b :: bs => by
    have h0 := coveredNetworks_eq_filter c0 bs
    have h1 := coveredNetworks_eq_filter c1 bs
    cases b <;> cases x <;>
      simp [coveredNetworks, walk, List.filter_append, List.filter_map, Function.comp_def,
        List.isPrefixOf, h0, h1, List.map_map]

end prefixTrie

/-! ## Facts about removal and listing in the route table -/

namespace versionedRanger

/-- `Remove` returns an error exactly for a network whose address has no family. -/
theorem Remove_err (r : versionedRanger) (net : IPNet) :
    (r.Remove net).2.2 = none ↔ networkKey net ≠ none := by
  unfold Remove
  cases hk : networkKey net with
  | none => simp
  | some vk =>
    obtain ⟨v, key⟩ := vk
    cases v <;> simp

/-- `Remove` with an error leaves the table as it is. -/
theorem Remove_of_invalid (r : versionedRanger) {net : IPNet} (hk : networkKey net = none) :
    r.Remove net = (r, none, some .ErrInvalidNetworkNumberInput) := by
  unfold Remove
  rw [hk]

/-- The entries of a consistent table after `Remove`: the former entries of every
other network key. -/
theorem mem_entries_Remove {r : versionedRanger} (hr : r.Consistent) {net : IPNet}
    {k : IPVersion × List Bool} (hk : networkKey net = some k) (n : RangerEntry) :
    n ∈ (r.Remove net).1.entries ↔ (n ∈ r.entries ∧ networkKey n.Network ≠ some k) := by
  obtain ⟨h4, h6, _⟩ := hr
  obtain ⟨v, key⟩ := k
  unfold Remove
  rw [hk]
  cases v with
  | IPv4 =>
    simp only [mem_entries, prefixTrie.mem_walk_remove]
    constructor
    · rintro (⟨p, h, hne⟩ | ⟨p, h⟩)
      · refine ⟨Or.inl ⟨p, h⟩, ?_⟩
        rw [h4 _ h]
        simpa using hne
      · refine ⟨Or.inr ⟨p, h⟩, ?_⟩
        rw [h6 _ h]
        simp
    · rintro ⟨(⟨p, h⟩ | ⟨p, h⟩), hne⟩
      · refine Or.inl ⟨p, h, ?_⟩
        rintro rfl
        exact hne (h4 _ h)
      · exact Or.inr ⟨p, h⟩
  | IPv6 =>
    simp only [mem_entries, prefixTrie.mem_walk_remove]
    constructor
    · rintro (⟨p, h⟩ | ⟨p, h, hne⟩)
      · refine ⟨Or.inl ⟨p, h⟩, ?_⟩
        rw [h4 _ h]
        simp
      · refine ⟨Or.inr ⟨p, h⟩, ?_⟩
        rw [h6 _ h]
        simpa using hne
    · rintro ⟨(⟨p, h⟩ | ⟨p, h⟩), hne⟩
      · exact Or.inl ⟨p, h⟩
      · refine Or.inr ⟨p, h, ?_⟩
        rintro rfl
        exact hne (h6 _ h)

/-- `Remove` keeps a table consistent. -/
theorem Consistent_Remove {r : versionedRanger} (hr : r.Consistent) (net : IPNet) :
    (r.Remove net).1.Consistent := by
  cases hk : networkKey net with
  | none =>
    rw [Remove_of_invalid r hk]
    exact hr
  | some k =>
    have hmem := fun n => mem_entries_Remove hr hk n
    obtain ⟨h4, h6, hp⟩ := hr
    obtain ⟨v, key⟩ := k
    refine ⟨?_, ?_, fun n hn => hp n ((hmem n).1 hn).1⟩
    · unfold Remove
      rw [hk]
      cases v with
      | IPv4 =>
        rintro ⟨p, n⟩ hpn
        exact h4 _ ((prefixTrie.mem_walk_remove key _ p n).1 hpn).1
      | IPv6 => exact h4
    · unfold Remove
      rw [hk]
      cases v with
      | IPv4 => exact h6
      | IPv6 =>
        rintro ⟨p, n⟩ hpn
        exact h6 _ ((prefixTrie.mem_walk_remove key _ p n).1 hpn).1

/-- `Remove` of a network whose key no entry of a consistent table has leaves the
table as it is and returns neither an entry nor an error. -/
theorem Remove_of_absent {r : versionedRanger} (hr : r.Consistent) {net : IPNet}
    (hvalid : networkKey net ≠ none)
    (habs : ∀ n ∈ r.entries, networkKey n.Network ≠ networkKey net) :
    r.Remove net = (r, none, none) := by
  obtain ⟨h4, h6, _⟩ := hr
  cases hk : networkKey net with
  | none => exact absurd hk hvalid
  | some k =>
    obtain ⟨v, key⟩ := k
    rw [hk] at habs
    unfold Remove
    rw [hk]
    cases v with
    | IPv4 =>
      have hno : ∀ n, (key, n) ∉ r.ipV4Ranger.walk := fun n hn =>
        habs n (mem_entries.2 (Or.inl ⟨key, hn⟩)) (h4 _ hn)
      simp [prefixTrie.remove_of_absent key _ hno]
    | IPv6 =>
      have hno : ∀ n, (key, n) ∉ r.ipV6Ranger.walk := fun n hn =>
        habs n (mem_entries.2 (Or.inr ⟨key, hn⟩)) (h6 _ hn)
      simp [prefixTrie.remove_of_absent key _ hno]

/-- Every entry `ContainingNetworks` returns is an entry of the table. -/
theorem mem_ContainingNetworks {r : versionedRanger} {ip : IP} {n : RangerEntry}
    (h : n ∈ (r.ContainingNetworks ip).1) : n ∈ r.entries := by
  unfold ContainingNetworks at h
  cases hip : NewNetworkNumber ip with
  | none => rw [hip] at h; cases h
  | some wb =>
    obtain ⟨w, ib⟩ := wb
    rw [hip] at h
    cases w with
    | IPv4 =>
      simp only [prefixTrie.containingNetworks_eq_filter, List.mem_map, List.mem_filter] at h
      obtain ⟨pe, ⟨hpe, _⟩, rfl⟩ := h
      exact mem_entries.2 (Or.inl ⟨pe.1, hpe⟩)
    | IPv6 =>
      simp only [prefixTrie.containingNetworks_eq_filter, List.mem_map, List.mem_filter] at h
      obtain ⟨pe, ⟨hpe, _⟩, rfl⟩ := h
      exact mem_entries.2 (Or.inr ⟨pe.1, hpe⟩)

/-- Every entry `CoveredNetworks` returns is an entry of the table. -/
theorem mem_CoveredNetworks {r : versionedRanger} {net : IPNet} {n : RangerEntry}
    (h : n ∈ (r.CoveredNetworks net).1) : n ∈ r.entries := by
  unfold CoveredNetworks at h
  cases hk : networkKey net with
  | none => rw [hk] at h; cases h
  | some vk =>
    obtain ⟨v, key⟩ := vk
    rw [hk] at h
    cases v with
    | IPv4 =>
      simp only [prefixTrie.coveredNetworks_eq_filter, List.mem_map, List.mem_filter] at h
      obtain ⟨pe, ⟨hpe, _⟩, rfl⟩ := h
      exact mem_entries.2 (Or.inl ⟨pe.1, hpe⟩)
    | IPv6 =>
      simp only [prefixTrie.coveredNetworks_eq_filter, List.mem_map, List.mem_filter] at h
      obtain ⟨pe, ⟨hpe, _⟩, rfl⟩ := h
      exact mem_entries.2 (Or.inr ⟨pe.1, hpe⟩)

/-- The two listings of the `Show` branch, one after the other, are the entries of
the table. -/
theorem CoveredNetworks_all (r : versionedRanger) :
    r.CoveredNetworks AllIPv4 = (r.ipV4Ranger.walk.map Prod.snd, none)
      ∧ r.CoveredNetworks AllIPv6 = (r.ipV6Ranger.walk.map Prod.snd, none) := by
  have k4 : networkKey AllIPv4 = some (.IPv4, []) := by decide
  have k6 : networkKey AllIPv6 = some (.IPv6, []) := by decide
  have hall : ∀ t : prefixTrie, t.coveredNetworks [] = t.walk.map Prod.snd := by
    intro t
    cases t <;> rfl
  unfold CoveredNetworks
  rw [k4, k6]
  simp only [hall]
  exact ⟨trivial, trivial⟩

end versionedRanger

/-- The entry that the common tail of `FindRoute` and `FindRouteForIP` returns is one
of the entries of `networks`. -/
theorem mem_of_lookup_tail {networks : List RangerEntry} {rte : RouteTableEntry} {b : Bool}
    (h : (match networks with
      | [] => (Exec.ret (none, false) : Exec (Option RouteTableEntry × Bool))
      | n0 :: rest =>
        if rest.length + 1 > 1 then
          (duplicateRouteLoop (n0 :: rest)).bind (fun _ =>
            (assertPointer n0).bind (fun rte => .ret (some rte, true)))
        else
          (assertPointer n0).bind (fun rte => .ret (some rte, true))) = .ret (some rte, b)) :
    RangerEntry.ptr rte ∈ networks := by
  cases networks with
  | nil => simp at h
  | cons n0 rest =>
    cases n0 with
    | val e =>
      simp only [duplicateRouteLoop, assertValue, assertPointer, Exec.bind] at h
      split_ifs at h
      · cases hd : duplicateRouteLoop rest <;> rw [hd] at h <;> simp at h
    | ptr e =>
      simp only [duplicateRouteLoop, assertValue, assertPointer, Exec.bind] at h
      split_ifs at h
      · simp only [Exec.ret.injEq, Prod.mk.injEq, Option.some.injEq] at h
        rw [← h.1]
        exact List.mem_cons_self _ _

/-- Whatever entry `FindRouteForIP` returns is an entry of the table. -/
theorem mem_of_FindRouteForIP {cfg : Config} {ip : IP} {rte : RouteTableEntry} {b : Bool}
    (h : cfg.FindRouteForIP ip = .ret (some rte, b)) :
    RangerEntry.ptr rte ∈ cfg.PeerLookup.ByRoute.entries := by
  unfold Config.FindRouteForIP at h
  cases hc : cfg.PeerLookup.ByRoute.ContainingNetworks ip with
  | mk networks err =>
    rw [hc] at h
    cases err with
    | some e => simp at h
    | none =>
      have hmem : RangerEntry.ptr rte ∈ (cfg.PeerLookup.ByRoute.ContainingNetworks ip).1 := by
        rw [hc]
        exact mem_of_lookup_tail h
      exact versionedRanger.mem_ContainingNetworks hmem

/-- Whatever entry `FindRoute` returns is an entry of the table. -/
theorem mem_of_FindRoute {cfg : Config} {needle : IPNet} {rte : RouteTableEntry} {b : Bool}
    (h : cfg.FindRoute needle = .ret (some rte, b)) :
    RangerEntry.ptr rte ∈ cfg.PeerLookup.ByRoute.entries := by
  unfold Config.FindRoute at h
  cases hc : cfg.PeerLookup.ByRoute.CoveredNetworks needle with
  | mk networks err =>
    rw [hc] at h
    cases err with
    | some e => simp at h
    | none =>
      have hmem : RangerEntry.ptr rte ∈ (cfg.PeerLookup.ByRoute.CoveredNetworks needle).1 := by
        rw [hc]
        exact mem_of_lookup_tail h
      exact versionedRanger.mem_CoveredNetworks hmem

/-! ## Claims on lookups by reference and by address -/

theorem FindPeerByIDPrefix_eq_find (env : Env) (peers : List Peer) (needle : String) :
    FindPeerByIDPrefix env peers needle =
      match peers.find? (fun p => HasPrefix (env.IDString p.ID) needle) with
      | some p => (some p, true)
      | none => (none, false) := by
  induction peers with
  | nil => rfl
  | cons a ps ih =>
    by_cases h : HasPrefix (env.IDString a.ID) needle = true
    · simp [FindPeerByIDPrefix, List.find?, h]
    · simp only [Bool.not_eq_true] at h
      simp [FindPeerByIDPrefix, List.find?, h, ih]

/-- `FindPeerByName` returns a peer exactly when it reports found. -/
theorem FindPeerByName_shape (peers : List Peer) (s : String) :
    (∃ p, FindPeerByName peers s = (some p, true)) ∨ FindPeerByName peers s = (none, false) := by
  induction peers with
  | nil => exact Or.inr rfl
  | cons a ps ih =>
    by_cases h : a.Name = s
    · exact Or.inl ⟨a, by simp [FindPeerByName, h]⟩
    · simpa [FindPeerByName, h] using ih

/-- `FindPeerByCLIRef` returns a peer exactly when it reports found. -/
theorem FindPeerByCLIRef_shape (env : Env) (peers : List Peer) (ref : String) :
    (∃ p, FindPeerByCLIRef env peers ref = (some p, true))
      ∨ FindPeerByCLIRef env peers ref = (none, false) := by
  unfold FindPeerByCLIRef
  split_ifs
  · exact FindPeerByName_shape peers _
  · rw [FindPeerByIDPrefix_eq_find]
    cases peers.find? (fun p => HasPrefix (env.IDString p.ID) ref) with
    | none => exact Or.inr rfl
    | some p => exact Or.inl ⟨p, rfl⟩

set_option maxRecDepth 100000 in
/-- C11, as stated, fails: in the registry of alice (`QmAlice`) and alicia
(`QmAlicia`) the reference `"QmAli"` does not start with `"@"` and is a prefix of
the textual id of both peers, and `FindPeerByCLIRef` succeeds, returning alice. -/
theorem C11_FindPeerByCLIRef_ambiguous_counterexample :
    HasPrefix "QmAli" "@" = false
      ∧ (peersAlice.filter (fun p => HasPrefix (sampleEnv.IDString p.ID) "QmAli")).length = 2
      ∧ FindPeerByCLIRef sampleEnv peersAlice "QmAli"
          = (some (mkPeer sampleEnv "alice" idA), true) := by
  decide

/-- C11, amended: for every peer list and every reference not starting with `"@"`,
`FindPeerByCLIRef` succeeds exactly when at least one peer's textual id starts
with the reference; the peer it returns is a peer of the list whose textual id
starts with the reference, and it is that peer when exactly one matches; it
fails (found=false, nil) when no peer matches. -/
theorem C11_FindPeerByCLIRef_id_reference (env : Env) (peers : List Peer) (ref : String)
    (href : HasPrefix ref "@" = false) :
    ((FindPeerByCLIRef env peers ref).2 = true
        ↔ ∃ p ∈ peers, HasPrefix (env.IDString p.ID) ref = true)
      ∧ (∀ p, FindPeerByCLIRef env peers ref = (some p, true) →
          p ∈ peers ∧ HasPrefix (env.IDString p.ID) ref = true)
      ∧ (∀ p ∈ peers, HasPrefix (env.IDString p.ID) ref = true →
          (∀ q ∈ peers, HasPrefix (env.IDString q.ID) ref = true → q = p) →
          FindPeerByCLIRef env peers ref = (some p, true))
      ∧ ((∀ p ∈ peers, HasPrefix (env.IDString p.ID) ref = false) →
          FindPeerByCLIRef env peers ref = (none, false)) := by
  have h : FindPeerByCLIRef env peers ref =
      match peers.find? (fun p => HasPrefix (env.IDString p.ID) ref) with
      | some p => (some p, true)
      | none => (none, false) := by
    unfold FindPeerByCLIRef
    rw [href]
    simp only [Bool.false_eq_true, if_false]
    exact FindPeerByIDPrefix_eq_find env peers ref
  rw [h]
  cases hf : peers.find? (fun p => HasPrefix (env.IDString p.ID) ref) with
  | none =>
    have hnone := List.find?_eq_none.1 hf
    refine ⟨?_, ?_, ?_, ?_⟩
    · simp only [Bool.false_eq_true, false_iff, not_exists, not_and]
      intro p hp
      simpa using hnone p hp
    · intro p hp
      simp at hp
    · intro p hp hm _
      exact absurd hm (by simpa using hnone p hp)
    · intro _
      rfl
  | some p0 =>
    have hmem : p0 ∈ peers := List.mem_of_find?_eq_some hf
    have hpre : HasPrefix (env.IDString p0.ID) ref = true := by
      simpa using List.find?_some hf
    refine ⟨?_, ?_, ?_, ?_⟩
    · simp only [true_iff]
      exact ⟨p0, hmem, hpre⟩
    · intro p hp
      simp only [Prod.mk.injEq, Option.some.injEq, and_true] at hp
      rw [← hp]
      exact ⟨hmem, hpre⟩
    · intro p _ _ huniq
      rw [huniq p0 hmem hpre]
    · intro hall
      rw [hall p0 hmem] at hpre
      cases hpre

set_option maxRecDepth 100000 in
/-- Witness of C11 amended: the reference `"QmAlici"` matches alicia only. -/
theorem C11_FindPeerByCLIRef_id_reference_witness :
    FindPeerByCLIRef sampleEnv peersAlice "QmAlici"
      = (some (mkPeer sampleEnv "alicia" idX), true) :=
  (C11_FindPeerByCLIRef_id_reference sampleEnv peersAlice "QmAlici" (by decide)).2.2.1
    (mkPeer sampleEnv "alicia" idX) (by decide) (by decide) (by decide)

/-- C19: for every route table whose entries were stored by
`Insert(&RouteTableEntry{…})` and every address that is contained in the prefix of
no entry, `FindRouteForIP` returns `(nil, false)`. -/
theorem C19_FindRouteForIP_no_entry (cfg : Config) (ip : IP)
    (hr : cfg.PeerLookup.ByRoute.Consistent)
    (hnone : ∀ n ∈ cfg.PeerLookup.ByRoute.entries, n.Network.Contains ip = false) :
    cfg.FindRouteForIP ip = .ret (none, false) :=
  FindRouteForIP_of_none cfg ip hr hnone

set_option maxRecDepth 100000 in
/-- Witness of C19: no entry of `cfgNested` contains `8.8.8.8`. -/
theorem C19_FindRouteForIP_no_entry_witness :
    cfgNested.FindRouteForIP [8, 8, 8, 8] = .ret (none, false) :=
  C19_FindRouteForIP_no_entry cfgNested [8, 8, 8, 8] (by decide) (by decide)

/-! ## Claims on the `Route` handler -/

/-- C18: `Route` with action `Add` returns an error and changes nothing (no call to
`tunDev.Apply`, same route table) when the arguments are not exactly two, when
the first is not a valid CIDR, or when the second resolves to no peer; and when
`tunDev.Apply` fails it returns that error with the route table unchanged. -/
theorem C18_Route_Add_failures (env : Env) (host : Host) (tun : TUN) (hsr : HyprspaceRPC)
    (args : List String) (reply : RouteReply) :
    (args.length ≠ 2 →
        HyprspaceRPC.Route env host tun hsr ⟨.Add, args⟩ reply
          = .ret (hsr, reply, some "expected exactly 2 arguments"))
      ∧ (∀ a0 a1 e, args = [a0, a1] → env.ParseCIDR a0 = .error e →
          HyprspaceRPC.Route env host tun hsr ⟨.Add, args⟩ reply = .ret (hsr, reply, some e))
      ∧ (∀ a0 a1 net, args = [a0, a1] → env.ParseCIDR a0 = .ok net →
          (FindPeerByCLIRef env hsr.config.Peers a1).2 = false →
          HyprspaceRPC.Route env host tun hsr ⟨.Add, args⟩ reply
            = .ret (hsr, reply, some "no such peer"))
      ∧ (∀ a0 a1 net e, args = [a0, a1] → env.ParseCIDR a0 = .ok net →
          (FindPeerByCLIRef env hsr.config.Peers a1).2 = true →
          tun hsr.effects (.tunRoute net) = some e →
          HyprspaceRPC.Route env host tun hsr ⟨.Add, args⟩ reply
            = .ret (⟨hsr.config, hsr.effects ++ [.tunRoute net]⟩, reply, some e)) := by
  refine ⟨?_, ?_, ?_, ?_⟩
  · intro hlen
    unfold HyprspaceRPC.Route
    match args, hlen with
    | [], _ => rfl
    | [_], _ => rfl
    | [_, _], h => exact absurd rfl h
    | _ :: _ :: _ :: _, _ => rfl
  · rintro a0 a1 e rfl hparse
    simp only [HyprspaceRPC.Route, hparse]
  · rintro a0 a1 net rfl hparse hfind
    rcases FindPeerByCLIRef_shape env hsr.config.Peers a1 with ⟨p, hp⟩ | hp
    · rw [hp] at hfind
      cases hfind
    · simp only [HyprspaceRPC.Route, hparse, hp]
  · rintro a0 a1 net e rfl hparse hfind htun
    rcases FindPeerByCLIRef_shape env hsr.config.Peers a1 with ⟨p, hp⟩ | hp
    · simp only [HyprspaceRPC.Route, hparse, hp, htun]
    · rw [hp] at hfind
      cases hfind

set_option maxRecDepth 100000 in
/-- Witness of C18: on a TUN device that refuses every call, adding the route
`10.42.0.0/16` via `@bob` returns the error of the device and leaves the
configuration as it is. -/
theorem C18_Route_Add_failures_witness :
    HyprspaceRPC.Route sampleEnv hostIdle tunDown (HyprspaceRPC.start cfgBob)
        ⟨.Add, ["10.42.0.0/16", "@bob"]⟩ emptyReply
      = .ret (⟨cfgBob, [.tunRoute ⟨[10, 42, 0, 0], 16⟩]⟩, emptyReply,
          some "operation not permitted") :=
  (C18_Route_Add_failures sampleEnv hostIdle tunDown (HyprspaceRPC.start cfgBob)
    ["10.42.0.0/16", "@bob"] emptyReply).2.2.2 "10.42.0.0/16" "@bob" ⟨[10, 42, 0, 0], 16⟩
    "operation not permitted" rfl (by rfl) (by decide) rfl

/-- The `Del` branch of `HyprspaceRPC.Route` is `routeDel` on the trie that
`config.Read` stores in `ByRoute`. -/
theorem Route_Del_eq_routeDel (env : Env) (host : Host) (tun : TUN) (hsr : HyprspaceRPC)
    (a0 : String) (net : IPNet) (reply : RouteReply) (hparse : env.ParseCIDR a0 = .ok net) :
    HyprspaceRPC.Route env host tun hsr ⟨.Del, [a0]⟩ reply
      = .ret (⟨{ hsr.config with PeerLookup := { hsr.config.PeerLookup with
            ByRoute := (routeDel trieRanger tun hsr.config.PeerLookup.ByRoute hsr.effects net).1 } },
          (routeDel trieRanger tun hsr.config.PeerLookup.ByRoute hsr.effects net).2.1⟩, reply,
          (routeDel trieRanger tun hsr.config.PeerLookup.ByRoute hsr.effects net).2.2) := by
  cases htun : tun hsr.effects (.tunRemoveRoute net) with
  | some e =>
    simp only [HyprspaceRPC.Route, routeDel, hparse, htun]
  | none =>
    cases hk : networkKey net with
    | none =>
      have hr := versionedRanger.Remove_of_invalid hsr.config.PeerLookup.ByRoute hk
      simp only [HyprspaceRPC.Route, routeDel, trieRanger, hparse, htun, hr, Option.map_some']
    | some k =>
      have hnone : (hsr.config.PeerLookup.ByRoute.Remove net).2.2 = none :=
        (versionedRanger.Remove_err _ net).2 (by rw [hk]; simp)
      rcases hr : hsr.config.PeerLookup.ByRoute.Remove net with ⟨table, entry, err⟩
      rw [hr] at hnone
      simp only at hnone
      subst hnone
      simp only [HyprspaceRPC.Route, routeDel, trieRanger, hparse, htun, hr, Option.map_none']

/-- C17: in `Route` with action `Del`, when removing the TUN route fails the handler
returns that error with the route table unchanged, `Remove` not being called;
when the TUN removal succeeds and `Remove` of the table behind `ByRoute`, a
value of the interface type `cidranger.Ranger`, returns an error, the handler
applies `tun.Route` for the same prefix again and then returns that error; when
`Remove` returns no error, no `tun.Route` is applied. The handler of
`rpc/server.go` is this branch on the trie of `config.Read`. -/
theorem C17_Route_Del_rollback {ρ : Type} (R : RangerImpl ρ) (table : ρ) (env : Env)
    (host : Host) (tun : TUN) (hsr : HyprspaceRPC) (a0 : String) (net : IPNet)
    (reply : RouteReply) (hparse : env.ParseCIDR a0 = .ok net) :
    HyprspaceRPC.Route env host tun hsr ⟨.Del, [a0]⟩ reply
        = .ret (⟨{ hsr.config with PeerLookup := { hsr.config.PeerLookup with
              ByRoute :=
                (routeDel trieRanger tun hsr.config.PeerLookup.ByRoute hsr.effects net).1 } },
            (routeDel trieRanger tun hsr.config.PeerLookup.ByRoute hsr.effects net).2.1⟩, reply,
            (routeDel trieRanger tun hsr.config.PeerLookup.ByRoute hsr.effects net).2.2)
      ∧ (∀ e, tun hsr.effects (.tunRemoveRoute net) = some e →
          HyprspaceRPC.Route env host tun hsr ⟨.Del, [a0]⟩ reply
            = .ret (⟨hsr.config, hsr.effects ++ [.tunRemoveRoute net]⟩, reply, some e))
      ∧ (∀ e, tun hsr.effects (.tunRemoveRoute net) = some e →
          routeDel R tun table hsr.effects net
            = (table, hsr.effects ++ [.tunRemoveRoute net], some e))
      ∧ (∀ err, tun hsr.effects (.tunRemoveRoute net) = none →
          (R.Remove table net).2.2 = some err →
          routeDel R tun table hsr.effects net
            = ((R.Remove table net).1,
                hsr.effects ++ [.tunRemoveRoute net, .tunRoute net], some err))
      ∧ (tun hsr.effects (.tunRemoveRoute net) = none →
          (R.Remove table net).2.2 = none →
          routeDel R tun table hsr.effects net
            = ((R.Remove table net).1, hsr.effects ++ [.tunRemoveRoute net], none)) := by
  refine ⟨Route_Del_eq_routeDel env host tun hsr a0 net reply hparse, ?_, ?_, ?_, ?_⟩
  · intro e htun
    simp only [HyprspaceRPC.Route, hparse, htun]
  · intro e htun
    simp only [routeDel, htun]
  · intro err htun hrem
    rcases hr : R.Remove table net with ⟨table', entry, err'⟩
    rw [hr] at hrem
    simp only at hrem
    subst hrem
    simp only [routeDel, htun, hr]
  · intro htun hrem
    rcases hr : R.Remove table net with ⟨table', entry, err'⟩
    rw [hr] at hrem
    simp only at hrem
    subst hrem
    simp only [routeDel, htun, hr]

set_option maxRecDepth 100000 in
/-- Witness of C17. First part: the TUN device refuses the removal of
`10.0.0.0/8`; the handler returns its error and the configuration is as before.
Second part: the TUN device accepts the removal and `Remove` of the table fails;
the calls are `tun.RemoveRoute` and then `tun.Route` for `10.0.0.0/8`, and the
error of `Remove` is returned. -/
theorem C17_Route_Del_rollback_witness :
    HyprspaceRPC.Route sampleEnv hostIdle tunDown (HyprspaceRPC.start cfgNested)
          ⟨.Del, ["10.0.0.0/8"]⟩ emptyReply
        = .ret (⟨cfgNested, [.tunRemoveRoute ⟨[10, 0, 0, 0], 8⟩]⟩, emptyReply,
            some "operation not permitted")
      ∧ routeDel failingRanger tunOK [.ptr route8] [] ⟨[10, 0, 0, 0], 8⟩
        = ([.ptr route8],
            [.tunRemoveRoute ⟨[10, 0, 0, 0], 8⟩, .tunRoute ⟨[10, 0, 0, 0], 8⟩],
            some "bit position not valid") :=
  ⟨(C17_Route_Del_rollback failingRanger [.ptr route8] sampleEnv hostIdle tunDown
      (HyprspaceRPC.start cfgNested) "10.0.0.0/8" ⟨[10, 0, 0, 0], 8⟩ emptyReply
      (by rfl)).2.1 "operation not permitted" rfl,
    (C17_Route_Del_rollback failingRanger [.ptr route8] sampleEnv hostIdle tunOK
      (HyprspaceRPC.start cfgNested) "10.0.0.0/8" ⟨[10, 0, 0, 0], 8⟩ emptyReply
      (by rfl)).2.2.2.1 "bit position not valid" rfl rfl⟩

set_option maxRecDepth 100000 in
/-- C16, as stated, fails: the table of the empty configuration holds no entry for
`10.42.0.0/16`, and `Route` with action `Del` on it, the TUN removal having
succeeded, returns nil. -/
theorem C16_Route_Del_absent_counterexample :
    emptyConfig.PeerLookup.ByRoute.entries = []
      ∧ sampleEnv.ParseCIDR "10.42.0.0/16" = .ok ⟨[10, 42, 0, 0], 16⟩
      ∧ HyprspaceRPC.Route sampleEnv hostIdle tunOK (HyprspaceRPC.start emptyConfig)
            ⟨.Del, ["10.42.0.0/16"]⟩ emptyReply
          = .ret (⟨emptyConfig, [.tunRemoveRoute ⟨[10, 42, 0, 0], 16⟩]⟩, emptyReply, none) := by
  refine ⟨by decide, by rfl, by decide⟩

/-- C16, amended: for every route table and every well-formed prefix P for which the
table holds no entry, `Route` with action `Del` on P calls
`tunDev.Apply(tun.RemoveRoute(P))`, returns what that call returns (nil when it
succeeds) and leaves the route table unchanged. -/
theorem C16_Route_Del_absent (env : Env) (host : Host) (tun : TUN) (hsr : HyprspaceRPC)
    (a0 : String) (net : IPNet) (reply : RouteReply)
    (hr : hsr.config.PeerLookup.ByRoute.Consistent)
    (hparse : env.ParseCIDR a0 = .ok net) (hvalid : networkKey net ≠ none)
    (habs : ∀ n ∈ hsr.config.PeerLookup.ByRoute.entries,
      networkKey n.Network ≠ networkKey net) :
    HyprspaceRPC.Route env host tun hsr ⟨.Del, [a0]⟩ reply
      = .ret (⟨hsr.config, hsr.effects ++ [.tunRemoveRoute net]⟩, reply,
          tun hsr.effects (.tunRemoveRoute net)) := by
  have hrem := versionedRanger.Remove_of_absent hr hvalid habs
  cases htun : tun hsr.effects (.tunRemoveRoute net) with
  | some e => simp only [HyprspaceRPC.Route, hparse, htun]
  | none => simp only [HyprspaceRPC.Route, hparse, htun, hrem]

set_option maxRecDepth 100000 in
/-- Witness of C16 amended: `10.42.0.0/16` is removed from the table of `cfgNested`,
which does not hold it. -/
theorem C16_Route_Del_absent_witness :
    HyprspaceRPC.Route sampleEnv hostIdle tunOK (HyprspaceRPC.start cfgNested)
        ⟨.Del, ["10.42.0.0/16"]⟩ emptyReply
      = .ret (⟨cfgNested, [.tunRemoveRoute ⟨[10, 42, 0, 0], 16⟩]⟩, emptyReply, none) :=
  C16_Route_Del_absent sampleEnv hostIdle tunOK (HyprspaceRPC.start cfgNested)
    "10.42.0.0/16" ⟨[10, 42, 0, 0], 16⟩ emptyReply (by decide) (by rfl) (by decide) (by decide)

set_option maxRecDepth 100000 in
/-- C14, as stated, fails: the table of `cfgNested` holds `10.0.0.0/8` via alice;
`Route` with action `Add` for `10.0.0.0/8` and `@bob` returns nil, and afterwards
the table holds `10.0.0.0/8` via bob and no longer the entry via alice. -/
theorem C14_Route_Add_duplicate_counterexample :
    RangerEntry.ptr route8 ∈ cfgNested.PeerLookup.ByRoute.entries
      ∧ ∃ hsr', HyprspaceRPC.Route sampleEnv hostIdle tunOK (HyprspaceRPC.start cfgNested)
            ⟨.Add, ["10.0.0.0/8", "@bob"]⟩ emptyReply = .ret (hsr', emptyReply, none)
          ∧ RangerEntry.ptr ⟨⟨[10, 0, 0, 0], 8⟩, mkPeer sampleEnv "bob" idB⟩
              ∈ hsr'.config.PeerLookup.ByRoute.entries
          ∧ RangerEntry.ptr route8 ∉ hsr'.config.PeerLookup.ByRoute.entries := by
  refine ⟨by decide, ?_⟩
  refine ⟨⟨cfgNested.insertRoute ⟨[10, 0, 0, 0], 8⟩ (mkPeer sampleEnv "bob" idB),
    [.tunRoute ⟨[10, 0, 0, 0], 8⟩]⟩, by decide, by decide, by decide⟩

/-- C14, amended: for every route table that already holds an entry for prefix P,
`Route` with action `Add`, a well-formed CIDR equal to P and a resolvable peer
reference returns nil once `tunDev.Apply` has succeeded, and replaces the entry
for P by the entry (P → the referenced peer); the entries of the other prefixes
and the peer list are unchanged. -/
theorem C14_Route_Add_replaces (env : Env) (host : Host) (tun : TUN) (hsr : HyprspaceRPC)
    (a0 a1 : String) (net : IPNet) (target : Peer) (reply : RouteReply)
    (hr : hsr.config.PeerLookup.ByRoute.Consistent)
    (hparse : env.ParseCIDR a0 = .ok net)
    (hold : ∃ old ∈ hsr.config.PeerLookup.ByRoute.entries,
      networkKey old.Network = networkKey net)
    (hfind : FindPeerByCLIRef env hsr.config.Peers a1 = (some target, true))
    (htun : tun hsr.effects (.tunRoute net) = none) :
    ∃ hsr', HyprspaceRPC.Route env host tun hsr ⟨.Add, [a0, a1]⟩ reply = .ret (hsr', reply, none)
      ∧ hsr'.config.Peers = hsr.config.Peers
      ∧ hsr'.config.PeerLookup.ByRoute.Consistent
      ∧ ∀ n, n ∈ hsr'.config.PeerLookup.ByRoute.entries ↔
          (n = .ptr ⟨net, target⟩
            ∨ (n ∈ hsr.config.PeerLookup.ByRoute.entries
                ∧ networkKey n.Network ≠ networkKey net)) := by
  obtain ⟨old, hmem, hkey⟩ := hold
  have hk : ∃ k, networkKey net = some k := by
    rcases versionedRanger.mem_entries.1 hmem with ⟨p, hp⟩ | ⟨p, hp⟩
    · exact ⟨_, hkey ▸ hr.1 _ hp⟩
    · exact ⟨_, hkey ▸ hr.2.1 _ hp⟩
  obtain ⟨k, hk⟩ := hk
  refine ⟨⟨hsr.config.insertRoute net target, hsr.effects ++ [.tunRoute net]⟩, ?_, rfl, ?_, ?_⟩
  · simp only [HyprspaceRPC.Route, hparse, hfind, htun]
  · exact versionedRanger.Consistent_Insert hr ⟨net, target⟩
  · intro n
    rw [hk]
    exact versionedRanger.mem_entries_Insert hr (.ptr ⟨net, target⟩) hk n

set_option maxRecDepth 100000 in
/-- Witness of C14 amended: `10.0.0.0/8`, held via alice, is added via `@bob`. -/
theorem C14_Route_Add_replaces_witness :
    ∃ hsr', HyprspaceRPC.Route sampleEnv hostIdle tunOK (HyprspaceRPC.start cfgNested)
        ⟨.Add, ["10.0.0.0/8", "@bob"]⟩ emptyReply = .ret (hsr', emptyReply, none)
      ∧ RangerEntry.ptr ⟨⟨[10, 0, 0, 0], 8⟩, mkPeer sampleEnv "bob" idB⟩
          ∈ hsr'.config.PeerLookup.ByRoute.entries :=
  have h := C14_Route_Add_replaces sampleEnv hostIdle tunOK (HyprspaceRPC.start cfgNested)
    "10.0.0.0/8" "@bob" ⟨[10, 0, 0, 0], 8⟩ (mkPeer sampleEnv "bob" idB) emptyReply
    (by decide) (by rfl) ⟨.ptr route8, by decide, by decide⟩ (by decide) rfl
  h.elim fun hsr' hh => ⟨hsr', hh.1, (hh.2.2.2 _).2 (Or.inl rfl)⟩

/-- The loop of the `Show` branch over entries that are all `*RouteTableEntry` returns
one `RouteInfo` for each entry, with the network of the entry. -/
theorem routeInfos_of_ptr (env : Env) (host : Host) :
    ∀ l : List RangerEntry, (∀ n ∈ l, n.isPtr = true) →
      ∃ infos, routeInfos env host l = .ret infos
        ∧ infos.map (fun i => i.Network) = l.map (fun n => n.Network) := by
  intro l
  induction l with
  | nil => intro _; exact ⟨[], rfl, rfl⟩
  | cons n ns ih =>
    intro h
    obtain ⟨infos, hinfos, hmap⟩ := ih (fun m hm => h m (List.mem_cons_of_mem _ hm))
    cases n with
    | val e => exact absurd (h _ (List.mem_cons_self _ _)) (by simp [RangerEntry.isPtr])
    | ptr e =>
      have hinfo : ∃ info, routeInfoOf env host (.ptr e) = .ret info ∧ info.Network = e.Net :=
        ⟨_, rfl, rfl⟩
      obtain ⟨info, hret, hnet⟩ := hinfo
      refine ⟨info :: infos, ?_, ?_⟩
      · simp only [routeInfos, hret, Exec.bind, hinfos]
      · simp only [List.map_cons, hmap, hnet]
        rfl

/-- When `Route` with action `Del` returns nil, the TUN removal and the removal from
the table both succeeded, and the handler holds the table after `Remove`. -/
theorem Route_Del_nil {env : Env} {host : Host} {tun : TUN} {hsr hsr' : HyprspaceRPC}
    {a0 : String} {net : IPNet} {reply reply' : RouteReply}
    (hparse : env.ParseCIDR a0 = .ok net)
    (hdel : HyprspaceRPC.Route env host tun hsr ⟨.Del, [a0]⟩ reply = .ret (hsr', reply', none)) :
    networkKey net ≠ none
      ∧ hsr'.config.PeerLookup.ByRoute = (hsr.config.PeerLookup.ByRoute.Remove net).1
      ∧ hsr'.config.Peers = hsr.config.Peers
      ∧ hsr'.effects = hsr.effects ++ [.tunRemoveRoute net] := by
  simp only [HyprspaceRPC.Route, hparse] at hdel
  cases htun : tun hsr.effects (.tunRemoveRoute net) with
  | some e =>
    rw [htun] at hdel
    simp at hdel
  | none =>
    rw [htun] at hdel
    cases hk : networkKey net with
    | none =>
      rw [versionedRanger.Remove_of_invalid _ hk] at hdel
      simp at hdel
    | some k =>
      have herr := (versionedRanger.Remove_err hsr.config.PeerLookup.ByRoute net).2
        (by rw [hk]; simp)
      cases hrem : hsr.config.PeerLookup.ByRoute.Remove net with
      | mk table rest =>
        obtain ⟨entry, err⟩ := rest
        rw [hrem] at herr hdel
        simp only at herr
        subst herr
        simp only [Exec.ret.injEq, Prod.mk.injEq, and_true] at hdel
        obtain ⟨hcfg, _⟩ := hdel
        subst hcfg
        exact ⟨by simp, rfl, rfl, rfl⟩

/-- C15: for every route table and well-formed prefix P, after `Route` with action
`Del` on P has returned nil, the table holds no entry with prefix P: `FindRoute`
and `FindRouteForIP` return no entry whose `Net` equals P, and `Route` with
action `Show` returns a list without P. -/
theorem C15_Route_Del_then_absent (env : Env) (host : Host) (tun : TUN)
    (hsr hsr' : HyprspaceRPC) (a0 : String) (P : IPNet) (reply reply' : RouteReply)
    (hr : hsr.config.PeerLookup.ByRoute.Consistent)
    (hparse : env.ParseCIDR a0 = .ok P)
    (hdel : HyprspaceRPC.Route env host tun hsr ⟨.Del, [a0]⟩ reply = .ret (hsr', reply', none)) :
    (∀ n ∈ hsr'.config.PeerLookup.ByRoute.entries, n.Network ≠ P)
      ∧ (∀ ip rte b, hsr'.config.FindRouteForIP ip = .ret (some rte, b) → rte.Net ≠ P)
      ∧ (∀ needle rte b, hsr'.config.FindRoute needle = .ret (some rte, b) → rte.Net ≠ P)
      ∧ (∀ (host2 : Host) (tun2 : TUN) (args2 : List String) (reply2 : RouteReply),
          ∃ routes, HyprspaceRPC.Route env host2 tun2 hsr' ⟨.Show, args2⟩ reply2
              = .ret (hsr', ⟨"", routes, none⟩, none)
            ∧ ∀ info ∈ routes, info.Network ≠ P) := by
  obtain ⟨hvalid, htable, _, _⟩ := Route_Del_nil hparse hdel
  obtain ⟨k, hk⟩ := Option.ne_none_iff_exists'.1 hvalid
  have hr' : hsr'.config.PeerLookup.ByRoute.Consistent := by
    rw [htable]
    exact versionedRanger.Consistent_Remove hr P
  have hno : ∀ n ∈ hsr'.config.PeerLookup.ByRoute.entries, n.Network ≠ P := by
    intro n hn hnet
    rw [htable] at hn
    have := ((versionedRanger.mem_entries_Remove hr hk n).1 hn).2
    rw [hnet, hk] at this
    exact this rfl
  refine ⟨hno, ?_, ?_, ?_⟩
  · intro ip rte b h
    exact hno _ (mem_of_FindRouteForIP h)
  · intro needle rte b h
    exact hno _ (mem_of_FindRoute h)
  · intro host2 tun2 args2 reply2
    obtain ⟨h4, h6⟩ := versionedRanger.CoveredNetworks_all hsr'.config.PeerLookup.ByRoute
    have hall : hsr'.config.PeerLookup.ByRoute.ipV4Ranger.walk.map Prod.snd
        ++ hsr'.config.PeerLookup.ByRoute.ipV6Ranger.walk.map Prod.snd
        = hsr'.config.PeerLookup.ByRoute.entries := by
      simp [versionedRanger.entries]
    obtain ⟨infos, hinfos, hmap⟩ := routeInfos_of_ptr env host2
      hsr'.config.PeerLookup.ByRoute.entries hr'.2.2
    refine ⟨infos, ?_, ?_⟩
    · simp only [HyprspaceRPC.Route, h4, h6, hall, hinfos, Exec.bind]
    · intro info hinfo hP
      have hmem : info.Network ∈ infos.map (fun i => i.Network) :=
        List.mem_map.2 ⟨info, hinfo, rfl⟩
      rw [hmap] at hmem
      obtain ⟨n, hn, hnet⟩ := List.mem_map.1 hmem
      exact hno n hn (hnet.trans hP)

set_option maxRecDepth 100000 in
/-- Witness of C15: `10.1.0.0/16` is removed from the table of `cfgNested`; the lookup
of `10.1.2.3` then returns the route `10.0.0.0/8`. -/
theorem C15_Route_Del_then_absent_witness :
    ∃ hsr', HyprspaceRPC.Route sampleEnv hostIdle tunOK (HyprspaceRPC.start cfgNested)
          ⟨.Del, ["10.1.0.0/16"]⟩ emptyReply = .ret (hsr', emptyReply, none)
      ∧ hsr'.config.FindRouteForIP [10, 1, 2, 3] = .ret (some route8, true)
      ∧ ∀ n ∈ hsr'.config.PeerLookup.ByRoute.entries, n.Network ≠ ⟨[10, 1, 0, 0], 16⟩ :=
  ⟨⟨{ cfgNested with PeerLookup := { cfgNested.PeerLookup with
        ByRoute := (cfgNested.PeerLookup.ByRoute.Remove ⟨[10, 1, 0, 0], 16⟩).1 } },
      [.tunRemoveRoute ⟨[10, 1, 0, 0], 16⟩]⟩,
    by decide, by decide,
    (C15_Route_Del_then_absent sampleEnv hostIdle tunOK (HyprspaceRPC.start cfgNested) _
      "10.1.0.0/16" ⟨[10, 1, 0, 0], 16⟩ emptyReply emptyReply (by decide) (by rfl)
      (by decide)).1⟩

/-! ## Claims on the `Peers` handler -/

set_option maxRecDepth 100000 in
/-- C20, as stated, fails: with bob configured, the `Peers` handler of
`rpc/server.go` replies with no entry when the host has no connection, so bob,
a configured peer, has no entry; and when dave, a node that is not configured,
is the only connection, the reply is the single entry of dave. The handler of
`rpc/server_windows.go` lists bob in both cases. -/
theorem C20_Peers_per_configured_peer_counterexample :
    cfgBob.Peers = [mkPeer sampleEnv "bob" idB]
      ∧ HyprspaceRPC.Peers sampleEnv hostIdle (HyprspaceRPC.start cfgBob) = []
      ∧ HyprspaceRPC.Peers sampleEnv hostDave (HyprspaceRPC.start cfgBob)
          = [⟨"QmDave", "", "", ""⟩]
      ∧ (HyprspaceRPC.PeersWindows sampleEnv (HyprspaceRPC.start cfgBob)).map
          (fun i => (i.PeerID, i.Name)) = [("QmBob", "bob")] := by
  decide

/-- The inner loop of the `Peers` handler, started with the entry of a connection:
the first configured peer with the textual id of the remote peer fills the
entry; without such a peer the entry keeps its empty name and addresses. -/
theorem fillPeerInfo_eq_find (env : Env) (id : String) :
    ∀ peers : List Peer,
      fillPeerInfo env peers ⟨id, "", "", ""⟩
        = match peers.find? (fun p => decide (env.IDString p.ID = id)) with
          | some p => peerInfoOf env p
          | none => ⟨id, "", "", ""⟩ := by
  intro peers
  induction peers with
  | nil => rfl
  | cons p ps ih =>
    by_cases h : env.IDString p.ID = id
    · simp only [fillPeerInfo, h, if_true, List.find?_cons, decide_True, peerInfoOf]
    · simp only [fillPeerInfo, h, if_false, List.find?_cons, decide_False]
      exact ih

/-- The textual id of an entry the inner loop of the `Peers` handler returns is the
one it was started with. -/
theorem fillPeerInfo_PeerID (env : Env) :
    ∀ (peers : List Peer) (info : PeerInfo), (fillPeerInfo env peers info).PeerID = info.PeerID := by
  intro peers
  induction peers with
  | nil => intro info; rfl
  | cons p ps ih =>
    intro info
    by_cases h : env.IDString p.ID = info.PeerID
    · simp only [fillPeerInfo, h, if_true]
    · simp only [fillPeerInfo, h, if_false]
      exact ih info

/-- C20, amended: the reply of `HyprspaceRPC.Peers` of `rpc/server.go` holds exactly
one entry for each connection of the host, in the order of `Network().Conns()`,
with the textual id of the remote peer as `PeerID`; the entry carries the name
and the addresses of the first peer of `cfg.Peers` with that textual id, and an
empty name and empty addresses when the remote node is not configured; a
configured peer without a connection has no entry. -/
theorem C20_Peers_one_entry_per_connection (env : Env) (host : Host) (hsr : HyprspaceRPC) :
    HyprspaceRPC.Peers env host hsr
        = host.Conns.map (fun c =>
            match hsr.config.Peers.find?
                (fun p => decide (env.IDString p.ID = env.IDString c.RemotePeer)) with
            | some p => peerInfoOf env p
            | none => ⟨env.IDString c.RemotePeer, "", "", ""⟩)
      ∧ (HyprspaceRPC.Peers env host hsr).map (fun i => i.PeerID)
          = host.Conns.map (fun c => env.IDString c.RemotePeer)
      ∧ (∀ p ∈ hsr.config.Peers,
          (∀ c ∈ host.Conns, env.IDString c.RemotePeer ≠ env.IDString p.ID) →
          ∀ i ∈ HyprspaceRPC.Peers env host hsr, i.PeerID ≠ env.IDString p.ID) := by
  have hids : (HyprspaceRPC.Peers env host hsr).map (fun i => i.PeerID)
      = host.Conns.map (fun c => env.IDString c.RemotePeer) := by
    simp only [HyprspaceRPC.Peers, List.map_map]
    apply List.map_congr_left
    intro c _
    exact fillPeerInfo_PeerID env _ _
  refine ⟨?_, hids, ?_⟩
  · simp only [HyprspaceRPC.Peers]
    apply List.map_congr_left
    intro c _
    exact fillPeerInfo_eq_find env _ _
  · intro p _ hno i hi hid
    have hmem : i.PeerID ∈ (HyprspaceRPC.Peers env host hsr).map (fun i => i.PeerID) :=
      List.mem_map_of_mem _ hi
    rw [hids, List.mem_map] at hmem
    obtain ⟨c, hc, hcid⟩ := hmem
    exact hno c hc (hcid.trans hid)

set_option maxRecDepth 100000 in
/-- Witness of C20, amended: with bob configured and connections to dave, who is not
configured, and to bob, the reply holds the entry of dave with an empty name
and empty addresses, and then the entry of bob with his name and addresses. -/
theorem C20_Peers_one_entry_per_connection_witness :
    HyprspaceRPC.Peers sampleEnv hostDaveBob (HyprspaceRPC.start cfgBob)
      = [⟨"QmDave", "", "", ""⟩, peerInfoOf sampleEnv (mkPeer sampleEnv "bob" idB)]
      ∧ (peerInfoOf sampleEnv (mkPeer sampleEnv "bob" idB)).PeerID = "QmBob"
      ∧ (peerInfoOf sampleEnv (mkPeer sampleEnv "bob" idB)).Name = "bob" :=
  ⟨(C20_Peers_one_entry_per_connection sampleEnv hostDaveBob
      (HyprspaceRPC.start cfgBob)).1.trans (by decide), by decide, by decide⟩

/-- The `Peers` handler of `rpc/server.go` replies with one entry for each connection
of the host, carrying the textual id of the remote peer. -/
theorem Peers_length (env : Env) (host : Host) (hsr : HyprspaceRPC) :
    (HyprspaceRPC.Peers env host hsr).length = host.Conns.length := by
  simp [HyprspaceRPC.Peers]

/-! ## Claims on the indices of the peer registry -/

theorem GoMap.get_set {κ ν : Type} [DecidableEq κ] (m : GoMap κ ν) (k k' : κ) (v : ν) :
    (m.set k v).get k' = if k = k' then some v else m.get k' := by
  induction m with
  | nil => simp [GoMap.set, GoMap.get]
  | cons kv m ih =>
    obtain ⟨k0, v0⟩ := kv
    by_cases h : k0 = k
    · subst h
      by_cases h' : k0 = k' <;> simp [GoMap.set, GoMap.get, h']
    · by_cases h' : k0 = k'
      · subst h'
        simp [GoMap.set, GoMap.get, h, Ne.symm h]
      · simp [GoMap.set, GoMap.get, h, h', ih]

theorem getLast?_filter_append_singleton {α : Type} (P : α → Bool) (l : List α) (a : α) :
    ((l ++ [a]).filter P).getLast? = if P a = true then some a else (l.filter P).getLast? := by
  by_cases h : P a = true
  · simp [List.filter_append, List.filter_cons, h]
  · simp [List.filter_append, List.filter_cons, h]

/-- When `HyprspaceRPC.AddPeer` replies `Success == true`, the id string decoded, no
configured peer had the id or exactly the name, and the handler holds the
configuration after `Config.AddPeer`. -/
theorem HyprspaceRPC.AddPeer_success {env : Env} {hsr hsr' : HyprspaceRPC} {args : AddPeerArgs}
    {reply : AddPeerReply} (hcall : HyprspaceRPC.AddPeer env hsr args = .ret (hsr', reply))
    (hok : reply.Success = true) :
    ∃ id, env.Decode args.ID = .ok id ∧ args.Name ≠ "" ∧ args.ID ≠ ""
      ∧ (FindPeer hsr.config.Peers id).2 = false
      ∧ (FindPeerByName hsr.config.Peers args.Name).2 = false
      ∧ hsr'.config = (hsr.config.AddPeer env args.Name id).1 := by
  have hlast : ∀ peerID : PeerID,
      (hsr.config.AddPeer env args.Name peerID).1.Peers.getLast?
        = some (mkPeer env args.Name peerID) := by
    intro peerID
    simp [Config.AddPeer, mkPeer]
  unfold HyprspaceRPC.AddPeer at hcall
  by_cases h1 : args.Name = ""
  · rw [if_pos h1] at hcall
    cases hcall
    cases hok
  · rw [if_neg h1] at hcall
    by_cases h2 : args.ID = ""
    · rw [if_pos h2] at hcall
      cases hcall
      cases hok
    · rw [if_neg h2] at hcall
      cases hd : env.Decode args.ID with
      | error err =>
        rw [hd] at hcall
        cases hcall
        cases hok
      | ok peerID =>
        rw [hd] at hcall
        dsimp only at hcall
        by_cases h3 : (FindPeer hsr.config.Peers peerID).2 = true
        · rw [if_pos h3] at hcall
          cases hcall
          cases hok
        · rw [if_neg h3] at hcall
          by_cases h4 : (FindPeerByName hsr.config.Peers args.Name).2 = true
          · rw [if_pos h4] at hcall
            cases hcall
            cases hok
          · rw [if_neg h4] at hcall
            have hadd : hsr.config.AddPeer env args.Name peerID
                = ((hsr.config.AddPeer env args.Name peerID).1, none) := rfl
            rw [hadd] at hcall
            dsimp only at hcall
            rw [hlast peerID] at hcall
            cases hcall
            exact ⟨peerID, rfl, h1, h2, by simpa using h3, by simpa using h4, rfl⟩

/-- `Config.AddPeer` keeps the two maps in line with the peer list. -/
theorem Indexed_AddPeer (env : Env) (cfg : Config) (name : String) (id : PeerID)
    (h : cfg.Indexed env) : (cfg.AddPeer env name id).1.Indexed env := by
  obtain ⟨hnet, hname⟩ := h
  constructor
  · intro k
    simp only [Config.AddPeer, GoMap.get_set, getLast?_filter_append_singleton, hnet k,
      decide_eq_true_eq]
  · intro k
    by_cases hn : name = ""
    · simp only [Config.AddPeer, hn, ne_eq, not_true_eq_false, if_false,
        getLast?_filter_append_singleton, hname k, decide_eq_true_eq, false_and]
    · simp only [Config.AddPeer, ne_eq, hn, not_false_eq_true, if_true, GoMap.get_set,
        getLast?_filter_append_singleton, hname k, decide_eq_true_eq, true_and]

/-- The loop of `Read` over the peers keeps the two maps in line with the peer list. -/
theorem Indexed_readPeers (env : Env) :
    ∀ (file : List SchemaPeer) (cfg cfg' : Config), cfg.Indexed env →
      readPeers env file cfg = .ok cfg' → cfg'.Indexed env := by
  intro file
  induction file with
  | nil =>
    intro cfg cfg' h hread
    simp only [readPeers, ReadOutcome.ok.injEq] at hread
    rw [← hread]
    exact h
  | cons cp rest ih =>
    intro cfg cfg' h hread
    unfold readPeers at hread
    cases hd : env.Decode cp.Id with
    | error e =>
      rw [hd] at hread
      cases hread
    | ok id =>
      rw [hd] at hread
      dsimp only at hread
      cases hrt : readRoutes env
          { ID := id, Name := cp.Name, BuiltinAddr4 := env.mkBuiltinAddr4 id,
            BuiltinAddr6 := env.mkBuiltinAddr6 id } cp.Routes cfg.PeerLookup.ByRoute with
      | none =>
        rw [hrt] at hread
        cases hread
      | some r0 =>
        rw [hrt] at hread
        dsimp only at hread
        refine ih _ cfg' ?_ hread
        have hstep := Indexed_AddPeer env
          { cfg with PeerLookup := { cfg.PeerLookup with ByRoute := r0 } } cp.Name id h
        exact hstep

/-- In every configuration reachable from `Read` through successful `AddPeer` calls
the two maps are in line with the peer list. -/
theorem Indexed_of_reachable (env : Env) (cfg : Config) (h : RegistryReachable env cfg) :
    cfg.Indexed env := by
  induction h with
  | read file cfg hread =>
    refine Indexed_readPeers env file emptyConfig cfg ?_ hread
    constructor <;> intro k <;> rfl
  | addPeer hsr hsr' args reply _ hcall hok ih =>
    obtain ⟨id, _, _, _, _, _, hcfg⟩ := HyprspaceRPC.AddPeer_success hcall hok
    rw [hcfg]
    exact Indexed_AddPeer env hsr.config args.Name id ih

theorem getLast?_filter_mem {α : Type} {P : α → Bool} {l : List α} {a : α}
    (h : (l.filter P).getLast? = some a) : a ∈ l ∧ P a = true := by
  have hmem : a ∈ l.filter P := List.mem_of_getLast?_eq_some h
  exact List.mem_filter.1 hmem

theorem getLast?_filter_of_unique {α : Type} {P : α → Bool} {l : List α} {a : α}
    (ha : a ∈ l) (hP : P a = true) (huniq : ∀ b ∈ l, P b = true → b = a) :
    (l.filter P).getLast? = some a := by
  have hmem : a ∈ l.filter P := List.mem_filter.2 ⟨ha, hP⟩
  cases hl : (l.filter P).getLast? with
  | none =>
    rw [List.getLast?_eq_none_iff] at hl
    rw [hl] at hmem
    cases hmem
  | some b =>
    obtain ⟨hb, hPb⟩ := getLast?_filter_mem hl
    rw [huniq b hb hPb]

set_option maxRecDepth 100000 in
/-- C12, as stated, fails: the registry `cfgTwoBobs` is what `Read` builds from a
file that lists `"bob"` and `"Bob"`, and also what the handler holds after it has
accepted `AddPeer("Bob", …)` on the registry of `"bob"`; the named peer `"bob"` is
in `cfg.Peers` but is no value of `ByName`, whose only value is `"Bob"`. -/
theorem C12_indices_disagree_counterexample :
    Read sampleEnv [⟨"QmBob", "bob", []⟩, ⟨"QmCarol", "Bob", []⟩] = .ok cfgTwoBobs
      ∧ (∃ hsr' reply, HyprspaceRPC.AddPeer sampleEnv (HyprspaceRPC.start cfgBob)
            ⟨"Bob", "QmCarol"⟩ = .ret (hsr', reply) ∧ reply.Success = true
          ∧ hsr'.config = cfgTwoBobs)
      ∧ mkPeer sampleEnv "bob" idB ∈ cfgTwoBobs.Peers
      ∧ (mkPeer sampleEnv "bob" idB).Name ≠ ""
      ∧ cfgTwoBobs.PeerLookup.ByName = [("bob", mkPeer sampleEnv "Bob" idC)]
      ∧ mkPeer sampleEnv "bob" idB ∉ cfgTwoBobs.PeerLookup.ByName.map Prod.snd := by
  refine ⟨by decide, ?_, by decide, by decide, by decide, by decide⟩
  exact ⟨⟨cfgTwoBobs,
      [.tunRoute (hostRoute4 (sampleEnv.mkBuiltinAddr4 idC)),
       .tunRoute (hostRoute6 (sampleEnv.mkBuiltinAddr6 idC)), .rediscover]⟩,
    ⟨true, "Peer Bob (QmCarol) added successfully", none⟩, by decide, rfl, rfl⟩

/-- C12, amended: in every state reachable from the registry built by `Read` through
successful `HyprspaceRPC.AddPeer` calls, every value of `ByNetID` is a peer of
`cfg.Peers` stored under its netid and every value of `ByName` is a named peer
of `cfg.Peers` stored under its lower-cased name; conversely a peer of
`cfg.Peers` is the value of `ByNetID` at its netid when no other peer of the
list has that netid, and a named peer is the value of `ByName` at its
lower-cased name when no other named peer of the list has that lower-cased
name. -/
theorem C12_indices_follow_peers (env : Env) (cfg : Config) (h : RegistryReachable env cfg) :
    (∀ k p, cfg.PeerLookup.ByNetID.get k = some p →
        p ∈ cfg.Peers ∧ netID p.BuiltinAddr6 = k)
      ∧ (∀ k p, cfg.PeerLookup.ByName.get k = some p →
        p ∈ cfg.Peers ∧ p.Name ≠ "" ∧ env.ToLower p.Name = k)
      ∧ (∀ p ∈ cfg.Peers,
        (∀ q ∈ cfg.Peers, netID q.BuiltinAddr6 = netID p.BuiltinAddr6 → q = p) →
        cfg.PeerLookup.ByNetID.get (netID p.BuiltinAddr6) = some p)
      ∧ (∀ p ∈ cfg.Peers, p.Name ≠ "" →
        (∀ q ∈ cfg.Peers, q.Name ≠ "" → env.ToLower q.Name = env.ToLower p.Name → q = p) →
        cfg.PeerLookup.ByName.get (env.ToLower p.Name) = some p) := by
  obtain ⟨hnet, hname⟩ := Indexed_of_reachable env cfg h
  refine ⟨?_, ?_, ?_, ?_⟩
  · intro k p hget
    rw [hnet k] at hget
    obtain ⟨hm, hP⟩ := getLast?_filter_mem hget
    exact ⟨hm, by simpa using hP⟩
  · intro k p hget
    rw [hname k] at hget
    obtain ⟨hm, hP⟩ := getLast?_filter_mem hget
    have hP' : p.Name ≠ "" ∧ env.ToLower p.Name = k := by simpa using hP
    exact ⟨hm, hP'.1, hP'.2⟩
  · intro p hp huniq
    rw [hnet]
    apply getLast?_filter_of_unique hp (by simp)
    intro q hq hPq
    exact huniq q hq (by simpa using hPq)
  · intro p hp hnamed huniq
    rw [hname]
    apply getLast?_filter_of_unique hp (by simpa using hnamed)
    intro q hq hPq
    have hPq' : q.Name ≠ "" ∧ env.ToLower q.Name = env.ToLower p.Name := by simpa using hPq
    exact huniq q hq hPq'.1 hPq'.2

set_option maxRecDepth 100000 in
/-- Witness of C12 amended: the registry `Read` builds from the file of alice and
bob; bob is the value of `ByName` at `"bob"`. -/
theorem C12_indices_follow_peers_witness :
    RegistryReachable sampleEnv cfgNested
      ∧ cfgNested.PeerLookup.ByName.get "bob" = some (mkPeer sampleEnv "bob" idB) :=
  have hreach : RegistryReachable sampleEnv cfgNested :=
    RegistryReachable.read
      [⟨"QmAlice", "alice", [⟨"10.0.0.0/8"⟩]⟩, ⟨"QmBob", "bob", [⟨"10.1.0.0/16"⟩]⟩]
      cfgNested (by decide)
  ⟨hreach, (C12_indices_follow_peers sampleEnv cfgNested hreach).2.2.2
    (mkPeer sampleEnv "bob" idB) (by decide) (by decide) (by decide)⟩

/-! ## Claims on the host routes of the configured peers -/

theorem isHostKey_false {peers : List Peer} {k : Option (IPVersion × List Bool)}
    (h : isHostKey peers k = false) {p : Peer} (hp : p ∈ peers) :
    k ≠ networkKey (hostRoute4 p.BuiltinAddr4) ∧ k ≠ networkKey (hostRoute6 p.BuiltinAddr6) := by
  unfold isHostKey at h
  rw [List.any_eq_false] at h
  have := h p hp
  simpa using this

theorem isHostKey_append_false {peers : List Peer} {q : Peer}
    {k : Option (IPVersion × List Bool)} (h : isHostKey (peers ++ [q]) k = false) :
    isHostKey peers k = false := by
  unfold isHostKey at h ⊢
  rw [List.any_append] at h
  simp only [Bool.or_eq_false_iff] at h
  exact h.1

/-- `Insert` of an entry whose prefix is no host prefix of the peers keeps their host
routes in the table. -/
theorem HostRoutes_Insert {peers : List Peer} {r : versionedRanger} (hr : r.Consistent)
    (h : HostRoutes peers r) (e : RouteTableEntry)
    (hg : isHostKey peers (networkKey e.Net) = false) :
    HostRoutes peers (r.Insert (.ptr e)).1 := by
  cases hk : networkKey e.Net with
  | none =>
    have : (r.Insert (.ptr e)).1 = r := by
      unfold versionedRanger.Insert
      rw [show (RangerEntry.ptr e).Network = e.Net from rfl, hk]
    rw [this]
    exact h
  | some k =>
    have hmem := versionedRanger.mem_entries_Insert hr (.ptr e) hk
    intro p hp
    obtain ⟨hne4, hne6⟩ := isHostKey_false hg hp
    rw [hk] at hne4 hne6
    exact ⟨(hmem _).2 (Or.inr ⟨(h p hp).1, fun heq => hne4 heq.symm⟩),
      (hmem _).2 (Or.inr ⟨(h p hp).2, fun heq => hne6 heq.symm⟩)⟩

/-- `Remove` of a prefix that is no host prefix of the peers keeps their host routes
in the table. -/
theorem HostRoutes_Remove {peers : List Peer} {r : versionedRanger} (hr : r.Consistent)
    (h : HostRoutes peers r) (net : IPNet)
    (hg : isHostKey peers (networkKey net) = false) :
    HostRoutes peers (r.Remove net).1 := by
  cases hk : networkKey net with
  | none =>
    rw [versionedRanger.Remove_of_invalid r hk]
    exact h
  | some k =>
    have hmem := versionedRanger.mem_entries_Remove hr hk
    intro p hp
    obtain ⟨hne4, hne6⟩ := isHostKey_false hg hp
    rw [hk] at hne4 hne6
    exact ⟨(hmem _).2 ⟨(h p hp).1, fun heq => hne4 heq.symm⟩,
      (hmem _).2 ⟨(h p hp).2, fun heq => hne6 heq.symm⟩⟩

/-- The two inserts of host routes that `Read` and `AddPeer` perform for a new peer
whose built-in addresses no listed peer has: the table stays consistent and
holds the host routes of the old peers and of the new one. -/
theorem HostRoutes_add_peer (env : Env) (henv : env.WellFormed) {peers : List Peer}
    {r : versionedRanger} (hr : r.Consistent) (h : HostRoutes peers r) (name : String)
    (id : PeerID)
    (hg4 : isHostKey peers (networkKey (hostRoute4 (env.mkBuiltinAddr4 id))) = false)
    (hg6 : isHostKey peers (networkKey (hostRoute6 (env.mkBuiltinAddr6 id))) = false) :
    (((r.Insert (hostEntry4 (mkPeer env name id))).1.Insert
        (hostEntry6 (mkPeer env name id))).1).Consistent
      ∧ HostRoutes (peers ++ [mkPeer env name id])
          ((r.Insert (hostEntry4 (mkPeer env name id))).1.Insert
            (hostEntry6 (mkPeer env name id))).1 := by
  obtain ⟨hl4, hl6, hne6⟩ := henv id
  have k4 := networkKey_hostRoute4 hl4
  have k6 := networkKey_hostRoute6 hl6 hne6
  have hr1 := versionedRanger.Consistent_Insert hr
    ⟨hostRoute4 (env.mkBuiltinAddr4 id), mkPeer env name id⟩
  have hr2 := versionedRanger.Consistent_Insert hr1
    ⟨hostRoute6 (env.mkBuiltinAddr6 id), mkPeer env name id⟩
  have h1 : HostRoutes peers (r.Insert (hostEntry4 (mkPeer env name id))).1 :=
    HostRoutes_Insert hr h ⟨hostRoute4 (env.mkBuiltinAddr4 id), mkPeer env name id⟩ hg4
  have h2 : HostRoutes peers ((r.Insert (hostEntry4 (mkPeer env name id))).1.Insert
      (hostEntry6 (mkPeer env name id))).1 :=
    HostRoutes_Insert hr1 h1 ⟨hostRoute6 (env.mkBuiltinAddr6 id), mkPeer env name id⟩ hg6
  have m1 := versionedRanger.mem_entries_Insert hr
    (.ptr ⟨hostRoute4 (env.mkBuiltinAddr4 id), mkPeer env name id⟩) k4
  have m2 := versionedRanger.mem_entries_Insert hr1
    (.ptr ⟨hostRoute6 (env.mkBuiltinAddr6 id), mkPeer env name id⟩) k6
  refine ⟨hr2, ?_⟩
  intro p hp
  rcases List.mem_append.1 hp with hp | hp
  · exact h2 p hp
  · rw [List.mem_singleton] at hp
    subst hp
    refine ⟨(m2 _).2 (Or.inr ⟨(m1 _).2 (Or.inl rfl), ?_⟩), (m2 _).2 (Or.inl rfl)⟩
    show networkKey (hostRoute4 (env.mkBuiltinAddr4 id)) ≠ _
    rw [k4]
    simp

/-- The loop of `Read` over the routes of a peer keeps the table consistent and keeps
the host routes of the peers read so far, when no route has one of their host
prefixes. -/
theorem HostRoutes_readRoutes (env : Env) (p : Peer) {peers : List Peer} :
    ∀ (routes : List SchemaRoute) (r r' : versionedRanger), r.Consistent → HostRoutes peers r →
      routesGuard env peers routes = true → readRoutes env p routes r = some r' →
      r'.Consistent ∧ HostRoutes peers r' := by
  intro routes
  induction routes with
  | nil =>
    intro r r' hr h _ hread
    simp only [readRoutes, Option.some.injEq] at hread
    rw [← hread]
    exact ⟨hr, h⟩
  | cons rt rts ih =>
    intro r r' hr h hg hread
    unfold readRoutes at hread
    unfold routesGuard at hg
    rw [List.all_cons, Bool.and_eq_true] at hg
    cases hp : env.ParseCIDR rt.Net with
    | error e =>
      rw [hp] at hread
      cases hread
    | ok net =>
      rw [hp] at hread hg
      dsimp only at hread hg
      have hg1 : isHostKey peers (networkKey net) = false := by simpa using hg.1
      exact ih _ r' (versionedRanger.Consistent_Insert hr ⟨net, p⟩)
        (HostRoutes_Insert hr h ⟨net, p⟩ hg1) hg.2 hread

/-- The loop of `Read` over the peers of a guarded file keeps the table consistent and
ends with the host routes of all peers in the table. -/
theorem HostRoutes_readPeers (env : Env) (henv : env.WellFormed) :
    ∀ (file : List SchemaPeer) (cfg cfg' : Config), cfg.PeerLookup.ByRoute.Consistent →
      HostRoutes cfg.Peers cfg.PeerLookup.ByRoute → FileGuard env file cfg.Peers = true →
      readPeers env file cfg = .ok cfg' →
      cfg'.PeerLookup.ByRoute.Consistent ∧ HostRoutes cfg'.Peers cfg'.PeerLookup.ByRoute := by
  intro file
  induction file with
  | nil =>
    intro cfg cfg' hr h _ hread
    simp only [readPeers, ReadOutcome.ok.injEq] at hread
    rw [← hread]
    exact ⟨hr, h⟩
  | cons cp rest ih =>
    intro cfg cfg' hr h hg hread
    unfold readPeers at hread
    unfold FileGuard at hg
    cases hd : env.Decode cp.Id with
    | error e =>
      rw [hd] at hread
      cases hread
    | ok id =>
      rw [hd] at hread hg
      dsimp only at hread hg
      simp only [Bool.and_eq_true, Bool.not_eq_true'] at hg
      obtain ⟨⟨⟨hgr, hg4⟩, hg6⟩, hgrest⟩ := hg
      cases hrt : readRoutes env
          { ID := id, Name := cp.Name, BuiltinAddr4 := env.mkBuiltinAddr4 id,
            BuiltinAddr6 := env.mkBuiltinAddr6 id } cp.Routes cfg.PeerLookup.ByRoute with
      | none =>
        rw [hrt] at hread
        cases hread
      | some r0 =>
        rw [hrt] at hread
        dsimp only at hread
        obtain ⟨hr0, h0⟩ := HostRoutes_readRoutes env _ cp.Routes _ r0 hr h hgr hrt
        obtain ⟨hr2, h2⟩ := HostRoutes_add_peer env henv hr0 h0 cp.Name id hg4 hg6
        exact ih _ cfg' hr2 h2 hgrest hread

/-- What a returning `Route` call does to the configuration: nothing, or the insert of
the `Add` branch, or the removal of the `Del` branch. -/
theorem Route_config {env : Env} {host : Host} {tun : TUN} {hsr hsr' : HyprspaceRPC}
    {args : RouteArgs} {reply reply' : RouteReply} {err : Option String}
    (h : HyprspaceRPC.Route env host tun hsr args reply = .ret (hsr', reply', err)) :
    hsr'.config = hsr.config
      ∨ (∃ a0 a1 net target, args.Args = [a0, a1] ∧ env.ParseCIDR a0 = .ok net
          ∧ hsr'.config = hsr.config.insertRoute net target)
      ∨ (∃ a0 net, args.Args = [a0] ∧ env.ParseCIDR a0 = .ok net
          ∧ hsr'.config.Peers = hsr.config.Peers
          ∧ hsr'.config.PeerLookup.ByRoute = (hsr.config.PeerLookup.ByRoute.Remove net).1) := by
  obtain ⟨action, l⟩ := args
  cases action with
  | Show =>
    obtain ⟨h4, h6⟩ := versionedRanger.CoveredNetworks_all hsr.config.PeerLookup.ByRoute
    simp only [HyprspaceRPC.Route, h4, h6] at h
    cases hri : routeInfos env host
        (hsr.config.PeerLookup.ByRoute.ipV4Ranger.walk.map Prod.snd
          ++ hsr.config.PeerLookup.ByRoute.ipV6Ranger.walk.map Prod.snd) with
    | panic =>
      rw [hri] at h
      simp [Exec.bind] at h
    | ret infos =>
      rw [hri] at h
      simp only [Exec.bind, Exec.ret.injEq, Prod.mk.injEq] at h
      exact Or.inl (by rw [← h.1])
  | other s =>
    simp only [HyprspaceRPC.Route, Exec.ret.injEq, Prod.mk.injEq] at h
    exact Or.inl (by rw [← h.1])
  | Add =>
    match l, h with
    | [], h =>
      simp only [HyprspaceRPC.Route, Exec.ret.injEq, Prod.mk.injEq] at h
      exact Or.inl (by rw [← h.1])
    | [_], h =>
      simp only [HyprspaceRPC.Route, Exec.ret.injEq, Prod.mk.injEq] at h
      exact Or.inl (by rw [← h.1])
    | _ :: _ :: _ :: _, h =>
      simp only [HyprspaceRPC.Route, Exec.ret.injEq, Prod.mk.injEq] at h
      exact Or.inl (by rw [← h.1])
    | [a0, a1], h =>
      simp only [HyprspaceRPC.Route] at h
      cases hp : env.ParseCIDR a0 with
      | error e =>
        rw [hp] at h
        simp only [Exec.ret.injEq, Prod.mk.injEq] at h
        exact Or.inl (by rw [← h.1])
      | ok net =>
        rw [hp] at h
        dsimp only at h
        rcases FindPeerByCLIRef_shape env hsr.config.Peers a1 with ⟨target, hf⟩ | hf
        · rw [hf] at h
          dsimp only at h
          cases ht : tun hsr.effects (.tunRoute net) with
          | some e =>
            rw [ht] at h
            simp only [Exec.ret.injEq, Prod.mk.injEq] at h
            exact Or.inl (by rw [← h.1])
          | none =>
            rw [ht] at h
            simp only [Exec.ret.injEq, Prod.mk.injEq] at h
            exact Or.inr (Or.inl ⟨a0, a1, net, target, rfl, hp, by rw [← h.1]⟩)
        · rw [hf] at h
          simp only [Exec.ret.injEq, Prod.mk.injEq] at h
          exact Or.inl (by rw [← h.1])
  | Del =>
    match l, h with
    | [], h =>
      simp only [HyprspaceRPC.Route, Exec.ret.injEq, Prod.mk.injEq] at h
      exact Or.inl (by rw [← h.1])
    | _ :: _ :: _, h =>
      simp only [HyprspaceRPC.Route, Exec.ret.injEq, Prod.mk.injEq] at h
      exact Or.inl (by rw [← h.1])
    | [a0], h =>
      simp only [HyprspaceRPC.Route] at h
      cases hp : env.ParseCIDR a0 with
      | error e =>
        rw [hp] at h
        simp only [Exec.ret.injEq, Prod.mk.injEq] at h
        exact Or.inl (by rw [← h.1])
      | ok net =>
        rw [hp] at h
        dsimp only at h
        cases ht : tun hsr.effects (.tunRemoveRoute net) with
        | some e =>
          rw [ht] at h
          simp only [Exec.ret.injEq, Prod.mk.injEq] at h
          exact Or.inl (by rw [← h.1])
        | none =>
          rw [ht] at h
          dsimp only at h
          cases hrem : hsr.config.PeerLookup.ByRoute.Remove net with
          | mk table rest =>
            obtain ⟨entry, rerr⟩ := rest
            rw [hrem] at h
            cases rerr with
            | some e =>
              simp only [Exec.ret.injEq, Prod.mk.injEq] at h
              exact Or.inl (by rw [← h.1])
            | none =>
              simp only [Exec.ret.injEq, Prod.mk.injEq] at h
              refine Or.inr (Or.inr ⟨a0, net, rfl, hp, ?_, ?_⟩)
              · rw [← h.1]
              · rw [← h.1, hrem]

/-- In every guarded reachable configuration the table is consistent and holds the
host routes of the configured peers. -/
theorem HostRoutes_of_reachable (env : Env) (henv : env.WellFormed) (cfg : Config)
    (h : GuardedReachable env cfg) :
    cfg.PeerLookup.ByRoute.Consistent ∧ HostRoutes cfg.Peers cfg.PeerLookup.ByRoute := by
  induction h with
  | read file cfg hread hguard =>
    refine HostRoutes_readPeers env henv file emptyConfig cfg
      versionedRanger.Consistent_NewPCTrieRanger ?_ hguard hread
    intro p hp
    cases hp
  | addPeer hsr hsr' args reply _ hcall hok hguard ih =>
    obtain ⟨id, hdec, _, _, _, _, hcfg⟩ := HyprspaceRPC.AddPeer_success hcall hok
    obtain ⟨hg4, hg6⟩ := hguard id hdec
    rw [hcfg]
    exact HostRoutes_add_peer env henv ih.1 ih.2 args.Name id hg4 hg6
  | route host tun hsr hsr' args reply reply' err _ hcall hguard ih =>
    rcases Route_config hcall with hcfg | ⟨a0, a1, net, target, hargs, hp, hcfg⟩
      | ⟨a0, net, hargs, hp, hpeers, htable⟩
    · rw [hcfg]
      exact ih
    · have hg := hguard a0 net (by rw [hargs]; rfl) hp
      rw [hcfg]
      exact ⟨versionedRanger.Consistent_Insert ih.1 ⟨net, target⟩,
        HostRoutes_Insert ih.1 ih.2 ⟨net, target⟩ hg⟩
    · have hg := hguard a0 net (by rw [hargs]; rfl) hp
      rw [hpeers, htable]
      exact ⟨versionedRanger.Consistent_Remove ih.1 net, HostRoutes_Remove ih.1 ih.2 net hg⟩

set_option maxRecDepth 100000 in
/-- C13, as stated, fails: `cfgBob` is what `Read` builds from the file that lists
bob; `Route` with action `Del` on `100.64.112.0/32`, the host prefix of bob,
returns nil, and afterwards bob is still in `cfg.Peers` while the table no longer
holds the entry `(bob.BuiltinAddr4/32 → bob)`. -/
theorem C13_host_route_removed_counterexample :
    Read sampleEnv [⟨"QmBob", "bob", []⟩] = .ok cfgBob
      ∧ hostEntry4 (mkPeer sampleEnv "bob" idB) ∈ cfgBob.PeerLookup.ByRoute.entries
      ∧ ∃ hsr', HyprspaceRPC.Route sampleEnv hostIdle tunOK (HyprspaceRPC.start cfgBob)
            ⟨.Del, ["100.64.112.0/32"]⟩ emptyReply = .ret (hsr', emptyReply, none)
          ∧ mkPeer sampleEnv "bob" idB ∈ hsr'.config.Peers
          ∧ hostEntry4 (mkPeer sampleEnv "bob" idB) ∉ hsr'.config.PeerLookup.ByRoute.entries := by
  refine ⟨by decide, by decide, ?_⟩
  exact ⟨⟨{ cfgBob with PeerLookup := { cfgBob.PeerLookup with
        ByRoute := (cfgBob.PeerLookup.ByRoute.Remove ⟨[100, 64, 112, 0], 32⟩).1 } },
      [.tunRemoveRoute ⟨[100, 64, 112, 0], 32⟩]⟩, by decide, by decide, by decide⟩

/-- C13, amended: in every state reachable from the configuration that `Read` builds
from a file in which no route and no built-in address of a listed peer is a host
prefix of a peer listed before it, through `AddPeer` calls for peers whose
built-in addresses no configured peer has and through `Route` calls whose
prefix argument is not a host prefix of a configured peer, the route table
contains for every peer p of `cfg.Peers` the entries `(p.BuiltinAddr4/32 → p)`
and `(p.BuiltinAddr6/128 → p)`. -/
theorem C13_host_routes_present (env : Env) (henv : env.WellFormed) (cfg : Config)
    (h : GuardedReachable env cfg) :
    ∀ p ∈ cfg.Peers,
      RangerEntry.ptr ⟨hostRoute4 p.BuiltinAddr4, p⟩ ∈ cfg.PeerLookup.ByRoute.entries
        ∧ RangerEntry.ptr ⟨hostRoute6 p.BuiltinAddr6, p⟩ ∈ cfg.PeerLookup.ByRoute.entries :=
  (HostRoutes_of_reachable env henv cfg h).2

set_option maxRecDepth 100000 in
/-- Witness of C13 amended: `Read` of the file of alice and bob, then `Route` with
action `Del` on `10.1.0.0/16`; the host route of bob is still in the table. -/
theorem C13_host_routes_present_witness :
    GuardedReachable sampleEnv cfgNestedDel
      ∧ RangerEntry.ptr ⟨hostRoute4 (sampleEnv.mkBuiltinAddr4 idB), mkPeer sampleEnv "bob" idB⟩
          ∈ cfgNestedDel.PeerLookup.ByRoute.entries :=
  have h0 : GuardedReachable sampleEnv cfgNested :=
    GuardedReachable.read
      [⟨"QmAlice", "alice", [⟨"10.0.0.0/8"⟩]⟩, ⟨"QmBob", "bob", [⟨"10.1.0.0/16"⟩]⟩]
      cfgNested (by decide) (by decide)
  have h1 : GuardedReachable sampleEnv cfgNestedDel :=
    GuardedReachable.route hostIdle tunOK (HyprspaceRPC.start cfgNested)
      ⟨cfgNestedDel, [.tunRemoveRoute ⟨[10, 1, 0, 0], 16⟩]⟩ ⟨.Del, ["10.1.0.0/16"]⟩
      emptyReply emptyReply none h0 (by decide)
      (by
        intro a0 net ha hp
        simp only [List.head?_cons, Option.some.injEq] at ha
        subst ha
        have e : sampleEnv.ParseCIDR "10.1.0.0/16" = .ok ⟨[10, 1, 0, 0], 16⟩ := by rfl
        rw [e] at hp
        cases hp
        decide)
  ⟨h1, (C13_host_routes_present sampleEnv sampleEnv_WellFormed cfgNestedDel h1
    (mkPeer sampleEnv "bob" idB) (by decide)).1⟩

/-! ## Claims on the discovery loop -/

theorem wrapInt64_of_range {x : Int} (h0 : -(2 ^ 63) ≤ x) (h1 : x < 2 ^ 63) :
    wrapInt64 x = x := by
  unfold wrapInt64
  have h : (x + 2 ^ 63) % 2 ^ 64 = x + 2 ^ 63 := by
    apply Int.emod_eq_of_lt <;> omega
  rw [h]
  omega

/-- For an interval between zero and a minute, the branch `else` of a tick sets the
interval to the smaller of twice the interval and a minute. -/
theorem backoff_eq_min {dur : Int} (h0 : 0 ≤ dur) (h1 : dur ≤ Second * 60) :
    Discover.backoff dur = min (2 * dur) (Second * 60) := by
  have hS : Second = 1000000000 := rfl
  rw [hS] at h1
  have hw : wrapInt64 (dur * 2) = dur * 2 := by
    apply wrapInt64_of_range <;> omega
  unfold Discover.backoff
  rw [hw, hS, min_def]
  split_ifs <;> omega

/-- One round of the loop keeps the interval between a second and a minute. -/
theorem step_dur_bounds {σ : Type} (ops : HostOps σ) (st : DiscoverState)
    (e : DiscoverEvent σ) (h : Second * 1 ≤ st.dur ∧ st.dur ≤ Second * 60) :
    Second * 1 ≤ (Discover.step ops st e).dur ∧ (Discover.step ops st e).dur ≤ Second * 60 := by
  have hS : Second = 1000000000 := rfl
  cases e with
  | discoverNow =>
    simp only [Discover.step, Discover.onDiscoverNow, hS]
    omega
  | tick peers hst =>
    simp only [Discover.step, Discover.onTick]
    rcases hp : peersLoop ops peers (hst, false, []) with ⟨h', any, log⟩
    cases any with
    | false =>
      simp only [hS]
      omega
    | true =>
      simp only
      rw [backoff_eq_min (by rw [hS] at h; omega) h.2, min_def]
      rw [hS] at h ⊢
      split_ifs <;> omega

theorem foldl_dur_bounds {σ : Type} (ops : HostOps σ) :
    ∀ (events : List (DiscoverEvent σ)) (st : DiscoverState),
      (Second * 1 ≤ st.dur ∧ st.dur ≤ Second * 60) →
      Second * 1 ≤ (events.foldl (Discover.step ops) st).dur
        ∧ (events.foldl (Discover.step ops) st).dur ≤ Second * 60 := by
  intro events
  induction events with
  | nil => intro st h; exact h
  | cons e es ih =>
    intro st h
    exact ih _ (step_dur_bounds ops st e h)

/-- The loop of `Discover` keeps the interval between a second and a minute. -/
theorem run_dur_bounds {σ : Type} (ops : HostOps σ) (events : List (DiscoverEvent σ)) :
    Second * 1 ≤ (Discover.run ops events).dur
      ∧ (Discover.run ops events).dur ≤ Second * 60 := by
  unfold Discover.run
  apply foldl_dur_bounds
  decide

/-- C30: in every state that the loop of `Discover` reaches, under any interleaving
of timer ticks (connected or not) and rediscover signals, the interval `dur` is
at least one second and at most sixty seconds. -/
theorem C30_Discover_dur_bounds {σ : Type} (ops : HostOps σ)
    (events : List (DiscoverEvent σ)) :
    Second * 1 ≤ (Discover.run ops events).dur
      ∧ (Discover.run ops events).dur ≤ Second * 60 :=
  run_dur_bounds ops events

theorem onTick_connected {σ : Type} (ops : HostOps σ) (peers : List Peer) (h : σ)
    (st : DiscoverState) (hc : tickConnected ops peers h = true) :
    (Discover.onTick ops peers h st).1 = ⟨Discover.backoff st.dur, Discover.backoff st.dur⟩
      ∧ (Discover.onTick ops peers h st).2.2
          = (peersLoop ops peers (h, false, [])).2.2
              ++ [.tickerReset (Discover.backoff st.dur)] := by
  unfold tickConnected at hc
  unfold Discover.onTick
  rcases hp : peersLoop ops peers (h, false, []) with ⟨h', any, log⟩
  rw [hp] at hc
  simp only at hc
  subst hc
  exact ⟨rfl, rfl⟩

theorem onTick_not_connected {σ : Type} (ops : HostOps σ) (peers : List Peer) (h : σ)
    (st : DiscoverState) (hc : tickConnected ops peers h = false) :
    (Discover.onTick ops peers h st).1 = ⟨Second * 10, Second * 10⟩
      ∧ (Discover.onTick ops peers h st).2.2
          = (peersLoop ops peers (h, false, [])).2.2
              ++ [.bootstrap, .refreshRoutingTable, .tickerReset (Second * 10)] := by
  unfold tickConnected at hc
  unfold Discover.onTick
  rcases hp : peersLoop ops peers (h, false, []) with ⟨h', any, log⟩
  rw [hp] at hc
  simp only at hc
  subst hc
  exact ⟨rfl, rfl⟩

/-- C21: on every timer tick of `Discover` during which at least one configured peer
is connected or is dialed successfully, the new interval is the smaller of twice
the previous interval and sixty seconds, and the last call of the tick resets
the ticker to that new interval. -/
theorem C21_Discover_tick_connected {σ : Type} (ops : HostOps σ)
    (events : List (DiscoverEvent σ)) (peers : List Peer) (h : σ)
    (hc : tickConnected ops peers h = true) :
    (Discover.onTick ops peers h (Discover.run ops events)).1.dur
        = min (2 * (Discover.run ops events).dur) (Second * 60)
      ∧ (Discover.onTick ops peers h (Discover.run ops events)).1.ticker
        = min (2 * (Discover.run ops events).dur) (Second * 60)
      ∧ (Discover.onTick ops peers h (Discover.run ops events)).2.2.getLast?
        = some (.tickerReset (min (2 * (Discover.run ops events).dur) (Second * 60))) := by
  obtain ⟨hlo, hhi⟩ := run_dur_bounds ops events
  obtain ⟨h1, h2⟩ := onTick_connected ops peers h (Discover.run ops events) hc
  have hS : Second = 1000000000 := rfl
  have hb := @backoff_eq_min (Discover.run ops events).dur (by rw [hS] at hlo; omega) hhi
  rw [h1, h2, hb]
  exact ⟨rfl, rfl, by simp⟩

set_option maxRecDepth 100000 in
/-- Witness of C21: after a rediscover signal (interval three seconds) a tick finds
bob connected; the new interval is six seconds. -/
theorem C21_Discover_tick_connected_witness :
    (Discover.onTick sampleOps [mkPeer sampleEnv "bob" idB] [idB]
        (Discover.run sampleOps [.discoverNow])).1.dur = Second * 6 :=
  (C21_Discover_tick_connected sampleOps [.discoverNow] [mkPeer sampleEnv "bob" idB] [idB]
    (by decide)).1.trans (by decide)

/-- C22: on every timer tick of `Discover` during which no configured peer is
connected and no dial succeeds, which is the case when the peer list is empty,
`dht.Bootstrap` and `dht.RefreshRoutingTable` are invoked and then the ticker is
reset to ten seconds, and the interval is ten seconds, whatever it was before. -/
theorem C22_Discover_tick_isolated {σ : Type} (ops : HostOps σ) (peers : List Peer) (h : σ)
    (st : DiscoverState) (hc : tickConnected ops peers h = false) :
    (Discover.onTick ops peers h st).1 = ⟨Second * 10, Second * 10⟩
      ∧ (Discover.onTick ops peers h st).2.2
          = (peersLoop ops peers (h, false, [])).2.2
              ++ [.bootstrap, .refreshRoutingTable, .tickerReset (Second * 10)]
      ∧ tickConnected ops [] h = false :=
  ⟨(onTick_not_connected ops peers h st hc).1, (onTick_not_connected ops peers h st hc).2, rfl⟩

set_option maxRecDepth 100000 in
/-- Witness of C22: carol cannot be dialed; at an interval of a minute the tick sets
ten seconds. -/
theorem C22_Discover_tick_isolated_witness :
    (Discover.onTick sampleOps [mkPeer sampleEnv "carol" idC] [] ⟨Second * 60, Second * 60⟩).1
        = ⟨Second * 10, Second * 10⟩
      ∧ (Discover.onTick sampleOps [mkPeer sampleEnv "carol" idC] []
            ⟨Second * 60, Second * 60⟩).2.2
          = [.dial idC, .bootstrap, .refreshRoutingTable, .tickerReset (Second * 10)] :=
  have h := C22_Discover_tick_isolated sampleOps [mkPeer sampleEnv "carol" idC] []
    ⟨Second * 60, Second * 60⟩ (by decide)
  ⟨h.1, h.2.1.trans (by decide)⟩

set_option maxRecDepth 100000 in
/-- C23, as stated, fails: after a rediscover signal the ticker is reset to one
millisecond and the interval is three seconds, but the tick that follows
schedules six seconds when bob is connected and ten seconds when nobody is, not
three seconds. -/
theorem C23_Discover_after_rediscover_counterexample :
    Discover.onDiscoverNow Discover.init
        = (⟨Second * 3, Millisecond * 1⟩, [.tickerReset (Millisecond * 1)])
      ∧ (Discover.onTick sampleOps [mkPeer sampleEnv "bob" idB] [idB]
            (Discover.onDiscoverNow Discover.init).1).1 = ⟨Second * 6, Second * 6⟩
      ∧ (Discover.onTick sampleOps [mkPeer sampleEnv "bob" idB] [idB]
            (Discover.onDiscoverNow Discover.init).1).1.ticker ≠ Second * 3
      ∧ (Discover.onTick sampleOps [] []
            (Discover.onDiscoverNow Discover.init).1).1 = ⟨Second * 10, Second * 10⟩ := by
  decide

/-- C23, amended: after an explicit rediscover signal is received the ticker is reset
to one millisecond and the interval is set to three seconds; the interval that
the loop schedules at the reconciliation tick that follows is six seconds when a
peer is connected or dialed successfully, and ten seconds otherwise. -/
theorem C23_Discover_after_rediscover {σ : Type} (ops : HostOps σ) (st : DiscoverState)
    (peers : List Peer) (h : σ) :
    Discover.onDiscoverNow st = (⟨Second * 3, Millisecond * 1⟩, [.tickerReset (Millisecond * 1)])
      ∧ (Discover.onTick ops peers h (Discover.onDiscoverNow st).1).1
          = if tickConnected ops peers h = true then ⟨Second * 6, Second * 6⟩
            else ⟨Second * 10, Second * 10⟩ := by
  refine ⟨rfl, ?_⟩
  cases hc : tickConnected ops peers h with
  | true =>
    rw [(onTick_connected ops peers h _ hc).1]
    have hb : Discover.backoff (Second * 3) = Second * 6 := by decide
    simp only [if_true]
    show (⟨Discover.backoff (Second * 3), Discover.backoff (Second * 3)⟩ : DiscoverState) = _
    rw [hb]
  | false =>
    rw [(onTick_not_connected ops peers h _ hc).1]
    simp

/-- Connected ticks one after the other double the period of the ticker up to a
minute. -/
theorem foldl_connected_ticks {σ : Type} (ops : HostOps σ) :
    ∀ (events : List (DiscoverEvent σ)) (k : Nat) (st : DiscoverState),
      (∀ e ∈ events, ∃ peers h, e = .tick peers h ∧ tickConnected ops peers h = true) →
      st.dur = min (2 ^ k) 60 * Second → st.ticker = min (2 ^ k) 60 * Second →
      (events.foldl (Discover.step ops) st).dur = min (2 ^ (k + events.length)) 60 * Second
        ∧ (events.foldl (Discover.step ops) st).ticker
            = min (2 ^ (k + events.length)) 60 * Second := by
  intro events
  induction events with
  | nil =>
    intro k st _ hd ht
    exact ⟨hd, ht⟩
  | cons e es ih =>
    intro k st hall hd ht
    obtain ⟨peers, h, rfl, hc⟩ := hall e (List.mem_cons_self _ _)
    have hS : Second = 1000000000 := rfl
    have hpow : (0 : Int) < 2 ^ k := by positivity
    have hstep : Discover.backoff st.dur = min (2 ^ (k + 1)) 60 * Second := by
      have hb := @backoff_eq_min st.dur
        (by rw [hd, hS, min_def]; split_ifs <;> omega)
        (by rw [hd, hS, min_def]; split_ifs <;> omega)
      rw [hb, hd, hS, pow_succ]
      simp only [min_def]
      split_ifs <;> omega
    have hnext := ih (k + 1) (Discover.step ops st (.tick peers h))
      (fun e he => hall e (List.mem_cons_of_mem _ he))
      (by
        simp only [Discover.step]
        rw [(onTick_connected ops peers h st hc).1]
        exact hstep)
      (by
        simp only [Discover.step]
        rw [(onTick_connected ops peers h st hc).1]
        exact hstep)
    simp only [List.foldl_cons, List.length_cons]
    rw [show k + (es.length + 1) = k + 1 + es.length by omega]
    exact hnext

/-- C24: from the initial state of `Discover` (interval one second) and without
rediscover signal, if some peer is connected or dialed with success on every
tick, the wait before the first tick is one second and the wait scheduled after
n ticks is `min(2^n, 60)` seconds: 1 s, 2 s, 4 s, 8 s, 16 s, 32 s, 60 s, 60 s, … -/
theorem C24_Discover_backoff_sequence {σ : Type} (ops : HostOps σ)
    (events : List (DiscoverEvent σ))
    (hall : ∀ e ∈ events, ∃ peers h, e = .tick peers h ∧ tickConnected ops peers h = true) :
    (Discover.run ops events).ticker = min (2 ^ events.length) 60 * Second := by
  have h := (foldl_connected_ticks ops events 0 Discover.init hall (by decide) (by decide)).2
  rw [Nat.zero_add] at h
  exact h

set_option maxRecDepth 100000 in
/-- Witness of C24: seven ticks with bob connected; the wait is then sixty seconds. -/
theorem C24_Discover_backoff_sequence_witness :
    (Discover.run sampleOps
        (List.replicate 7 (.tick [mkPeer sampleEnv "bob" idB] [idB]))).ticker = 60 * Second :=
  (C24_Discover_backoff_sequence sampleOps
    (List.replicate 7 (.tick [mkPeer sampleEnv "bob" idB] [idB]))
    (fun e he => ⟨[mkPeer sampleEnv "bob" idB], [idB], List.eq_of_mem_replicate he,
      by decide⟩)).trans (by decide)

/-- The loop of a tick from any value of `connectedToAny` and any earlier calls: the
state of the host and the new calls are those of the loop started afresh. -/
theorem peersLoop_acc {σ : Type} (ops : HostOps σ) :
    ∀ (peers : List Peer) (h : σ) (a : Bool) (log : List DiscoverEffect),
      peersLoop ops peers (h, a, log)
        = (hostAfter ops peers h, a || tickConnected ops peers h, log ++ dialsOf ops peers h) := by
  intro peers
  induction peers with
  | nil =>
    intro h a log
    simp [peersLoop, hostAfter, tickConnected, dialsOf]
  | cons p ps ih =>
    intro h a log
    unfold hostAfter tickConnected dialsOf
    by_cases hc : ops.Connected h p.ID = true
    · simp only [peersLoop, hc, if_true]
      rw [ih h true log, ih h true []]
      simp
    · rcases hd : ops.DialPeer h p.ID with ⟨h', err⟩
      cases err with
      | none =>
        simp only [peersLoop, hc, hd, if_false, Bool.false_eq_true]
        rw [ih h' true (log ++ [DiscoverEffect.dial p.ID]), ih h' true ([] ++ [DiscoverEffect.dial p.ID])]
        simp
      | some e =>
        simp only [peersLoop, hc, hd, if_false, Bool.false_eq_true]
        rw [ih h' a (log ++ [DiscoverEffect.dial p.ID]), ih h' false ([] ++ [DiscoverEffect.dial p.ID])]
        simp

/-- One round of the loop of a tick, for the first peer of the list. -/
theorem peersLoop_cons {σ : Type} (ops : HostOps σ) (p : Peer) (ps : List Peer) (h : σ) :
    (hostAfter ops (p :: ps) h, tickConnected ops (p :: ps) h, dialsOf ops (p :: ps) h)
      = if ops.Connected h p.ID = true then
          (hostAfter ops ps h, true, dialsOf ops ps h)
        else
          (hostAfter ops ps (ops.DialPeer h p.ID).1,
            (ops.DialPeer h p.ID).2.isNone || tickConnected ops ps (ops.DialPeer h p.ID).1,
            .dial p.ID :: dialsOf ops ps (ops.DialPeer h p.ID).1) := by
  have hfold : (hostAfter ops (p :: ps) h, tickConnected ops (p :: ps) h,
      dialsOf ops (p :: ps) h) = peersLoop ops (p :: ps) (h, false, []) := rfl
  rw [hfold]
  by_cases hc : ops.Connected h p.ID = true
  · simp only [peersLoop, hc, if_true]
    rw [peersLoop_acc]
    simp
  · rcases hd : ops.DialPeer h p.ID with ⟨h', err⟩
    cases err with
    | none =>
      simp only [peersLoop, hc, hd, if_false, Bool.false_eq_true]
      rw [peersLoop_acc]
      simp
    | some e =>
      simp only [peersLoop, hc, hd, if_false, Bool.false_eq_true]
      rw [peersLoop_acc]
      simp

/-- The calls of a tick: for a peer that the loop finds connected no call, for a peer
it finds not connected one `DialPeer`, in the order of the list. -/
theorem dialsOf_split {σ : Type} (ops : HostOps σ) :
    ∀ (pre : List Peer) (p : Peer) (post : List Peer) (h : σ),
      dialsOf ops (pre ++ p :: post) h
        = dialsOf ops pre h
          ++ (if ops.Connected (hostAfter ops pre h) p.ID = true then []
              else [DiscoverEffect.dial p.ID])
          ++ dialsOf ops post (hostAfter ops [p] (hostAfter ops pre h)) := by
  intro pre
  induction pre with
  | nil =>
    intro p post h
    have h1 := peersLoop_cons ops p post h
    have h2 := peersLoop_cons ops p [] h
    have hnil : ∀ x : σ, hostAfter ops [] x = x := fun _ => rfl
    have hnild : ∀ x : σ, dialsOf ops [] x = [] := fun _ => rfl
    by_cases hc : ops.Connected h p.ID = true
    · simp only [hc, if_true, Prod.mk.injEq] at h1 h2
      simp only [List.nil_append, hnil, hnild, hc, if_true, h1.2.2, h2.1]
    · simp only [hc, if_false, Prod.mk.injEq, Bool.false_eq_true] at h1 h2
      simp only [List.nil_append, hnil, hnild, hc, if_false, h1.2.2, h2.1, Bool.false_eq_true,
        List.singleton_append]
  | cons a pre ih =>
    intro p post h
    have h1 := peersLoop_cons ops a (pre ++ p :: post) h
    have h2 := peersLoop_cons ops a pre h
    by_cases hc : ops.Connected h a.ID = true
    · simp only [hc, if_true, Prod.mk.injEq] at h1 h2
      simp only [List.cons_append, h1.2.2, h2.2.2, h2.1, ih p post h]
    · simp only [hc, if_false, Prod.mk.injEq, Bool.false_eq_true] at h1 h2
      simp only [List.cons_append, h1.2.2, h2.2.2, h2.1, ih p post _]

/-- The loop of a tick ends with `connectedToAny` true exactly when it finds some peer
connected or some `DialPeer` call returns no error. -/
theorem tickConnected_iff {σ : Type} (ops : HostOps σ) :
    ∀ (peers : List Peer) (h : σ),
      tickConnected ops peers h = true ↔
        ∃ pre p post, peers = pre ++ p :: post
          ∧ (ops.Connected (hostAfter ops pre h) p.ID = true
            ∨ (ops.Connected (hostAfter ops pre h) p.ID = false
                ∧ (ops.DialPeer (hostAfter ops pre h) p.ID).2 = none)) := by
  intro peers
  induction peers with
  | nil =>
    intro h
    constructor
    · intro hc
      cases hc
    · rintro ⟨pre, p, post, hsplit, _⟩
      cases pre <;> cases hsplit
  | cons a ps ih =>
    intro h
    have h1 := peersLoop_cons ops a ps h
    by_cases hc : ops.Connected h a.ID = true
    · simp only [hc, if_true, Prod.mk.injEq] at h1
      rw [h1.2.1]
      simp only [true_iff]
      exact ⟨[], a, ps, rfl, Or.inl hc⟩
    · simp only [hc, if_false, Prod.mk.injEq, Bool.false_eq_true] at h1
      rw [h1.2.1]
      have hcf : ops.Connected h a.ID = false := by simpa using hc
      cases hd : (ops.DialPeer h a.ID).2 with
      | none =>
        simp only [Option.isNone_none, Bool.true_or, true_iff]
        exact ⟨[], a, ps, rfl, Or.inr ⟨hcf, hd⟩⟩
      | some e =>
        simp only [Option.isNone_some, Bool.false_or]
        rw [ih]
        constructor
        · rintro ⟨pre, p, post, hsplit, hcond⟩
          refine ⟨a :: pre, p, post, by rw [hsplit]; rfl, ?_⟩
          have h2 := peersLoop_cons ops a pre h
          simp only [hc, if_false, Prod.mk.injEq, Bool.false_eq_true] at h2
          rw [h2.1]
          exact hcond
        · rintro ⟨pre, p, post, hsplit, hcond⟩
          cases pre with
          | nil =>
            simp only [List.nil_append, List.cons.injEq] at hsplit
            obtain ⟨rfl, rfl⟩ := hsplit
            have hnil : hostAfter ops [] h = h := rfl
            rw [hnil] at hcond
            rcases hcond with hcond | ⟨_, hcond⟩
            · exact absurd hcond hc
            · rw [hd] at hcond
              cases hcond
          | cons b pre =>
            simp only [List.cons_append, List.cons.injEq] at hsplit
            obtain ⟨rfl, rfl⟩ := hsplit
            have h2 := peersLoop_cons ops a pre h
            simp only [hc, if_false, Prod.mk.injEq, Bool.false_eq_true] at h2
            rw [h2.1] at hcond
            exact ⟨pre, p, post, rfl, hcond⟩

/-- The loop of a tick over a list of peers followed by one more peer: the state of
the host after the last peer. -/
theorem hostAfter_snoc {σ : Type} (ops : HostOps σ) :
    ∀ (pre : List Peer) (p : Peer) (h : σ),
      hostAfter ops (pre ++ [p]) h
        = if ops.Connected (hostAfter ops pre h) p.ID = true then hostAfter ops pre h
          else (ops.DialPeer (hostAfter ops pre h) p.ID).1 := by
  intro pre
  induction pre with
  | nil =>
    intro p h
    have h1 := peersLoop_cons ops p [] h
    have hnil : ∀ x : σ, hostAfter ops [] x = x := fun _ => rfl
    by_cases hc : ops.Connected h p.ID = true
    · simp only [hc, if_true, Prod.mk.injEq] at h1
      simp only [List.nil_append, hnil, hc, if_true, h1.1]
    · simp only [hc, if_false, Prod.mk.injEq, Bool.false_eq_true] at h1
      simp only [List.nil_append, hnil, hc, if_false, h1.1, Bool.false_eq_true]
  | cons a pre ih =>
    intro p h
    have h1 := peersLoop_cons ops a (pre ++ [p]) h
    have h2 := peersLoop_cons ops a pre h
    by_cases hc : ops.Connected h a.ID = true
    · simp only [hc, if_true, Prod.mk.injEq] at h1 h2
      simp only [List.cons_append, h1.1, h2.1, ih p h]
    · simp only [hc, if_false, Prod.mk.injEq, Bool.false_eq_true] at h1 h2
      simp only [List.cons_append, h1.1, h2.1, ih p _]

/-- A tick of `Discover` in full: the state of the host it leaves, the calls it
issues and the variables it sets, by the outcome of its loop over the peers. -/
theorem onTick_eq {σ : Type} (ops : HostOps σ) (peers : List Peer) (h : σ)
    (st : DiscoverState) :
    Discover.onTick ops peers h st
      = (if tickConnected ops peers h = true then
            ⟨Discover.backoff st.dur, Discover.backoff st.dur⟩
          else ⟨Second * 10, Second * 10⟩,
          hostAfter ops peers h,
          dialsOf ops peers h
            ++ (if tickConnected ops peers h = true then
                  [DiscoverEffect.tickerReset (Discover.backoff st.dur)]
                else [DiscoverEffect.bootstrap, DiscoverEffect.refreshRoutingTable,
                  DiscoverEffect.tickerReset (Second * 10)])) := by
  unfold tickConnected hostAfter dialsOf Discover.onTick
  rcases hp : peersLoop ops peers (h, false, []) with ⟨h', any, log⟩
  cases any <;> simp

/-- C26: a tick of `Discover` goes through `cfg.Peers` in order; it invokes
`DialPeer` for exactly those peers that it finds not connected when it reaches
them, never for a peer it finds connected, and issues these calls, in the order
of the peers, before the calls of its branch; each `DialPeer` leaves the host in
the state the next peer is looked up in; and the tick takes the branch that
doubles the interval (one `ticker.Reset` with the doubled interval) if and only
if some peer was found connected or some `DialPeer` call returned no error;
otherwise it takes the bootstrap branch (`dht.Bootstrap`,
`dht.RefreshRoutingTable`, `ticker.Reset` with ten seconds). -/
theorem C26_Discover_tick_dials {σ : Type} (ops : HostOps σ) (peers : List Peer) (h : σ)
    (st : DiscoverState) :
    Discover.onTick ops peers h st
        = (if tickConnected ops peers h = true then
              ⟨Discover.backoff st.dur, Discover.backoff st.dur⟩
            else ⟨Second * 10, Second * 10⟩,
            hostAfter ops peers h,
            dialsOf ops peers h
              ++ (if tickConnected ops peers h = true then
                    [DiscoverEffect.tickerReset (Discover.backoff st.dur)]
                  else [DiscoverEffect.bootstrap, DiscoverEffect.refreshRoutingTable,
                    DiscoverEffect.tickerReset (Second * 10)]))
      ∧ (Discover.onTick ops [] h st).2.1 = h
      ∧ (Discover.onTick ops [] h st).2.2
          = [DiscoverEffect.bootstrap, DiscoverEffect.refreshRoutingTable,
              DiscoverEffect.tickerReset (Second * 10)]
      ∧ (∀ pre p,
          (Discover.onTick ops (pre ++ [p]) h st).2.1
            = if ops.Connected (Discover.onTick ops pre h st).2.1 p.ID = true then
                (Discover.onTick ops pre h st).2.1
              else (ops.DialPeer (Discover.onTick ops pre h st).2.1 p.ID).1)
      ∧ (∀ pre p post, peers = pre ++ p :: post →
          (Discover.onTick ops peers h st).2.2
            = dialsOf ops pre h
              ++ (if ops.Connected (Discover.onTick ops pre h st).2.1 p.ID = true then []
                  else [DiscoverEffect.dial p.ID])
              ++ dialsOf ops post (Discover.onTick ops (pre ++ [p]) h st).2.1
              ++ (if tickConnected ops peers h = true then
                    [DiscoverEffect.tickerReset (Discover.backoff st.dur)]
                  else [DiscoverEffect.bootstrap, DiscoverEffect.refreshRoutingTable,
                    DiscoverEffect.tickerReset (Second * 10)]))
      ∧ (∀ ps h0, (Discover.onTick ops ps h0 st).2.2
          = dialsOf ops ps h0
            ++ (if tickConnected ops ps h0 = true then
                  [DiscoverEffect.tickerReset (Discover.backoff st.dur)]
                else [DiscoverEffect.bootstrap, DiscoverEffect.refreshRoutingTable,
                  DiscoverEffect.tickerReset (Second * 10)]))
      ∧ (tickConnected ops peers h = true ↔
          ∃ pre p post, peers = pre ++ p :: post
            ∧ (ops.Connected (Discover.onTick ops pre h st).2.1 p.ID = true
              ∨ (ops.Connected (Discover.onTick ops pre h st).2.1 p.ID = false
                  ∧ (ops.DialPeer (Discover.onTick ops pre h st).2.1 p.ID).2 = none))) := by
  have hhost : ∀ ps h0, (Discover.onTick ops ps h0 st).2.1 = hostAfter ops ps h0 := by
    intro ps h0
    rw [onTick_eq]
  have hcalls : ∀ ps h0, (Discover.onTick ops ps h0 st).2.2
      = dialsOf ops ps h0
        ++ (if tickConnected ops ps h0 = true then
              [DiscoverEffect.tickerReset (Discover.backoff st.dur)]
            else [DiscoverEffect.bootstrap, DiscoverEffect.refreshRoutingTable,
              DiscoverEffect.tickerReset (Second * 10)]) := by
    intro ps h0
    rw [onTick_eq]
  refine ⟨onTick_eq ops peers h st, rfl, rfl, ?_, ?_, hcalls, ?_⟩
  · intro pre p
    rw [hhost, hhost]
    exact hostAfter_snoc ops pre p h
  · rintro pre p post rfl
    rw [hcalls, hhost, hhost, dialsOf_split ops pre p post h, hostAfter_snoc ops pre p h]
    have h1 := peersLoop_cons ops p [] (hostAfter ops pre h)
    have hnil : ∀ x : σ, hostAfter ops [] x = x := fun _ => rfl
    by_cases hc : ops.Connected (hostAfter ops pre h) p.ID = true
    · simp only [hc, if_true, Prod.mk.injEq] at h1
      simp only [hc, if_true, h1.1, hnil]
    · simp only [hc, if_false, Prod.mk.injEq, Bool.false_eq_true] at h1
      simp only [hc, if_false, h1.1, hnil, Bool.false_eq_true]
  · simp only [hhost]
    exact tickConnected_iff ops peers h

set_option maxRecDepth 100000 in
/-- C26 at work: alice is connected, bob and carol are not; the tick dials bob and
carol, not alice, and takes the doubling branch. With carol alone, not
connected, the tick dials her without success and takes the bootstrap branch. -/
theorem Discover_tick_dials_example :
    dialsOf sampleOps
        [mkPeer sampleEnv "alice" idA, mkPeer sampleEnv "bob" idB, mkPeer sampleEnv "carol" idC]
        [idA] = [.dial idB, .dial idC]
      ∧ tickConnected sampleOps
        [mkPeer sampleEnv "alice" idA, mkPeer sampleEnv "bob" idB, mkPeer sampleEnv "carol" idC]
        [idA] = true
      ∧ Discover.onTick sampleOps [mkPeer sampleEnv "carol" idC] [] Discover.init
        = (⟨Second * 10, Second * 10⟩, [],
            [.dial idC, .bootstrap, .refreshRoutingTable, .tickerReset (Second * 10)]) := by
  decide

/-! ## Claims on `AddPeer`, on the panic of the lookups and on references by id -/

/-- C25: `HyprspaceRPC.AddPeer` replies `Success == true` if and only if the name is
non-empty, the id string is non-empty, the id string decodes to a peer id, no
peer of `cfg.Peers` has that id and no peer of `cfg.Peers` has exactly that
name; the first of these conditions that is violated, in this order, decides
the error of the reply. -/
theorem C25_AddPeer_success_iff (env : Env) (hsr : HyprspaceRPC) (args : AddPeerArgs) :
    ∃ hsr' reply, HyprspaceRPC.AddPeer env hsr args = .ret (hsr', reply)
      ∧ (reply.Success = true ↔
          args.Name ≠ "" ∧ args.ID ≠ ""
            ∧ ∃ id, env.Decode args.ID = .ok id ∧ (∀ p ∈ hsr.config.Peers, p.ID ≠ id)
              ∧ ∀ p ∈ hsr.config.Peers, p.Name ≠ args.Name)
      ∧ (args.Name = "" → reply.Err = some "peer name cannot be empty")
      ∧ (args.Name ≠ "" → args.ID = "" → reply.Err = some "peer ID cannot be empty")
      ∧ (∀ e, args.Name ≠ "" → args.ID ≠ "" → env.Decode args.ID = .error e →
          reply.Err = some e)
      ∧ (∀ id, args.Name ≠ "" → args.ID ≠ "" → env.Decode args.ID = .ok id →
          (∃ p ∈ hsr.config.Peers, p.ID = id) → reply.Err = some "peer already exists")
      ∧ (∀ id, args.Name ≠ "" → args.ID ≠ "" → env.Decode args.ID = .ok id →
          (∀ p ∈ hsr.config.Peers, p.ID ≠ id) → (∃ p ∈ hsr.config.Peers, p.Name = args.Name) →
          reply.Err = some "peer name already exists") := by
  have hlast : ∀ peerID : PeerID,
      (hsr.config.AddPeer env args.Name peerID).1.Peers.getLast?
        = some (mkPeer env args.Name peerID) := by
    intro peerID
    simp [Config.AddPeer, mkPeer]
  unfold HyprspaceRPC.AddPeer
  by_cases h1 : args.Name = ""
  · rw [if_pos h1]
    refine ⟨_, _, rfl, ?_, ?_, ?_, ?_, ?_, ?_⟩
    · simp [h1]
    · intro _; rfl
    · intro h; exact absurd h1 h
    · intro e h; exact absurd h1 h
    · intro id h; exact absurd h1 h
    · intro id h; exact absurd h1 h
  · rw [if_neg h1]
    by_cases h2 : args.ID = ""
    · rw [if_pos h2]
      refine ⟨_, _, rfl, ?_, ?_, ?_, ?_, ?_, ?_⟩
      · simp [h2]
      · intro h; exact absurd h h1
      · intro _ _; rfl
      · intro e _ h; exact absurd h2 h
      · intro id _ h; exact absurd h2 h
      · intro id _ h; exact absurd h2 h
    · rw [if_neg h2]
      cases hd : env.Decode args.ID with
      | error err =>
        refine ⟨_, _, rfl, ?_, ?_, ?_, ?_, ?_, ?_⟩
        · simp
        · intro h; exact absurd h h1
        · intro _ h; exact absurd h h2
        · intro e _ _ he
          cases he
          rfl
        · intro id _ _ he; cases he
        · intro id _ _ he; cases he
      | ok peerID =>
        dsimp only
        by_cases h3 : (FindPeer hsr.config.Peers peerID).2 = true
        · rw [if_pos h3]
          have hex := (FindPeer_found_iff hsr.config.Peers peerID).1 h3
          refine ⟨_, _, rfl, ?_, ?_, ?_, ?_, ?_, ?_⟩
          · simp only [Bool.false_eq_true, false_iff, not_and, not_exists]
            intro _ _ id hid hno
            cases hid
            obtain ⟨p, hp, hpid⟩ := hex
            exact absurd hpid (hno p hp)
          · intro h; exact absurd h h1
          · intro _ h; exact absurd h h2
          · intro e _ _ he; cases he
          · intro id _ _ _ _; rfl
          · intro id _ _ he hno
            cases he
            obtain ⟨p, hp, hpid⟩ := hex
            exact absurd hpid (hno p hp)
        · rw [if_neg h3]
          have hnoid : ∀ p ∈ hsr.config.Peers, p.ID ≠ peerID := by
            intro p hp hpid
            exact h3 ((FindPeer_found_iff hsr.config.Peers peerID).2 ⟨p, hp, hpid⟩)
          by_cases h4 : (FindPeerByName hsr.config.Peers args.Name).2 = true
          · rw [if_pos h4]
            have hexn : ∃ p ∈ hsr.config.Peers, p.Name = args.Name := by
              by_contra hcon
              have hnone := FindPeerByName_none hsr.config.Peers args.Name
                (fun p hp hn => hcon ⟨p, hp, hn⟩)
              rw [hnone] at h4
              cases h4
            refine ⟨_, _, rfl, ?_, ?_, ?_, ?_, ?_, ?_⟩
            · simp only [Bool.false_eq_true, false_iff, not_and, not_exists]
              intro _ _ id _ _ hnon
              obtain ⟨p, hp, hpn⟩ := hexn
              exact hnon p hp hpn
            · intro h; exact absurd h h1
            · intro _ h; exact absurd h h2
            · intro e _ _ he; cases he
            · intro id _ _ he hex
              cases he
              obtain ⟨p, hp, hpid⟩ := hex
              exact absurd hpid (hnoid p hp)
            · intro id _ _ _ _ _; rfl
          · rw [if_neg h4]
            have hnoname : ∀ p ∈ hsr.config.Peers, p.Name ≠ args.Name := by
              intro p hp hpn
              obtain ⟨q, hq, _, _⟩ := FindPeerByName_found hsr.config.Peers args.Name ⟨p, hp, hpn⟩
              rw [hq] at h4
              exact h4 rfl
            have hadd : hsr.config.AddPeer env args.Name peerID
                = ((hsr.config.AddPeer env args.Name peerID).1, none) := rfl
            rw [hadd]
            dsimp only
            rw [hlast peerID]
            refine ⟨_, _, rfl, ?_, ?_, ?_, ?_, ?_, ?_⟩
            · simp only [true_iff]
              exact ⟨h1, h2, peerID, rfl, hnoid, hnoname⟩
            · intro h; exact absurd h h1
            · intro _ h; exact absurd h h2
            · intro e _ _ he; cases he
            · intro id _ _ he hex
              cases he
              obtain ⟨p, hp, hpid⟩ := hex
              exact absurd hpid (hnoid p hp)
            · intro id _ _ _ _ hex
              obtain ⟨p, hp, hpn⟩ := hex
              exact absurd hpn (hnoname p hp)

set_option maxRecDepth 100000 in
/-- Witness of C26: alice is connected, bob and carol are not. The tick calls
`DialPeer` for bob and then for carol, not for alice; the dial of bob succeeds,
so the host ends connected to bob and alice, the tick takes the doubling branch
and its last call resets the ticker to two seconds. -/
theorem C26_Discover_tick_dials_witness :
    Discover.onTick sampleOps
        [mkPeer sampleEnv "alice" idA, mkPeer sampleEnv "bob" idB, mkPeer sampleEnv "carol" idC]
        [idA] Discover.init
      = (⟨Second * 2, Second * 2⟩, [idB, idA],
          [.dial idB, .dial idC, .tickerReset (Second * 2)]) :=
  (C26_Discover_tick_dials sampleOps
    [mkPeer sampleEnv "alice" idA, mkPeer sampleEnv "bob" idB, mkPeer sampleEnv "carol" idC]
    [idA] Discover.init).1.trans (by decide)

set_option maxRecDepth 100000 in
/-- Witness of C25: with bob configured, the request for `"carol"` with the id of
carol meets the five conditions and is accepted. -/
theorem C25_AddPeer_success_iff_witness :
    ∃ hsr' reply, HyprspaceRPC.AddPeer sampleEnv (HyprspaceRPC.start cfgBob)
        ⟨"carol", "QmCarol"⟩ = .ret (hsr', reply) ∧ reply.Success = true :=
  (C25_AddPeer_success_iff sampleEnv (HyprspaceRPC.start cfgBob) ⟨"carol", "QmCarol"⟩).elim
    fun hsr' h => h.elim fun reply hh =>
      ⟨hsr', reply, hh.1, hh.2.1.2 ⟨by decide, by decide, idC, by rfl, by decide, by decide⟩⟩

set_option maxRecDepth 100000 in
/-- C27 on the code: the table of `cfgNested` was filled by `AddPeer` and `Route Add`
with `*RouteTableEntry` values; two entries contain `10.1.2.3` and two entries
lie within `10.0.0.0/8`, and both `FindRouteForIP(10.1.2.3)` and
`FindRoute(10.0.0.0/8)` panic in the duplicate-route branch, at the type
assertion `n.(RouteTableEntry)`. -/
theorem C27_lookups_panic_on_duplicates :
    cfgNested.PeerLookup.ByRoute.Consistent
      ∧ cfgNested.PeerLookup.ByRoute.ContainingNetworks [10, 1, 2, 3]
          = ([.ptr route8, .ptr route16], none)
      ∧ cfgNested.FindRouteForIP [10, 1, 2, 3] = .panic
      ∧ cfgNested.PeerLookup.ByRoute.CoveredNetworks ⟨[10, 0, 0, 0], 8⟩
          = ([.ptr route8, .ptr route16], none)
      ∧ cfgNested.FindRoute ⟨[10, 0, 0, 0], 8⟩ = .panic
      ∧ assertValue (.ptr route8) = .panic
      ∧ assertPointer (.ptr route8) = .ret route8 := by
  decide

/-- On a table whose entries are `*RouteTableEntry` values, `FindRouteForIP` panics
whenever two or more entries contain the address. -/
theorem FindRouteForIP_panics (cfg : Config) (hr : cfg.PeerLookup.ByRoute.Consistent) (ip : IP)
    (n1 n2 : RangerEntry) (rest : List RangerEntry)
    (h : cfg.PeerLookup.ByRoute.entries.filter (fun n => n.Network.Contains ip)
      = n1 :: n2 :: rest) :
    cfg.FindRouteForIP ip = .panic := by
  rw [FindRouteForIP_eq cfg hr ip, h]
  cases n1 <;> rfl

/-- C28: for every non-empty peer list `FindPeerByCLIRef(peers, "")` returns
found=true with the first peer of the list, and `FindPeerByIDPrefix` returns the
first peer in list order whose textual id starts with the needle, or
`(nil, false)` when there is none. -/
theorem C28_FindPeerByIDPrefix_first (env : Env) (needle : String) :
    (∀ p ps, FindPeerByCLIRef env (p :: ps) "" = (some p, true))
      ∧ (∀ pre p post, (∀ q ∈ pre, HasPrefix (env.IDString q.ID) needle = false) →
          HasPrefix (env.IDString p.ID) needle = true →
          FindPeerByIDPrefix env (pre ++ p :: post) needle = (some p, true))
      ∧ (∀ peers, (∀ q ∈ peers, HasPrefix (env.IDString q.ID) needle = false) →
          FindPeerByIDPrefix env peers needle = (none, false)) := by
  have hempty : ∀ s : String, HasPrefix s "" = true := by
    intro s
    simp [HasPrefix, List.isPrefixOf]
  have hat : HasPrefix "" "@" = false := by decide
  refine ⟨?_, ?_, ?_⟩
  · intro p ps
    unfold FindPeerByCLIRef
    rw [hat]
    simp only [Bool.false_eq_true, if_false, FindPeerByIDPrefix, hempty, if_true]
  · intro pre
    induction pre with
    | nil =>
      intro p post _ hp
      simp only [List.nil_append, FindPeerByIDPrefix, hp, if_true]
    | cons a pre ih =>
      intro p post hpre hp
      have ha := hpre a (List.mem_cons_self _ _)
      simp only [List.cons_append, FindPeerByIDPrefix, ha, Bool.false_eq_true, if_false]
      exact ih p post (fun q hq => hpre q (List.mem_cons_of_mem _ hq)) hp
  · intro peers
    induction peers with
    | nil => intro _; rfl
    | cons a ps ih =>
      intro hall
      have ha := hall a (List.mem_cons_self _ _)
      simp only [FindPeerByIDPrefix, ha, Bool.false_eq_true, if_false]
      exact ih (fun q hq => hall q (List.mem_cons_of_mem _ hq))

set_option maxRecDepth 100000 in
/-- Witness of C28: in the registry of alice and alicia the needle `"QmAlici"` skips
alice and finds alicia, and the empty reference finds alice. -/
theorem C28_FindPeerByIDPrefix_first_witness :
    FindPeerByIDPrefix sampleEnv peersAlice "QmAlici" = (some (mkPeer sampleEnv "alicia" idX), true)
      ∧ FindPeerByCLIRef sampleEnv peersAlice "" = (some (mkPeer sampleEnv "alice" idA), true) :=
  ⟨(C28_FindPeerByIDPrefix_first sampleEnv "QmAlici").2.1 [mkPeer sampleEnv "alice" idA]
      (mkPeer sampleEnv "alicia" idX) [] (by decide) (by decide),
    (C28_FindPeerByIDPrefix_first sampleEnv "").1 (mkPeer sampleEnv "alice" idA)
      [mkPeer sampleEnv "alicia" idX]⟩

/-! ## Claims on the JSON-RPC front end -/

theorem stringArgs_map_string (l : List String) : stringArgs (l.map JSON.string) = l := by
  induction l with
  | nil => rfl
  | cons a l ih => simp only [List.map_cons, stringArgs, ih]

/-- The server reads back the action and the arguments that `JSONRPCClient.Route`
sent. -/
theorem handleRoute_of_client (env : Env) (names : RouteActionNames) (host : Host) (tun : TUN)
    (hsr : HyprspaceRPC) (action : RouteAction) (l : List String)
    (hround : RouteAction.ofString names (action.string names) = action) :
    JSONRPCServer.handleRoute env names host tun hsr
        (JSONRPCClient.Route names action (some l)).2
      = (HyprspaceRPC.Route env host tun hsr ⟨action, l⟩ ⟨"", [], none⟩).bind
          (fun out => .ret (routeResponse out)) := by
  simp only [JSONRPCServer.handleRoute, JSONRPCClient.Route, JSON.field, if_true, hround]
  simp [stringArgs_map_string]

/-- C29: for every destination string, the request that `JSONRPCClient.AddRoute`
builds (action `Add`, the single argument `destination`) is rejected by
`JSONRPCServer.handleRoute` over the `Route` handler of `rpc/server.go` with the
JSON-RPC error `InternalError` whose data is "expected exactly 2 arguments", and
the handler state is unchanged; the request that `JSONRPCClient.DelRoute` builds
reaches the `Del` branch with exactly one argument, passes its argument-count
check and goes on to `net.ParseCIDR`. -/
theorem C29_client_AddRoute_rejected (env : Env) (names : RouteActionNames) (host : Host)
    (tun : TUN) (hsr : HyprspaceRPC) (destination : String) (hnames : names.Distinct) :
    JSONRPCServer.handleRoute env names host tun hsr (JSONRPCClient.AddRoute names destination).2
        = .ret (hsr, none,
            some ⟨InternalError, "Internal error", some "expected exactly 2 arguments"⟩)
      ∧ JSONRPCServer.handleRoute env names host tun hsr
            (JSONRPCClient.DelRoute names destination).2
        = (HyprspaceRPC.Route env host tun hsr ⟨.Del, [destination]⟩ ⟨"", [], none⟩).bind
            (fun out => .ret (routeResponse out))
      ∧ (∀ e, env.ParseCIDR destination = .error e →
          JSONRPCServer.handleRoute env names host tun hsr
              (JSONRPCClient.DelRoute names destination).2
            = .ret (hsr, none, some ⟨InternalError, "Internal error", some e⟩)) := by
  obtain ⟨h1, h2, h3⟩ := hnames
  have hadd : RouteAction.ofString names (RouteAction.Add.string names) = .Add := by
    simp only [RouteAction.ofString, RouteAction.string, if_neg (Ne.symm h1), if_true]
  have hdel : RouteAction.ofString names (RouteAction.Del.string names) = .Del := by
    simp only [RouteAction.ofString, RouteAction.string, if_neg (Ne.symm h2),
      if_neg (Ne.symm h3), if_true]
  refine ⟨?_, ?_, ?_⟩
  · unfold JSONRPCClient.AddRoute
    rw [handleRoute_of_client env names host tun hsr .Add [destination] hadd]
    rfl
  · unfold JSONRPCClient.DelRoute
    exact handleRoute_of_client env names host tun hsr .Del [destination] hdel
  · intro e he
    unfold JSONRPCClient.DelRoute
    rw [handleRoute_of_client env names host tun hsr .Del [destination] hdel]
    simp only [HyprspaceRPC.Route, he, Exec.bind, routeResponse]

set_option maxRecDepth 100000 in
/-- Witness of C29: the client asks to add `10.42.0.0/16`. -/
theorem C29_client_AddRoute_rejected_witness :
    JSONRPCServer.handleRoute sampleEnv sampleNames hostIdle tunOK (HyprspaceRPC.start cfgBob)
        (JSONRPCClient.AddRoute sampleNames "10.42.0.0/16").2
      = .ret (HyprspaceRPC.start cfgBob, none,
          some ⟨InternalError, "Internal error", some "expected exactly 2 arguments"⟩) :=
  (C29_client_AddRoute_rejected sampleEnv sampleNames hostIdle tunOK (HyprspaceRPC.start cfgBob)
    "10.42.0.0/16" (by decide)).1

end MyNetwork
